import Mathlib

/-!
# Verification of the nsga2-rs core against its specification

This file shallowly embeds the core algorithms of the `nsga2` crate
(fast non-dominated sorting, crowding-distance assignment, NSGA/NSGP
selection, tournament selection, and the generational driver loop) as
executable Lean definitions, and proves the specification claims about
them.

Modelling conventions:
* Rust `Vec<usize>` buffers indexed by solution index are modelled as
  total functions `Nat → Nat` (resp. `Nat → List Nat`); all accesses in
  the source are in bounds.
* Rust's `f64` is modelled by exact rationals `ℚ`; every numeric value
  appearing in the claims is exactly representable, so no rounding is
  involved.  The `+∞` sentinel used by crowding distances is modelled by
  an explicit `FVal.inf` constructor with absorbing addition, matching
  IEEE `∞ + x = ∞`.
* A Rust `assert!` (or a panicking `unwrap`) is modelled by returning
  `Except.error`/`none`; a normal return is `Except.ok`/`some`.
* The stateful `Domination` trait object (`&mut D`) is modelled by
  threading an explicit state `σ` through `dom : σ → α → α → Ordering × σ`.
-/

set_option maxHeartbeats 1000000

namespace NSGA2

/-! ## Embedding of `sort.rs`: `FastNonDominatedSorter`

The sorter state mirrors the three `Vec`s of the Rust struct, plus the
domination state `ds` and the chronological `trace` of index pairs
`(i, j)` passed to `domination_ord` (one entry per call; the call itself
receives `(solutions[i], solutions[j])`). -/

structure SorterState (σ : Type) where
  count : Nat → Nat
  succs : Nat → List Nat
  front : List Nat
  ds : σ
  trace : List (Nat × Nat)

/-- One iteration of the inner loop of `FastNonDominatedSorter::new`
(sort.rs lines 34–55): process the pair `(i, j)` with `i < j`, making
exactly one call to `domination_ord(solutions[i], solutions[j])`. -/
def stepPair {σ α : Type} (dom : σ → α → α → Ordering × σ) (p q : α) (i j : Nat)
    (st : SorterState σ) : SorterState σ :=
  match dom st.ds p q with
  | (o, ds') =>
    let st1 : SorterState σ := { st with ds := ds', trace := st.trace ++ [(i, j)] }
    match o with
    | .lt =>
      { st1 with
        succs := fun x => if x = i then st1.succs i ++ [j] else st1.succs x
        count := fun x => if x = j then st1.count j + 1 else st1.count x }
    | .gt =>
      { st1 with
        succs := fun x => if x = j then st1.succs j ++ [i] else st1.succs x
        count := fun x => if x = i then st1.count i + 1 else st1.count x }
    | .eq => st1

/-- One iteration of the outer loop of `FastNonDominatedSorter::new`
(sort.rs lines 33–63): the inner loop over `j ∈ [i+1, n)` followed by the
first-front membership check for `i`. -/
def stepOuter {σ α : Type} (dom : σ → α → α → Ordering × σ) (sols : List α) (dflt : α)
    (n : Nat) (st : SorterState σ) (i : Nat) : SorterState σ :=
  let st1 := (List.range' (i + 1) (n - (i + 1))).foldl
    (fun st j => stepPair dom (sols.getD i dflt) (sols.getD j dflt) i j st) st
  if st1.count i = 0 then { st1 with front := st1.front ++ [i] } else st1

/-- `FastNonDominatedSorter::new` (sort.rs lines 21–70). -/
def sorterNew {σ α : Type} (dom : σ → α → α → Ordering × σ) (s0 : σ) (sols : List α)
    (dflt : α) : SorterState σ :=
  (List.range sols.length).foldl (stepOuter dom sols dflt sols.length)
    { count := fun _ => 0, succs := fun _ => [], front := [], ds := s0, trace := [] }

/-- `<FastNonDominatedSorter as Iterator>::next` (sort.rs lines 75–104).
It makes no call to the domination relation: its argument is only the
sorter state. -/
def sorterNext {σ : Type} (st : SorterState σ) : Option (List Nat × SorterState σ) :=
  if st.front = [] then none
  else
    let res := st.front.foldl
      (fun (acc : List Nat × (Nat → Nat)) p =>
        (st.succs p).foldl
          (fun (acc2 : List Nat × (Nat → Nat)) q =>
            let c := acc2.2 q - 1
            (if c = 0 then acc2.1 ++ [q] else acc2.1,
             fun x => if x = q then c else acc2.2 x))
          acc)
      ([], st.count)
    some (st.front, { st with front := res.1, count := res.2 })

/-- Pull up to `fuel` fronts from the iterator, returning the produced
fronts (in production order) and the final sorter state. -/
def collectFronts {σ : Type} (fuel : Nat) (st : SorterState σ) :
    List (List Nat) × SorterState σ :=
  match fuel with
  | 0 => ([], st)
  | fuel + 1 =>
    match sorterNext st with
    | none => ([], st)
    | some (f, st') =>
      let r := collectFronts fuel st'
      (f :: r.1, r.2)

/-- The index pairs `(i, j)`, `i < j < n`, in the iteration order of the
nested loops of `FastNonDominatedSorter::new`. -/
def pairList (n : Nat) : List (Nat × Nat) :=
  (List.range n).flatMap fun i => (List.range' (i + 1) (n - (i + 1))).map fun j => (i, j)

/-! ### The call trace of `new` -/

theorem stepPair_trace {σ α : Type} (dom : σ → α → α → Ordering × σ) (p q : α) (i j : Nat)
    (st : SorterState σ) : (stepPair dom p q i j st).trace = st.trace ++ [(i, j)] := by
  unfold stepPair
  rcases dom st.ds p q with ⟨o, ds'⟩
  cases o <;> rfl

theorem stepPair_front {σ α : Type} (dom : σ → α → α → Ordering × σ) (p q : α) (i j : Nat)
    (st : SorterState σ) : (stepPair dom p q i j st).front = st.front := by
  unfold stepPair
  rcases dom st.ds p q with ⟨o, ds'⟩
  cases o <;> rfl

theorem innerFold_trace {σ α : Type} (dom : σ → α → α → Ordering × σ) (sols : List α)
    (dflt : α) (i : Nat) (js : List Nat) (st : SorterState σ) :
    ((js.foldl (fun st j => stepPair dom (sols.getD i dflt) (sols.getD j dflt) i j st) st).trace)
      = st.trace ++ js.map (fun j => (i, j)) := by
  induction js generalizing st with
  | nil => simp
  | cons j js ih =>
    simp only [List.foldl_cons, List.map_cons]
    rw [ih, stepPair_trace]
    simp

theorem stepOuter_trace {σ α : Type} (dom : σ → α → α → Ordering × σ) (sols : List α)
    (dflt : α) (n : Nat) (st : SorterState σ) (i : Nat) :
    (stepOuter dom sols dflt n st i).trace
      = st.trace ++ (List.range' (i + 1) (n - (i + 1))).map (fun j => (i, j)) := by
  unfold stepOuter
  dsimp only
  split
  · exact innerFold_trace dom sols dflt i _ st
  · exact innerFold_trace dom sols dflt i _ st

theorem outerFold_trace {σ α : Type} (dom : σ → α → α → Ordering × σ) (sols : List α)
    (dflt : α) (n : Nat) (is : List Nat) (st : SorterState σ) :
    ((is.foldl (stepOuter dom sols dflt n) st).trace)
      = st.trace ++ is.flatMap (fun i => (List.range' (i + 1) (n - (i + 1))).map (fun j => (i, j))) := by
  induction is generalizing st with
  | nil => simp
  | cons i is ih =>
    simp only [List.foldl_cons, List.flatMap_cons]
    rw [ih, stepOuter_trace]
    simp

/-- The full trace of `FastNonDominatedSorter::new`. -/
theorem sorterNew_trace {σ α : Type} (dom : σ → α → α → Ordering × σ) (s0 : σ)
    (sols : List α) (dflt : α) :
    (sorterNew dom s0 sols dflt).trace = pairList sols.length := by
  unfold sorterNew pairList
  rw [outerFold_trace]
  rfl

theorem sorterNext_trace {σ : Type} {st st' : SorterState σ} {f : List Nat}
    (h : sorterNext st = some (f, st')) : st'.trace = st.trace := by
  unfold sorterNext at h
  split at h
  · exact absurd h (by simp)
  · simp only [Option.some.injEq, Prod.mk.injEq] at h
    rw [← h.2]

theorem collectFronts_trace {σ : Type} (fuel : Nat) (st : SorterState σ) :
    ((collectFronts fuel st).2).trace = st.trace := by
  induction fuel generalizing st with
  | zero => rfl
  | succ fuel ih =>
    unfold collectFronts
    rcases h : sorterNext st with _ | ⟨f, st'⟩
    · rfl
    · simpa [ih st'] using sorterNext_trace h

/-! ### Properties of `pairList` -/

theorem mem_pairList {n a b : Nat} : (a, b) ∈ pairList n ↔ a < b ∧ b < n := by
  unfold pairList
  simp only [List.mem_flatMap, List.mem_map, List.mem_range, List.mem_range'_1, Prod.mk.injEq]
  constructor
  · rintro ⟨i, hi, j, ⟨hj1, hj2⟩, rfl, rfl⟩
    omega
  · rintro ⟨hab, hbn⟩
    exact ⟨a, by omega, b, ⟨by omega, by omega⟩, rfl, rfl⟩

theorem count_eq_one_of_nodup_mem {β : Type} [BEq β] [LawfulBEq β] {l : List β} {x : β}
    (hnd : l.Nodup) (hx : x ∈ l) : l.count x = 1 := by
  induction l with
  | nil => cases hx
  | cons a l ih =>
    rcases List.nodup_cons.mp hnd with ⟨ha, hl⟩
    rcases List.mem_cons.mp hx with rfl | hx'
    · have h0 : l.count x = 0 := List.count_eq_zero.mpr ha
      simp [List.count_cons, h0]
    · have hne : x ≠ a := by rintro rfl; exact ha hx'
      simp [List.count_cons, hne, ih hl hx']

theorem pairList_nodup (n : Nat) : (pairList n).Nodup := by
  unfold pairList
  have key : ∀ (is : List Nat), is.Nodup →
      (is.flatMap fun i => (List.range' (i + 1) (n - (i + 1))).map fun j => (i, j)).Nodup := by
    intro is
    induction is with
    | nil => intro _; simp
    | cons a l ih =>
      intro hnd
      rcases List.nodup_cons.mp hnd with ⟨ha, hl⟩
      rw [List.flatMap_cons]
      refine List.Nodup.append ?_ (ih hl) ?_
      · refine List.Nodup.map ?_ (List.nodup_range' (s := a + 1) (n := n - (a + 1)))
        intro x y h
        simpa using congrArg Prod.snd h
      · intro p hp hp'
        simp only [List.mem_map] at hp
        simp only [List.mem_flatMap, List.mem_map] at hp'
        obtain ⟨j, _, rfl⟩ := hp
        obtain ⟨i', hi', j', _, h⟩ := hp'
        have hia : i' = a := ((Prod.mk.injEq _ _ _ _).mp h).1
        exact ha (hia ▸ hi')
  exact key _ (List.nodup_range n)

theorem pairList_count_eq_one {n a b : Nat} (hab : a < b) (hbn : b < n) :
    (pairList n).count (a, b) = 1 :=
  count_eq_one_of_nodup_mem (pairList_nodup n) (mem_pairList.mpr ⟨hab, hbn⟩)

theorem pairList_not_mem_swap {n a b : Nat} (hab : a < b) : (b, a) ∉ pairList n := by
  intro h
  have := (mem_pairList.mp h).1
  omega

theorem sum_range_sub_mul_two (n : Nat) :
    ((List.range n).map (fun i => n - (i + 1))).sum * 2 = n * (n - 1) := by
  induction n with
  | zero => simp
  | succ m ih =>
    rw [List.range_succ, List.map_append, List.sum_append]
    have hpt : (List.range m).map (fun i => m + 1 - (i + 1))
        = (List.range m).map (fun i => (m - (i + 1)) + 1) := by
      apply List.map_congr_left
      intro i hi
      have := List.mem_range.mp hi
      omega
    have hsum : ((List.range m).map (fun i => (m - (i + 1)) + 1)).sum
        = ((List.range m).map (fun i => m - (i + 1))).sum + m := by
      rw [List.sum_map_add (l := List.range m) (f := fun i => m - (i + 1)) (g := fun _ => 1)]
      simp
    rw [hpt, hsum]
    simp only [List.map_cons, List.map_nil, List.sum_cons, List.sum_nil, Nat.sub_self,
      Nat.add_zero, Nat.add_sub_cancel]
    cases m with
    | zero => simp
    | succ k =>
      have ihk := ih
      simp only [Nat.add_sub_cancel] at ihk
      have hring : (k + 1 + 1) * (k + 1) = (k + 1) * k + 2 * (k + 1) := by ring
      omega

theorem pairList_length (n : Nat) : (pairList n).length * 2 = n * (n - 1) := by
  have hlen : (pairList n).length = ((List.range n).map (fun i => n - (i + 1))).sum := by
    unfold pairList
    rw [List.length_flatMap]
    congr 1
    apply List.map_congr_left
    intro i _
    simp [Function.comp, List.length_range']
  rw [hlen]
  exact sum_range_sub_mul_two n

/-- C1: for every call of `FastNonDominatedSorter::new` on a slice of `n` solutions
(with an arbitrary, possibly stateful, domination relation), `domination_ord` is
invoked on exactly the pairs in `pairList n`: exactly once for each unordered pair of
distinct indices `(i, j)` with `i < j`, never with both argument orders, and
`n*(n-1)/2` times in total; the trace is independent of how many fronts `k` are later
pulled from the iterator (`next` makes no domination calls). -/
theorem C1_single_call_domination {σ α : Type} (dom : σ → α → α → Ordering × σ) (s0 : σ)
    (sols : List α) (dflt : α) (k : Nat) :
    ((collectFronts k (sorterNew dom s0 sols dflt)).2.trace = pairList sols.length)
    ∧ (∀ i j, (i, j) ∈ pairList sols.length ↔ i < j ∧ j < sols.length)
    ∧ (∀ i j, i < j → j < sols.length →
        (pairList sols.length).count (i, j) = 1 ∧ (j, i) ∉ pairList sols.length)
    ∧ (pairList sols.length).length = sols.length * (sols.length - 1) / 2 := by
  refine ⟨?_, ?_, ?_, ?_⟩
  · rw [collectFronts_trace, sorterNew_trace]
  · intro i j; exact mem_pairList
  · intro i j hij hj
    exact ⟨pairList_count_eq_one hij hj, pairList_not_mem_swap hij⟩
  · have := pairList_length sols.length
    omega

/-- Witness for C1: a counting instrumented domination relation (state = number of
invocations) on a concrete slice of 4 solutions, pulling all fronts. -/
theorem C1_single_call_domination_witness :
    ((collectFronts 10 (sorterNew (fun (c : Nat) (a b : Nat) => (compare a b, c + 1))
        0 [10, 20, 30, 40] 0)).2.trace = pairList 4)
    ∧ (∀ i j, (i, j) ∈ pairList 4 ↔ i < j ∧ j < 4)
    ∧ (∀ i j, i < j → j < 4 → (pairList 4).count (i, j) = 1 ∧ (j, i) ∉ pairList 4)
    ∧ (pairList 4).length = 4 * (4 - 1) / 2 :=
  C1_single_call_domination (fun (c : Nat) (a b : Nat) => (compare a b, c + 1))
    0 [10, 20, 30, 40] 0 10

/-! ## Characterization of the pure (stateless) sorter

For the front-partition claim the domination relation is a fixed function
`dom : α → α → Ordering` (the `DominationHelper` / `MultiObjective` case);
it is threaded through the stateful interface with unit state. -/

def domPure {α : Type} (dom : α → α → Ordering) : Unit → α → α → Ordering × Unit :=
  fun _ a b => (dom a b, ())

def sorterNewP {α : Type} (dom : α → α → Ordering) (sols : List α) (dflt : α) :
    SorterState Unit :=
  sorterNew (domPure dom) () sols dflt

/-- The dominates-edge recorded by `new` for a pair of distinct indices: `p → q`
(`p` dominates `q`) iff the single `domination_ord` call made on the unordered pair
classified it so. -/
def edgeB {α : Type} (dom : α → α → Ordering) (sols : List α) (dflt : α) (p q : Nat) : Bool :=
  if p < q then decide (dom (sols.getD p dflt) (sols.getD q dflt) = .lt)
  else if q < p then decide (dom (sols.getD q dflt) (sols.getD p dflt) = .gt)
  else false

/-- In-degree of index `q` in the recorded domination graph. -/
def indeg {α : Type} (dom : α → α → Ordering) (sols : List α) (dflt : α) (q : Nat) : Nat :=
  (List.range sols.length).countP (fun p => edgeB dom sols dflt p q)

section PureSorter

variable {α : Type} (dom : α → α → Ordering) (sols : List α) (dflt : α)

theorem edgeB_self (p : Nat) : edgeB dom sols dflt p p = false := by
  simp [edgeB]

theorem edgeB_lt {i j : Nat} (hij : i < j) :
    edgeB dom sols dflt i j
      = decide (dom (sols.getD i dflt) (sols.getD j dflt) = .lt) := by
  simp [edgeB, hij]

theorem edgeB_gt {i j : Nat} (hij : i < j) :
    edgeB dom sols dflt j i
      = decide (dom (sols.getD i dflt) (sols.getD j dflt) = .gt) := by
  simp [edgeB, hij, Nat.lt_asymm hij]

/-- The inner fold of the outer loop, with the pure domination relation. -/
def innerFold (i : Nat) (js : List Nat) (st : SorterState Unit) : SorterState Unit :=
  js.foldl (fun st j => stepPair (domPure dom) (sols.getD i dflt) (sols.getD j dflt) i j st) st

theorem stepPair_pure_lt {β : Type} (dom0 : β → β → Ordering) {p q : β} {i j : Nat}
    {st : SorterState Unit} (h : dom0 p q = .lt) :
    stepPair (domPure dom0) p q i j st =
      { st with
        ds := ()
        trace := st.trace ++ [(i, j)]
        succs := fun x => if x = i then st.succs i ++ [j] else st.succs x
        count := fun x => if x = j then st.count j + 1 else st.count x } := by
  simp only [stepPair, domPure]
  rw [h]

theorem stepPair_pure_gt {β : Type} (dom0 : β → β → Ordering) {p q : β} {i j : Nat}
    {st : SorterState Unit} (h : dom0 p q = .gt) :
    stepPair (domPure dom0) p q i j st =
      { st with
        ds := ()
        trace := st.trace ++ [(i, j)]
        succs := fun x => if x = j then st.succs j ++ [i] else st.succs x
        count := fun x => if x = i then st.count i + 1 else st.count x } := by
  simp only [stepPair, domPure]
  rw [h]

theorem stepPair_pure_eq {β : Type} (dom0 : β → β → Ordering) {p q : β} {i j : Nat}
    {st : SorterState Unit} (h : dom0 p q = .eq) :
    stepPair (domPure dom0) p q i j st =
      { st with
        ds := ()
        trace := st.trace ++ [(i, j)] } := by
  simp only [stepPair, domPure]
  rw [h]

theorem innerFold_count_self (i : Nat) (js : List Nat) (st : SorterState Unit)
    (hjs : ∀ j ∈ js, i < j) :
    (innerFold dom sols dflt i js st).count i
      = st.count i + js.countP (fun j => edgeB dom sols dflt j i) := by
  induction js generalizing st with
  | nil => simp [innerFold]
  | cons j rest ih =>
    have hij : i < j := hjs j (by simp)
    have hrest : ∀ j' ∈ rest, i < j' := fun j' h => hjs j' (by simp [h])
    rw [innerFold, List.foldl_cons, ← innerFold, List.countP_cons]
    rcases h : dom (sols.getD i dflt) (sols.getD j dflt) with _ | _ | _
    · rw [stepPair_pure_lt dom h, ih _ hrest]
      have : edgeB dom sols dflt j i = false := by
        rw [edgeB_gt dom sols dflt hij, h]; rfl
      simp [this, Nat.ne_of_lt hij]
    · rw [stepPair_pure_eq dom h, ih _ hrest]
      have : edgeB dom sols dflt j i = false := by
        rw [edgeB_gt dom sols dflt hij, h]; rfl
      simp [this]
    · rw [stepPair_pure_gt dom h, ih _ hrest]
      have : edgeB dom sols dflt j i = true := by
        rw [edgeB_gt dom sols dflt hij, h]; rfl
      simp [this]
      omega

theorem innerFold_count_other (i : Nat) (js : List Nat) (st : SorterState Unit)
    (hjs : ∀ j ∈ js, i < j) (hnd : js.Nodup) (q : Nat) (hq : q ≠ i) :
    (innerFold dom sols dflt i js st).count q
      = st.count q + (if q ∈ js ∧ edgeB dom sols dflt i q = true then 1 else 0) := by
  induction js generalizing st with
  | nil => simp [innerFold]
  | cons j rest ih =>
    have hij : i < j := hjs j (by simp)
    have hrest : ∀ j' ∈ rest, i < j' := fun j' h => hjs j' (by simp [h])
    rcases List.nodup_cons.mp hnd with ⟨hj, hndr⟩
    rw [innerFold, List.foldl_cons, ← innerFold]
    rcases h : dom (sols.getD i dflt) (sols.getD j dflt) with _ | _ | _
    · rw [stepPair_pure_lt dom h, ih _ hrest hndr]
      have hedge : edgeB dom sols dflt i j = true := by
        rw [edgeB_lt dom sols dflt hij, h]; rfl
      by_cases hqj : q = j
      · subst hqj
        simp [hj, hedge]
      · simp [hqj, List.mem_cons]
    · rw [stepPair_pure_eq dom h, ih _ hrest hndr]
      have hedge : edgeB dom sols dflt i j = false := by
        rw [edgeB_lt dom sols dflt hij, h]; rfl
      by_cases hqj : q = j
      · subst hqj
        simp [hj, hedge]
      · simp [hqj, List.mem_cons]
    · rw [stepPair_pure_gt dom h, ih _ hrest hndr]
      have hedge : edgeB dom sols dflt i j = false := by
        rw [edgeB_lt dom sols dflt hij, h]; rfl
      by_cases hqj : q = j
      · subst hqj
        simp [hj, hedge, hq]
      · simp [hqj, hq, List.mem_cons]

theorem innerFold_succs_self (i : Nat) (js : List Nat) (st : SorterState Unit)
    (hjs : ∀ j ∈ js, i < j) :
    (innerFold dom sols dflt i js st).succs i
      = st.succs i ++ js.filter (fun j => edgeB dom sols dflt i j) := by
  induction js generalizing st with
  | nil => simp [innerFold]
  | cons j rest ih =>
    have hij : i < j := hjs j (by simp)
    have hrest : ∀ j' ∈ rest, i < j' := fun j' h => hjs j' (by simp [h])
    rw [innerFold, List.foldl_cons, ← innerFold, List.filter_cons]
    rcases h : dom (sols.getD i dflt) (sols.getD j dflt) with _ | _ | _
    · rw [stepPair_pure_lt dom h, ih _ hrest]
      have hedge : edgeB dom sols dflt i j = true := by
        rw [edgeB_lt dom sols dflt hij, h]; rfl
      simp [hedge]
    · rw [stepPair_pure_eq dom h, ih _ hrest]
      have hedge : edgeB dom sols dflt i j = false := by
        rw [edgeB_lt dom sols dflt hij, h]; rfl
      simp [hedge]
    · rw [stepPair_pure_gt dom h, ih _ hrest]
      have hedge : edgeB dom sols dflt i j = false := by
        rw [edgeB_lt dom sols dflt hij, h]; rfl
      simp [hedge, Nat.ne_of_lt hij]

theorem innerFold_succs_other (i : Nat) (js : List Nat) (st : SorterState Unit)
    (hjs : ∀ j ∈ js, i < j) (hnd : js.Nodup) (p : Nat) (hp : p ≠ i) :
    (innerFold dom sols dflt i js st).succs p
      = st.succs p ++ (if p ∈ js ∧ edgeB dom sols dflt p i = true then [i] else []) := by
  induction js generalizing st with
  | nil => simp [innerFold]
  | cons j rest ih =>
    have hij : i < j := hjs j (by simp)
    have hrest : ∀ j' ∈ rest, i < j' := fun j' h => hjs j' (by simp [h])
    rcases List.nodup_cons.mp hnd with ⟨hj, hndr⟩
    rw [innerFold, List.foldl_cons, ← innerFold]
    rcases h : dom (sols.getD i dflt) (sols.getD j dflt) with _ | _ | _
    · rw [stepPair_pure_lt dom h, ih _ hrest hndr]
      have hedge : edgeB dom sols dflt j i = false := by
        rw [edgeB_gt dom sols dflt hij, h]; rfl
      by_cases hpj : p = j
      · subst hpj
        simp [hj, hedge, hp]
      · simp [hpj, hp, List.mem_cons]
    · rw [stepPair_pure_eq dom h, ih _ hrest hndr]
      have hedge : edgeB dom sols dflt j i = false := by
        rw [edgeB_gt dom sols dflt hij, h]; rfl
      by_cases hpj : p = j
      · subst hpj
        simp [hj, hedge]
      · simp [hpj, List.mem_cons]
    · rw [stepPair_pure_gt dom h, ih _ hrest hndr]
      have hedge : edgeB dom sols dflt j i = true := by
        rw [edgeB_gt dom sols dflt hij, h]; rfl
      by_cases hpj : p = j
      · subst hpj
        simp [hj, hedge]
      · simp [hpj, List.mem_cons]

theorem innerFold_front (i : Nat) (js : List Nat) (st : SorterState Unit) :
    (innerFold dom sols dflt i js st).front = st.front := by
  induction js generalizing st with
  | nil => simp [innerFold]
  | cons j rest ih =>
    rw [innerFold, List.foldl_cons, ← innerFold, ih]
    exact stepPair_front _ _ _ _ _ _

theorem range_split (a n : Nat) (h : a ≤ n) :
    List.range n = List.range a ++ List.range' a (n - a) := by
  have hr := List.range'_append 0 a (n - a) 1
  have h1 : 0 + 1 * a = a := by omega
  have h2 : n - a + a = n := by omega
  rw [h1, h2] at hr
  rw [List.range_eq_range', ← hr, List.range_eq_range']

/-- The initial state built by `new` before the nested loops. -/
def initState : SorterState Unit :=
  { count := fun _ => 0, succs := fun _ => [], front := [], ds := (), trace := [] }

/-- The sorter state after the first `m` outer-loop iterations of `new`. -/
def outerPrefix (m : Nat) : SorterState Unit :=
  (List.range m).foldl (stepOuter (domPure dom) sols dflt sols.length) initState

theorem sorterNewP_eq_outerPrefix :
    sorterNewP dom sols dflt = outerPrefix dom sols dflt sols.length := rfl

theorem outerPrefix_succ (m : Nat) :
    outerPrefix dom sols dflt (m + 1)
      = stepOuter (domPure dom) sols dflt sols.length (outerPrefix dom sols dflt m) m := by
  unfold outerPrefix
  rw [List.range_succ, List.foldl_append]
  rfl

theorem stepOuter_eq (st : SorterState Unit) (i : Nat) :
    stepOuter (domPure dom) sols dflt sols.length st i
      = (if (innerFold dom sols dflt i
              (List.range' (i + 1) (sols.length - (i + 1))) st).count i = 0
         then { innerFold dom sols dflt i
                  (List.range' (i + 1) (sols.length - (i + 1))) st with
                front := (innerFold dom sols dflt i
                  (List.range' (i + 1) (sols.length - (i + 1))) st).front ++ [i] }
         else innerFold dom sols dflt i
                (List.range' (i + 1) (sols.length - (i + 1))) st) := rfl

/-- Full characterization of the state of `FastNonDominatedSorter::new` after `m`
outer-loop iterations: counters hold the in-degrees restricted to processed pairs,
`dominated_solutions` lists are index-sorted, and the current front holds the
in-degree-zero indices among `0..m`. -/
theorem outerPrefix_char (m : Nat) (hm : m ≤ sols.length) :
    (∀ q, q < sols.length → (outerPrefix dom sols dflt m).count q
        = (List.range sols.length).countP
            (fun p => edgeB dom sols dflt p q && decide (min p q < m)))
    ∧ (∀ q, sols.length ≤ q → (outerPrefix dom sols dflt m).count q = 0)
    ∧ (∀ p, p < m → (outerPrefix dom sols dflt m).succs p
        = (List.range sols.length).filter (fun q => edgeB dom sols dflt p q))
    ∧ (∀ p, m ≤ p → p < sols.length → (outerPrefix dom sols dflt m).succs p
        = (List.range m).filter (fun q => edgeB dom sols dflt p q))
    ∧ (∀ p, sols.length ≤ p → (outerPrefix dom sols dflt m).succs p = [])
    ∧ (outerPrefix dom sols dflt m).front
        = (List.range m).filter (fun i => indeg dom sols dflt i == 0) := by
  induction m with
  | zero =>
    refine ⟨?_, ?_, ?_, ?_, ?_, ?_⟩
    · intro q _
      have h0 : (outerPrefix dom sols dflt 0).count q = 0 := rfl
      rw [h0]
      symm
      rw [List.countP_eq_zero]
      intro p _
      simp
    · intro q _; rfl
    · intro p hp; omega
    · intro p _ _; rfl
    · intro p _; rfl
    · rfl
  | succ m ih =>
    have hmn : m < sols.length := by omega
    obtain ⟨ihc, ihc0, ihs1, ihs2, ihs3, ihf⟩ := ih (by omega)
    set n := sols.length with hn
    set js := List.range' (m + 1) (n - (m + 1)) with hjs_def
    have hjs : ∀ j ∈ js, m < j := by
      intro j hj
      have := List.mem_range'_1.mp hj
      omega
    have hjs_mem : ∀ j, j ∈ js ↔ m < j ∧ j < n := by
      intro j
      rw [hjs_def, List.mem_range'_1]
      omega
    have hnd : js.Nodup := by
      rw [hjs_def]
      exact List.nodup_range' (s := m + 1) (n := n - (m + 1))
    set prev := outerPrefix dom sols dflt m with hprev
    set st1 := innerFold dom sols dflt m js prev with hst1
    -- splitting `range n` at `m`
    have hsplit : List.range n = List.range m ++ [m] ++ js := by
      rw [range_split (m + 1) n hm, List.range_succ, hjs_def]
    -- the final value of `count m` after the inner loop is the full in-degree
    have hcount_m : st1.count m = indeg dom sols dflt m := by
      rw [hst1, innerFold_count_self dom sols dflt m js prev hjs]
      have hprevm : prev.count m = (List.range m).countP (fun p => edgeB dom sols dflt p m) := by
        rw [ihc m hmn]
        have : (List.range n).countP (fun p => edgeB dom sols dflt p m && decide (min p m < m))
            = (List.range n).countP (fun p => edgeB dom sols dflt p m && decide (p < m)) := by
          apply List.countP_congr
          intro p _
          have : (min p m < m) ↔ (p < m) := by omega
          simp [this]
        rw [this, hsplit]
        rw [List.countP_append, List.countP_append]
        have hz1 : ([m] : List Nat).countP (fun p => edgeB dom sols dflt p m && decide (p < m)) = 0 := by
          simp
        have hz2 : js.countP (fun p => edgeB dom sols dflt p m && decide (p < m)) = 0 := by
          rw [List.countP_eq_zero]
          intro p hp
          have := hjs p hp
          simp
          omega
        have hc : (List.range m).countP (fun p => edgeB dom sols dflt p m && decide (p < m))
            = (List.range m).countP (fun p => edgeB dom sols dflt p m) := by
          apply List.countP_congr
          intro p hp
          have := List.mem_range.mp hp
          simp [this]
        rw [hz1, hz2, hc]
        omega
      rw [hprevm]
      unfold indeg
      rw [← hn, hsplit, List.countP_append, List.countP_append]
      have hzm : ([m] : List Nat).countP (fun p => edgeB dom sols dflt p m) = 0 := by
        simp [edgeB_self]
      rw [hzm]
      omega
    refine ⟨?_, ?_, ?_, ?_, ?_, ?_⟩
    · -- count for q < n
      intro q hq
      rw [outerPrefix_succ, stepOuter_eq]
      have hcq : (if st1.count m = 0
            then { st1 with front := st1.front ++ [m] } else st1).count q = st1.count q := by
        split <;> rfl
      rw [← hjs_def, ← hprev, ← hst1] at *
      rw [hcq]
      by_cases hqm : q = m
      · subst hqm
        rw [hcount_m]
        unfold indeg
        symm
        apply List.countP_congr
        intro p _
        have : min p q < q + 1 := by omega
        simp [this]
      · rw [hst1, innerFold_count_other dom sols dflt m js prev hjs hnd q hqm,
          ihc q hq]
        have hrhs : (List.range n).countP
              (fun p => edgeB dom sols dflt p q && decide (min p q < m + 1))
            = (List.range n).countP
              (fun p => edgeB dom sols dflt p q && decide (min p q < m))
              + (if q ∈ js ∧ edgeB dom sols dflt m q = true then 1 else 0) := by
          rw [hsplit]
          rw [List.countP_append, List.countP_append, List.countP_append, List.countP_append]
          have he1 : (List.range m).countP
                (fun p => edgeB dom sols dflt p q && decide (min p q < m + 1))
              = (List.range m).countP
                (fun p => edgeB dom sols dflt p q && decide (min p q < m)) := by
            apply List.countP_congr
            intro p hp
            have hpm := List.mem_range.mp hp
            have h1 : min p q < m + 1 := by omega
            have h2 : min p q < m := by omega
            simp [h1, h2]
          have he2 : js.countP
                (fun p => edgeB dom sols dflt p q && decide (min p q < m + 1))
              = js.countP
                (fun p => edgeB dom sols dflt p q && decide (min p q < m)) := by
            apply List.countP_congr
            intro p hp
            have hpm := hjs p hp
            by_cases hqm' : q < m
            · have h1 : min p q < m + 1 := by omega
              have h2 : min p q < m := by omega
              simp [h1, h2]
            · have h1 : ¬ (min p q < m + 1) := by omega
              have h2 : ¬ (min p q < m) := by omega
              simp [h1, h2]
          have hsing : ∀ (f : Nat → Bool), ([m] : List Nat).countP f
              = if f m = true then 1 else 0 := by
            intro f
            rw [List.countP_cons]
            simp [List.countP_nil]
          have he3 : ([m] : List Nat).countP
                (fun p => edgeB dom sols dflt p q && decide (min p q < m + 1))
              = ([m] : List Nat).countP
                (fun p => edgeB dom sols dflt p q && decide (min p q < m))
              + (if q ∈ js ∧ edgeB dom sols dflt m q = true then 1 else 0) := by
          -- at `p = m` the processed-pair condition flips exactly when `q > m`
            rw [hsing, hsing]
            by_cases hqlt : q < m
            · have h3 : q ∉ js := by
                rw [hjs_mem]
                omega
              have d1 : decide (min m q < m + 1) = true := by
                rw [decide_eq_true_eq]
                omega
              have d2 : decide (min m q < m) = true := by
                rw [decide_eq_true_eq]
                omega
              rw [d1, d2]
              simp [h3]
            · have hgt : m < q := by omega
              have h3 : q ∈ js := by
                rw [hjs_mem]
                omega
              have d1 : decide (min m q < m + 1) = true := by
                rw [decide_eq_true_eq]
                omega
              have d2 : decide (min m q < m) = false := by
                rw [decide_eq_false_iff_not]
                omega
              rw [d1, d2]
              cases he : edgeB dom sols dflt m q
              · simp [he, h3]
              · simp [he, h3]
          omega
        rw [hrhs]
    · -- count for q ≥ n
      intro q hq
      rw [outerPrefix_succ, stepOuter_eq]
      have hcq : (if st1.count m = 0
            then { st1 with front := st1.front ++ [m] } else st1).count q = st1.count q := by
        split <;> rfl
      rw [← hjs_def, ← hprev, ← hst1] at *
      rw [hcq, hst1, innerFold_count_other dom sols dflt m js prev hjs hnd q (by omega),
        ihc0 q hq]
      have : q ∉ js := by
        rw [hjs_mem]
        omega
      simp [this]
    · -- succs for p < m+1
      intro p hp
      rw [outerPrefix_succ, stepOuter_eq]
      have hsq : (if st1.count m = 0
            then { st1 with front := st1.front ++ [m] } else st1).succs p = st1.succs p := by
        split <;> rfl
      rw [← hjs_def, ← hprev, ← hst1] at *
      rw [hsq]
      by_cases hpm : p = m
      · subst hpm
        rw [hst1, innerFold_succs_self dom sols dflt p js prev hjs,
          ihs2 p (Nat.le_refl p) hmn, hsplit]
        rw [List.filter_append, List.filter_append]
        have : ([p] : List Nat).filter (fun q => edgeB dom sols dflt p q) = [] := by
          simp [edgeB_self]
        rw [this]
        simp
      · have hplt : p < m := by omega
        rw [hst1, innerFold_succs_other dom sols dflt m js prev hjs hnd p hpm,
          ihs1 p hplt]
        have : p ∉ js := by
          rw [hjs_mem]
          omega
        simp [this]
    · -- succs for m+1 ≤ p < n
      intro p hp1 hp2
      rw [outerPrefix_succ, stepOuter_eq]
      have hsq : (if st1.count m = 0
            then { st1 with front := st1.front ++ [m] } else st1).succs p = st1.succs p := by
        split <;> rfl
      rw [← hjs_def, ← hprev, ← hst1] at *
      rw [hsq, hst1, innerFold_succs_other dom sols dflt m js prev hjs hnd p (by omega),
        ihs2 p (by omega) hp2]
      have hmem : p ∈ js := by
        rw [hjs_mem]
        omega
      rw [List.range_succ, List.filter_append]
      have : ([m] : List Nat).filter (fun q => edgeB dom sols dflt p q)
          = (if p ∈ js ∧ edgeB dom sols dflt p m = true then [m] else []) := by
        by_cases he : edgeB dom sols dflt p m = true
        · simp [he, hmem]
        · simp [he]
      rw [this]
    · -- succs for p ≥ n
      intro p hp
      rw [outerPrefix_succ, stepOuter_eq]
      have hsq : (if st1.count m = 0
            then { st1 with front := st1.front ++ [m] } else st1).succs p = st1.succs p := by
        split <;> rfl
      rw [← hjs_def, ← hprev, ← hst1] at *
      rw [hsq, hst1, innerFold_succs_other dom sols dflt m js prev hjs hnd p (by omega),
        ihs3 p hp]
      have : p ∉ js := by
        rw [hjs_mem]
        omega
      simp [this]
    · -- the current front
      rw [outerPrefix_succ, stepOuter_eq]
      rw [← hjs_def, ← hprev, ← hst1] at *
      have hfr : st1.front = prev.front := by
        rw [hst1]
        exact innerFold_front dom sols dflt m js prev
      rw [List.range_succ, List.filter_append]
      by_cases hz : st1.count m = 0
      · have h1 : (if st1.count m = 0
              then { st1 with front := st1.front ++ [m] } else st1).front
            = st1.front ++ [m] := by
          simp [hz]
        rw [h1, hfr, ihf]
        have : ([m] : List Nat).filter (fun i => indeg dom sols dflt i == 0) = [m] := by
          have : indeg dom sols dflt m = 0 := by
            rw [← hcount_m]
            exact hz
          simp [this]
        rw [this]
      · have h1 : (if st1.count m = 0
              then { st1 with front := st1.front ++ [m] } else st1).front
            = st1.front := by
          simp [hz]
        rw [h1, hfr, ihf]
        have : ([m] : List Nat).filter (fun i => indeg dom sols dflt i == 0) = [] := by
          have : ¬ indeg dom sols dflt m = 0 := by
            rw [← hcount_m]
            exact hz
          simp [this]
        rw [this]
        simp

/-! ### Invariant of the front iterator -/

/-- Invariant relating a sorter state to the list `D` of already-emitted indices
(the concatenation of all fronts returned so far). -/
def SorterInv (D : List Nat) (st : SorterState Unit) : Prop :=
  (∀ q, q < sols.length → st.count q
      = (List.range sols.length).countP
          (fun p => edgeB dom sols dflt p q && !(decide (p ∈ D))))
  ∧ (∀ q, sols.length ≤ q → st.count q = 0)
  ∧ (∀ p, p < sols.length → st.succs p
      = (List.range sols.length).filter (fun q => edgeB dom sols dflt p q))
  ∧ (D ++ st.front).Nodup
  ∧ (∀ i, i ∈ st.front ↔ i < sols.length ∧ i ∉ D
      ∧ ∀ p, p < sols.length → edgeB dom sols dflt p i = true → p ∈ D)
  ∧ (∀ q ∈ D, q < sols.length)
  ∧ (∀ q ∈ D, ∀ p, p < sols.length → edgeB dom sols dflt p q = true → p ∈ D)

theorem sorterNewP_inv : SorterInv dom sols dflt [] (sorterNewP dom sols dflt) := by
  obtain ⟨hc, hc0, hs1, _, _, hf⟩ :=
    outerPrefix_char dom sols dflt sols.length (Nat.le_refl _)
  rw [sorterNewP_eq_outerPrefix]
  refine ⟨?_, hc0, ?_, ?_, ?_, ?_, ?_⟩
  · intro q hq
    rw [hc q hq]
    apply List.countP_congr
    intro p hp
    have hpn := List.mem_range.mp hp
    have h1 : min p q < sols.length := by omega
    simp [h1]
  · intro p hp
    exact hs1 p hp
  · rw [hf]
    simp only [List.nil_append]
    exact (List.nodup_range _).filter _
  · intro i
    rw [hf, List.mem_filter, List.mem_range]
    constructor
    · rintro ⟨hin, hz⟩
      refine ⟨hin, by simp, ?_⟩
      intro p hp hedge
      exfalso
      have hz' : indeg dom sols dflt i = 0 := by
        have := of_decide_eq_true (by simpa using hz)
        simpa using hz
      unfold indeg at hz'
      rw [List.countP_eq_zero] at hz'
      exact hz' p (List.mem_range.mpr hp) hedge
    · rintro ⟨hin, _, hdom⟩
      refine ⟨hin, ?_⟩
      have : indeg dom sols dflt i = 0 := by
        unfold indeg
        rw [List.countP_eq_zero]
        intro p hp hedge
        exact absurd (hdom p (List.mem_range.mp hp) hedge) (by simp)
      simp [this]
  · intro q hq
    cases hq
  · intro q hq
    cases hq

/-- The single-target step of `next`'s inner loop: decrement the counter of `q` and
collect it for the next front when the counter reaches zero. -/
def procQ (acc : List Nat × (Nat → Nat)) (q : Nat) : List Nat × (Nat → Nat) :=
  (if acc.2 q - 1 = 0 then acc.1 ++ [q] else acc.1,
   fun x => if x = q then acc.2 q - 1 else acc.2 x)

theorem nested_foldl_eq_flatMap (g : Nat → List Nat) :
    ∀ (L : List Nat) (init : List Nat × (Nat → Nat)),
      L.foldl (fun acc p => (g p).foldl procQ acc) init
        = (L.flatMap g).foldl procQ init := by
  intro L
  induction L with
  | nil => intro init; rfl
  | cons p rest ih =>
    intro init
    rw [List.foldl_cons, List.flatMap_cons, List.foldl_append, ih]

theorem sorterNext_eq_procQ (st : SorterState Unit) (hne : ¬ st.front = []) :
    sorterNext st = some (st.front,
      { st with
        front := ((st.front.flatMap st.succs).foldl procQ ([], st.count)).1
        count := ((st.front.flatMap st.succs).foldl procQ ([], st.count)).2 }) := by
  unfold sorterNext
  rw [if_neg hne]
  have hfold : st.front.foldl
      (fun (acc : List Nat × (Nat → Nat)) p =>
        (st.succs p).foldl
          (fun (acc2 : List Nat × (Nat → Nat)) q =>
            let c := acc2.2 q - 1
            (if c = 0 then acc2.1 ++ [q] else acc2.1,
             fun x => if x = q then c else acc2.2 x))
          acc)
      ([], st.count)
      = (st.front.flatMap st.succs).foldl procQ ([], st.count) :=
    nested_foldl_eq_flatMap st.succs st.front ([], st.count)
  rw [hfold]

/-- Processing a target list with `procQ`: counters drop to their final values `W`,
and exactly the indices whose final counter is zero and that were targeted at least
once are appended (each once) to the next front. -/
theorem procQ_char (W tot : Nat → Nat) :
    ∀ (T : List Nat) (nf : List Nat) (cnt : Nat → Nat),
      (∀ q, cnt q = W q + T.count q) →
      (∀ q, T.count q ≤ tot q) →
      nf.Nodup →
      (∀ q, q ∈ nf ↔ W q = 0 ∧ T.count q = 0 ∧ T.count q < tot q) →
      (∀ q, (T.foldl procQ (nf, cnt)).2 q = W q)
      ∧ (T.foldl procQ (nf, cnt)).1.Nodup
      ∧ (∀ q, q ∈ (T.foldl procQ (nf, cnt)).1 ↔ (W q = 0 ∧ 0 < tot q)) := by
  intro T
  induction T with
  | nil =>
    intro nf cnt hcnt htot hnd hmem
    refine ⟨?_, hnd, ?_⟩
    · intro q
      have := hcnt q
      simpa using this
    · intro q
      rw [List.foldl_nil, hmem q]
      simp
  | cons q0 T ih =>
    intro nf cnt hcnt htot hnd hmem
    have hq0 : cnt q0 = W q0 + (T.count q0 + 1) := by
      rw [hcnt q0, List.count_cons_self]
    rw [List.foldl_cons]
    have hstep : procQ (nf, cnt) q0
        = (if cnt q0 - 1 = 0 then nf ++ [q0] else nf,
           fun x => if x = q0 then cnt q0 - 1 else cnt x) := rfl
    rw [hstep]
    have hcnt' : ∀ q, (fun x => if x = q0 then cnt q0 - 1 else cnt x) q
        = W q + T.count q := by
      intro q
      by_cases hq : q = q0
      · subst hq
        simp only [eq_self_iff_true, if_true]
        omega
      · simp only [if_neg hq]
        rw [hcnt q, List.count_cons_of_ne]
        intro hcontra
        exact hq hcontra
    have htot' : ∀ q, T.count q ≤ tot q := by
      intro q
      have h1 := htot q
      by_cases hq : q = q0
      · subst hq
        rw [List.count_cons_self] at h1
        omega
      · rwa [List.count_cons_of_ne (fun hcontra => hq hcontra)] at h1
    have hq0nf : q0 ∉ nf := by
      intro hin
      have := (hmem q0).mp hin
      rw [List.count_cons_self] at this
      omega
    by_cases hz : cnt q0 - 1 = 0
    · rw [if_pos hz]
      apply ih (nf ++ [q0]) _ hcnt' htot'
      · exact List.Nodup.append hnd (List.nodup_singleton q0)
          (by intro x hx hx'
              rw [List.mem_singleton] at hx'
              subst hx'
              exact hq0nf hx)
      · intro q
        rw [List.mem_append, List.mem_singleton]
        by_cases hq : q = q0
        · subst hq
          have hW : W q = 0 ∧ T.count q = 0 := by omega
          have h1 := htot q
          rw [List.count_cons_self] at h1
          constructor
          · intro _
            exact ⟨hW.1, hW.2, by omega⟩
          · intro _
            right
            rfl
        · rw [hmem q, List.count_cons_of_ne (fun hcontra => hq hcontra)]
          constructor
          · rintro (h | h)
            · exact h
            · exact absurd h hq
          · intro h
            left
            exact h
    · rw [if_neg hz]
      apply ih nf _ hcnt' htot' hnd
      intro q
      by_cases hq : q = q0
      · subst hq
        rw [hmem q]
        rw [List.count_cons_self]
        constructor
        · intro h
          omega
        · intro h
          exfalso
          omega
      · rw [hmem q, List.count_cons_of_ne (fun hcontra => hq hcontra)]

theorem countP_split {β : Type} (f g : β → Bool) :
    ∀ (l : List β), l.countP f
      = l.countP (fun a => f a && g a) + l.countP (fun a => f a && !(g a)) := by
  intro l
  induction l with
  | nil => rfl
  | cons a l ih =>
    rw [List.countP_cons, List.countP_cons, List.countP_cons, ih]
    cases hf : f a <;> cases hg : g a <;> simp [hf, hg] <;> omega

theorem count_filter_range (f : Nat → Bool) (n q : Nat) :
    ((List.range n).filter f).count q = if q < n ∧ f q = true then 1 else 0 := by
  by_cases hf : f q = true
  · rw [List.count_filter hf]
    by_cases hq : q < n
    · rw [if_pos ⟨hq, hf⟩]
      exact count_eq_one_of_nodup_mem (List.nodup_range n) (List.mem_range.mpr hq)
    · rw [if_neg (by tauto)]
      exact List.count_eq_zero_of_not_mem (by simp [hq])
  · rw [if_neg (by tauto)]
    apply List.count_eq_zero_of_not_mem
    intro hmem
    exact hf (List.of_mem_filter hmem)

theorem flatMap_succs_count (st : SorterState Unit)
    (hsucc : ∀ p, p < sols.length → st.succs p
      = (List.range sols.length).filter (fun q => edgeB dom sols dflt p q)) :
    ∀ (L : List Nat), (∀ p ∈ L, p < sols.length) →
      ∀ q, (L.flatMap st.succs).count q
        = if q < sols.length then L.countP (fun p => edgeB dom sols dflt p q) else 0 := by
  intro L
  induction L with
  | nil =>
    intro _ q
    simp
  | cons p rest ih =>
    intro hlt q
    have hp : p < sols.length := hlt p (by simp)
    have hrest : ∀ p' ∈ rest, p' < sols.length := fun p' h => hlt p' (by simp [h])
    rw [List.flatMap_cons, List.count_append, hsucc p hp, count_filter_range,
      ih hrest q, List.countP_cons]
    by_cases hq : q < sols.length
    · by_cases he : edgeB dom sols dflt p q = true
      · simp [hq, he]
        omega
      · simp [hq, he]
    · simp [hq]

theorem front_filter_perm (front : List Nat) (hnd : front.Nodup)
    (hlt : ∀ p ∈ front, p < sols.length) :
    ((List.range sols.length).filter (fun p => decide (p ∈ front))).Perm front := by
  apply List.perm_of_nodup_nodup_toFinset_eq ((List.nodup_range _).filter _) hnd
  apply Finset.ext
  intro x
  simp only [List.mem_toFinset, List.mem_filter, List.mem_range, decide_eq_true_eq]
  constructor
  · rintro ⟨_, h⟩
    exact h
  · intro h
    exact ⟨hlt x h, h⟩

/-- One `next()` call on a state with a non-empty current front: it returns that
front and the invariant advances to the emitted list `D ++ st.front`. -/
theorem sorterNext_inv (D : List Nat) (st : SorterState Unit)
    (hInv : SorterInv dom sols dflt D st) (hne : st.front ≠ []) :
    ∃ st', sorterNext st = some (st.front, st')
      ∧ SorterInv dom sols dflt (D ++ st.front) st'
      ∧ st'.succs = st.succs ∧ st'.trace = st.trace := by
  obtain ⟨hc, hc0, hs, hnd, hfr, hDlt, hDcl⟩ := hInv
  have hndD : D.Nodup := (List.nodup_append.mp hnd).1
  have hndF : st.front.Nodup := (List.nodup_append.mp hnd).2.1
  have hdisj : D.Disjoint st.front := (List.nodup_append.mp hnd).2.2
  have hFlt : ∀ p ∈ st.front, p < sols.length := fun p h => ((hfr p).mp h).1
  have hFnD : ∀ p ∈ st.front, p ∉ D := fun p h => ((hfr p).mp h).2.1
  set n := sols.length with hn
  set T := st.front.flatMap st.succs with hT
  set W : Nat → Nat := fun q =>
    if q < n then (List.range n).countP
      (fun p => edgeB dom sols dflt p q && !(decide (p ∈ D ++ st.front)))
    else 0 with hW
  have hTcnt : ∀ q, T.count q
      = if q < n then st.front.countP (fun p => edgeB dom sols dflt p q) else 0 :=
    flatMap_succs_count dom sols dflt st hs st.front hFlt
  have hcnt0 : ∀ q, st.count q = W q + T.count q := by
    intro q
    rw [hTcnt q, hW]
    dsimp only
    by_cases hq : q < n
    · rw [if_pos hq, if_pos hq, hc q hq]
      rw [countP_split (fun p => edgeB dom sols dflt p q && !(decide (p ∈ D)))
        (fun p => decide (p ∈ st.front)) (List.range n)]
      have h1 : (List.range n).countP
            (fun p => (edgeB dom sols dflt p q && !(decide (p ∈ D)))
              && !(decide (p ∈ st.front)))
          = (List.range n).countP
            (fun p => edgeB dom sols dflt p q && !(decide (p ∈ D ++ st.front))) := by
        apply List.countP_congr
        intro p _
        simp only [Bool.and_eq_true, Bool.not_eq_true', decide_eq_false_iff_not,
          List.mem_append]
        tauto
      have h2 : (List.range n).countP
            (fun p => (edgeB dom sols dflt p q && !(decide (p ∈ D)))
              && decide (p ∈ st.front))
          = st.front.countP (fun p => edgeB dom sols dflt p q) := by
        have hstep1 : (List.range n).countP
              (fun p => (edgeB dom sols dflt p q && !(decide (p ∈ D)))
                && decide (p ∈ st.front))
            = (List.range n).countP
              (fun p => edgeB dom sols dflt p q && decide (p ∈ st.front)) := by
          apply List.countP_congr
          intro p _
          simp only [Bool.and_eq_true, Bool.not_eq_true', decide_eq_false_iff_not,
            decide_eq_true_eq]
          constructor
          · rintro ⟨⟨he, _⟩, hm⟩
            exact ⟨he, hm⟩
          · rintro ⟨he, hm⟩
            exact ⟨⟨he, hFnD p hm⟩, hm⟩
        rw [hstep1, ← List.countP_filter]
        exact List.Perm.countP_eq _ (front_filter_perm sols st.front hndF hFlt)
      rw [h1, h2]
      omega
    · rw [if_neg hq, if_neg hq, hc0 q (by omega)]
  have hchar := procQ_char W (fun q => T.count q) T [] st.count hcnt0
    (fun q => Nat.le_refl _) List.nodup_nil
    (by intro q
        simp only [List.not_mem_nil, false_iff]
        rintro ⟨_, h2, h3⟩
        omega)
  obtain ⟨hcnt', hnd', hmem'⟩ := hchar
  refine ⟨_, sorterNext_eq_procQ st hne, ?_, rfl, rfl⟩
  set R := (T.foldl procQ ([], st.count)) with hR
  -- auxiliary facts about membership in the new front
  have htot_pos : ∀ q, 0 < T.count q →
      q < n ∧ ∃ p ∈ st.front, edgeB dom sols dflt p q = true := by
    intro q hpos
    rw [hTcnt q] at hpos
    by_cases hq : q < n
    · rw [if_pos hq] at hpos
      have := List.countP_pos_iff.mp hpos
      obtain ⟨p, hp, he⟩ := this
      exact ⟨hq, p, hp, he⟩
    · rw [if_neg hq] at hpos
      omega
  have hmemD' : ∀ q, q ∈ R.1 ↔ (q < n ∧ q ∉ D ++ st.front
      ∧ ∀ p, p < n → edgeB dom sols dflt p q = true → p ∈ D ++ st.front) := by
    intro q
    rw [hmem' q]
    constructor
    · rintro ⟨hWq, hpos⟩
      obtain ⟨hqn, p0, hp0, he0⟩ := htot_pos q hpos
      have hdoms : ∀ p, p < n → edgeB dom sols dflt p q = true → p ∈ D ++ st.front := by
        intro p hp he
        rw [hW] at hWq
        dsimp only at hWq
        rw [if_pos hqn, List.countP_eq_zero] at hWq
        have := hWq p (List.mem_range.mpr hp)
        simp only [Bool.and_eq_true, Bool.not_eq_true', decide_eq_false_iff_not] at this
        by_contra hcontra
        exact this ⟨he, hcontra⟩
      refine ⟨hqn, ?_, hdoms⟩
      intro hqD'
      rcases List.mem_append.mp hqD' with hqD | hqF
      · have hp0D := hDcl q hqD p0 (hFlt p0 hp0) he0
        exact hFnD p0 hp0 hp0D
      · have := ((hfr q).mp hqF).2.2 p0 (hFlt p0 hp0) he0
        exact hFnD p0 hp0 this
    · rintro ⟨hqn, hqD', hdoms⟩
      constructor
      · rw [hW]
        dsimp only
        rw [if_pos hqn, List.countP_eq_zero]
        intro p hp
        simp only [Bool.and_eq_true, Bool.not_eq_true', decide_eq_false_iff_not]
        rintro ⟨he, hpD'⟩
        exact hpD' (hdoms p (List.mem_range.mp hp) he)
      · by_contra hzero
        push_neg at hzero
        have hTz : T.count q = 0 := by omega
        have hnoF : ∀ p ∈ st.front, edgeB dom sols dflt p q = false := by
          intro p hp
          by_contra hcontra
          have he : edgeB dom sols dflt p q = true := by
            cases h : edgeB dom sols dflt p q
            · exact absurd h hcontra
            · rfl
          have : 0 < T.count q := by
            rw [hTcnt q, if_pos hqn]
            exact List.countP_pos_iff.mpr ⟨p, hp, he⟩
          omega
        have hdomsD : ∀ p, p < n → edgeB dom sols dflt p q = true → p ∈ D := by
          intro p hp he
          rcases List.mem_append.mp (hdoms p hp he) with h | h
          · exact h
          · exact absurd (hnoF p h) (by simp [he])
        have hqF : q ∈ st.front := (hfr q).mpr ⟨hqn, fun hqD =>
          hqD' (List.mem_append.mpr (Or.inl hqD)), hdomsD⟩
        exact hqD' (List.mem_append.mpr (Or.inr hqF))
  refine ⟨?_, ?_, ?_, ?_, ?_, ?_, ?_⟩
  · intro q hq
    have hqW : R.2 q = W q := hcnt' q
    rw [hW] at hqW
    dsimp only at hqW
    rw [if_pos hq] at hqW
    exact hqW
  · intro q hq
    have hqW : R.2 q = W q := hcnt' q
    rw [hW] at hqW
    dsimp only at hqW
    rw [if_neg (by omega : ¬ q < sols.length)] at hqW
    exact hqW
  · intro p hp
    exact hs p hp
  · rw [List.append_assoc, List.nodup_append]
    refine ⟨hndD, ?_, ?_⟩
    · rw [List.nodup_append]
      refine ⟨hndF, hnd', ?_⟩
      intro x hxF hxR
      exact ((hmemD' x).mp hxR).2.1 (List.mem_append.mpr (Or.inr hxF))
    · intro x hxD hx
      rcases List.mem_append.mp hx with hxF | hxR
      · exact hdisj hxD hxF
      · exact ((hmemD' x).mp hxR).2.1 (List.mem_append.mpr (Or.inl hxD))
  · exact hmemD'
  · intro q hq
    rcases List.mem_append.mp hq with h | h
    · exact hDlt q h
    · exact hFlt q h
  · intro q hq p hp he
    rcases List.mem_append.mp hq with h | h
    · exact List.mem_append.mpr (Or.inl (hDcl q h p hp he))
    · exact List.mem_append.mpr (Or.inl (((hfr q).mp h).2.2 p hp he))

/-! ### Termination and completeness under a strict dominance order -/

theorem getD_mem {p : Nat} (hp : p < sols.length) : sols.getD p dflt ∈ sols := by
  rw [List.getD_eq_getElem sols dflt hp]
  exact List.getElem_mem hp

theorem edgeB_true_iff
    (hA : ∀ a ∈ sols, ∀ b ∈ sols, (dom a b = .lt ↔ dom b a = .gt))
    {p q : Nat} (hp : p < sols.length) (hq : q < sols.length) (hpq : p ≠ q) :
    edgeB dom sols dflt p q = true
      ↔ dom (sols.getD p dflt) (sols.getD q dflt) = .lt := by
  rcases Nat.lt_or_ge p q with h | h
  · rw [edgeB_lt dom sols dflt h, decide_eq_true_eq]
  · have h' : q < p := by omega
    rw [edgeB_gt dom sols dflt h', decide_eq_true_eq]
    exact (hA _ (getD_mem sols dflt hp) _ (getD_mem sols dflt hq)).symm

theorem edgeB_true_ne {p q : Nat} (h : edgeB dom sols dflt p q = true) : p ≠ q := by
  rintro rfl
  rw [edgeB_self] at h
  cases h

theorem edgeB_trans
    (hA : ∀ a ∈ sols, ∀ b ∈ sols, (dom a b = .lt ↔ dom b a = .gt))
    (hT : ∀ a ∈ sols, ∀ b ∈ sols, ∀ c ∈ sols,
      dom a b = .lt → dom b c = .lt → dom a c = .lt)
    {p q r : Nat} (hp : p < sols.length) (hq : q < sols.length) (hr : r < sols.length)
    (h1 : edgeB dom sols dflt p q = true) (h2 : edgeB dom sols dflt q r = true) :
    edgeB dom sols dflt p r = true := by
  have hpq : p ≠ q := edgeB_true_ne dom sols dflt h1
  have hqr : q ≠ r := edgeB_true_ne dom sols dflt h2
  have v1 := (edgeB_true_iff dom sols dflt hA hp hq hpq).mp h1
  have v2 := (edgeB_true_iff dom sols dflt hA hq hr hqr).mp h2
  have v3 := hT _ (getD_mem sols dflt hp) _ (getD_mem sols dflt hq)
    _ (getD_mem sols dflt hr) v1 v2
  have hpr : p ≠ r := by
    rintro rfl
    have hgt := (hA _ (getD_mem sols dflt hp) _ (getD_mem sols dflt hp)).mp v3
    exact absurd (v3.symm.trans hgt) (by simp)
  exact (edgeB_true_iff dom sols dflt hA hp hr hpr).mpr v3

/-- A finite nonempty set of indices contains an element dominated by none of them
(the dominance edges come from a strict order, hence are acyclic). -/
theorem exists_min_edge
    (hA : ∀ a ∈ sols, ∀ b ∈ sols, (dom a b = .lt ↔ dom b a = .gt))
    (hT : ∀ a ∈ sols, ∀ b ∈ sols, ∀ c ∈ sols,
      dom a b = .lt → dom b c = .lt → dom a c = .lt) :
    ∀ (L : List Nat), L ≠ [] → (∀ a ∈ L, a < sols.length) →
      ∃ x ∈ L, ∀ p ∈ L, edgeB dom sols dflt p x = false := by
  intro L
  induction L with
  | nil => intro h; exact absurd rfl h
  | cons a L ih =>
    intro _ hlt
    have ha : a < sols.length := hlt a (by simp)
    have hLlt : ∀ x ∈ L, x < sols.length := fun x hx => hlt x (by simp [hx])
    by_cases hL : L = []
    · subst hL
      refine ⟨a, by simp, ?_⟩
      intro p hp
      rw [List.mem_singleton] at hp
      subst hp
      exact edgeB_self dom sols dflt p
    · obtain ⟨m, hm, hmin⟩ := ih hL hLlt
      have hmlt : m < sols.length := hLlt m hm
      by_cases hedge : edgeB dom sols dflt a m = true
      · refine ⟨a, by simp, ?_⟩
        intro p hp
        rcases List.mem_cons.mp hp with rfl | hp'
        · exact edgeB_self dom sols dflt p
        · cases h : edgeB dom sols dflt p a
          · rfl
          · exfalso
            have := edgeB_trans dom sols dflt hA hT (hLlt p hp') ha hmlt h hedge
            have hfalse := hmin p hp'
            rw [this] at hfalse
            cases hfalse
      · refine ⟨m, by simp [hm], ?_⟩
        intro p hp
        rcases List.mem_cons.mp hp with rfl | hp'
        · cases h : edgeB dom sols dflt p m
          · rfl
          · exact absurd h hedge
        · exact hmin p hp'

theorem front_empty_complete
    (hA : ∀ a ∈ sols, ∀ b ∈ sols, (dom a b = .lt ↔ dom b a = .gt))
    (hT : ∀ a ∈ sols, ∀ b ∈ sols, ∀ c ∈ sols,
      dom a b = .lt → dom b c = .lt → dom a c = .lt)
    (D : List Nat) (st : SorterState Unit) (hInv : SorterInv dom sols dflt D st)
    (hfe : st.front = []) :
    ∀ i, i < sols.length → i ∈ D := by
  obtain ⟨_, _, _, _, hfr, _, _⟩ := hInv
  intro i hi
  by_contra hiD
  set S := (List.range sols.length).filter (fun x => !(decide (x ∈ D))) with hS
  have hiS : i ∈ S := by
    rw [hS, List.mem_filter]
    simp [List.mem_range.mpr hi, hiD]
  have hSne : S ≠ [] := by
    intro h
    rw [h] at hiS
    cases hiS
  have hSlt : ∀ a ∈ S, a < sols.length := by
    intro a ha
    rw [hS, List.mem_filter] at ha
    exact List.mem_range.mp ha.1
  obtain ⟨m, hmS, hmin⟩ := exists_min_edge dom sols dflt hA hT S hSne hSlt
  have hm' : m < sols.length ∧ m ∉ D := by
    have := hmS
    rw [hS, List.mem_filter] at this
    refine ⟨List.mem_range.mp this.1, ?_⟩
    have h2 := this.2
    simp only [Bool.not_eq_true', decide_eq_false_iff_not] at h2
    exact h2
  have hmF : m ∈ st.front := by
    rw [hfr m]
    refine ⟨hm'.1, hm'.2, ?_⟩
    intro p hp he
    by_contra hpD
    have hpS : p ∈ S := by
      rw [hS, List.mem_filter]
      simp [List.mem_range.mpr hp, hpD]
    have := hmin p hpS
    rw [he] at this
    cases this
  rw [hfe] at hmF
  cases hmF

theorem nodup_full_perm (n : Nat) (D : List Nat) (hnd : D.Nodup)
    (hlt : ∀ q ∈ D, q < n) (hfull : ∀ i, i < n → i ∈ D) :
    D.Perm (List.range n) := by
  apply List.perm_of_nodup_nodup_toFinset_eq hnd (List.nodup_range n)
  apply Finset.ext
  intro x
  simp only [List.mem_toFinset, List.mem_range]
  exact ⟨fun h => hlt x h, fun h => hfull x h⟩

theorem nodup_card_perm (n : Nat) (D : List Nat) (hnd : D.Nodup)
    (hlt : ∀ q ∈ D, q < n) (hlen : n ≤ D.length) :
    D.Perm (List.range n) := by
  have hsub : D.toFinset ⊆ Finset.range n := by
    intro x hx
    rw [List.mem_toFinset] at hx
    exact Finset.mem_range.mpr (hlt x hx)
  have hcard : (Finset.range n).card ≤ D.toFinset.card := by
    rw [Finset.card_range, List.toFinset_card_of_nodup hnd]
    exact hlen
  have heq := Finset.eq_of_subset_of_card_le hsub hcard
  apply nodup_full_perm n D hnd hlt
  intro i hi
  have : i ∈ D.toFinset := by
    rw [heq]
    exact Finset.mem_range.mpr hi
  rwa [List.mem_toFinset] at this

/-- Collecting fronts with enough fuel yields a partition of `{0, …, n-1}` and
exhausts the iterator. -/
theorem collectFronts_partition
    (hA : ∀ a ∈ sols, ∀ b ∈ sols, (dom a b = .lt ↔ dom b a = .gt))
    (hT : ∀ a ∈ sols, ∀ b ∈ sols, ∀ c ∈ sols,
      dom a b = .lt → dom b c = .lt → dom a c = .lt) :
    ∀ (fuel : Nat) (D : List Nat) (st : SorterState Unit),
      SorterInv dom sols dflt D st →
      sols.length ≤ D.length + fuel →
      ((D ++ ((collectFronts fuel st).1).flatten).Perm (List.range sols.length))
      ∧ ((collectFronts fuel st).2).front = [] := by
  intro fuel
  induction fuel with
  | zero =>
    intro D st hInv hlen
    have hnd : D.Nodup := (List.nodup_append.mp hInv.2.2.2.1).1
    have hDlt : ∀ q ∈ D, q < sols.length := hInv.2.2.2.2.2.1
    have hperm : D.Perm (List.range sols.length) :=
      nodup_card_perm sols.length D hnd hDlt (by omega)
    constructor
    · have hz : (collectFronts 0 st).1 = ([] : List (List Nat)) := rfl
      rw [hz]
      simpa using hperm
    · rw [List.eq_nil_iff_forall_not_mem]
      intro x hx
      obtain ⟨hxn, hxD, _⟩ := (hInv.2.2.2.2.1 x).mp hx
      exact hxD ((hperm.mem_iff).mpr (List.mem_range.mpr hxn))
  | succ fuel ih =>
    intro D st hInv hlen
    by_cases hfe : st.front = []
    · have hnone : sorterNext st = none := by
        unfold sorterNext
        rw [if_pos hfe]
      have hcoll : collectFronts (fuel + 1) st = ([], st) := by
        unfold collectFronts
        rw [hnone]
      rw [hcoll]
      have hnd : D.Nodup := (List.nodup_append.mp hInv.2.2.2.1).1
      have hDlt : ∀ q ∈ D, q < sols.length := hInv.2.2.2.2.2.1
      have hfull := front_empty_complete dom sols dflt hA hT D st hInv hfe
      constructor
      · simpa using nodup_full_perm sols.length D hnd hDlt hfull
      · exact hfe
    · obtain ⟨st', hnext, hInv', _, _⟩ := sorterNext_inv dom sols dflt D st hInv hfe
      have hcoll : collectFronts (fuel + 1) st
          = (st.front :: (collectFronts fuel st').1, (collectFronts fuel st').2) := by
        conv_lhs => unfold collectFronts
        rw [hnext]
      rw [hcoll]
      have hflen : 1 ≤ st.front.length := by
        cases hq : st.front with
        | nil => exact absurd hq hfe
        | cons a l => simp
      have hres := ih (D ++ st.front) st' hInv'
        (by rw [List.length_append]; omega)
      constructor
      · have hgoal := hres.1
        rw [List.flatten_cons, ← List.append_assoc]
        exact hgoal
      · exact hres.2

end PureSorter

theorem collectFronts_ne_nil {σ : Type} :
    ∀ (fuel : Nat) (st : SorterState σ), ∀ f ∈ (collectFronts fuel st).1, f ≠ [] := by
  intro fuel
  induction fuel with
  | zero =>
    intro st f hf
    cases hf
  | succ fuel ih =>
    intro st f hf
    unfold collectFronts at hf
    rcases h : sorterNext st with _ | ⟨g, st'⟩
    · rw [h] at hf
      cases hf
    · rw [h] at hf
      rcases List.mem_cons.mp hf with rfl | hf'
      · unfold sorterNext at h
        by_cases hfe : st.front = []
        · rw [if_pos hfe] at h
          cases h
        · rw [if_neg hfe] at h
          simp only [Option.some.injEq, Prod.mk.injEq] at h
          rw [← h.1]
          exact hfe
      · exact ih st' f hf'

theorem countP_mem_of_sum_counts_one :
    ∀ (L : List (List Nat)) (i : Nat),
      ((L.map (fun f => f.count i)).sum = 1) →
      L.countP (fun f => decide (i ∈ f)) = 1 := by
  intro L
  induction L with
  | nil =>
    intro i h
    simp at h
  | cons f L ih =>
    intro i h
    rw [List.map_cons, List.sum_cons] at h
    rw [List.countP_cons]
    by_cases hmem : i ∈ f
    · have hpos : 0 < f.count i := List.count_pos_iff.mpr hmem
      have hfc : f.count i = 1 ∧ (L.map (fun f => f.count i)).sum = 0 := by omega
      have hz : L.countP (fun f => decide (i ∈ f)) = 0 := by
        rw [List.countP_eq_zero]
        intro g hg
        simp only [decide_eq_true_eq]
        intro hig
        have hgpos : 0 < g.count i := List.count_pos_iff.mpr hig
        have hle : g.count i ≤ (L.map (fun f => f.count i)).sum := by
          apply List.single_le_sum (by intro x _; omega)
          exact List.mem_map.mpr ⟨g, hg, rfl⟩
        omega
      simp [hmem, hz]
    · have h0 : f.count i = 0 := List.count_eq_zero_of_not_mem hmem
      rw [h0] at h
      simp only [Nat.zero_add] at h
      simp [hmem, ih i h]

/-- C3: for every slice of `n` solutions whose domination relation comes from a
strict dominance order (asymmetry as `lt ↔ swapped gt`, and transitivity),
collecting all fronts produced by the sorter's iterator yields pairwise disjoint
index sets whose union is `{0, …, n-1}` (their concatenation is a permutation of
`range n`), every index appears in exactly one front, every produced front is
non-empty, and the iterator is exhausted (fronts are produced in order
`0, 1, 2, …` as successive elements of the collected list). -/
theorem C3_front_partition {α : Type} (dom : α → α → Ordering) (sols : List α) (dflt : α)
    (hA : ∀ a ∈ sols, ∀ b ∈ sols, (dom a b = .lt ↔ dom b a = .gt))
    (hT : ∀ a ∈ sols, ∀ b ∈ sols, ∀ c ∈ sols,
      dom a b = .lt → dom b c = .lt → dom a c = .lt) :
    (((collectFronts (sols.length + 1) (sorterNewP dom sols dflt)).1).flatten.Perm
        (List.range sols.length))
    ∧ (∀ i, i < sols.length →
        ((collectFronts (sols.length + 1) (sorterNewP dom sols dflt)).1).countP
          (fun f => decide (i ∈ f)) = 1)
    ∧ (∀ f ∈ (collectFronts (sols.length + 1) (sorterNewP dom sols dflt)).1, f ≠ [])
    ∧ ((collectFronts (sols.length + 1) (sorterNewP dom sols dflt)).2).front = [] := by
  have hmain := collectFronts_partition dom sols dflt hA hT (sols.length + 1) []
    (sorterNewP dom sols dflt) (sorterNewP_inv dom sols dflt) (by omega)
  have hperm : ((collectFronts (sols.length + 1) (sorterNewP dom sols dflt)).1).flatten.Perm
      (List.range sols.length) := by
    have := hmain.1
    simpa using this
  refine ⟨hperm, ?_, collectFronts_ne_nil _ _, hmain.2⟩
  intro i hi
  apply countP_mem_of_sum_counts_one
  have hcount : (((collectFronts (sols.length + 1) (sorterNewP dom sols dflt)).1).flatten).count i = 1 := by
    rw [hperm.count_eq i]
    exact count_eq_one_of_nodup_mem (List.nodup_range _) (List.mem_range.mpr hi)
  rw [← List.count_flatten]
  exact hcount

/-- The `Dominate` implementation on integer pairs used by the crate's tests
(domination.rs, minimizing both components). -/
def tupleDomOrd (a b : Nat × Nat) : Ordering :=
  if a.1 < b.1 ∧ a.2 ≤ b.2 then .lt
  else if a.1 ≤ b.1 ∧ a.2 < b.2 then .lt
  else if a.1 > b.1 ∧ a.2 ≥ b.2 then .gt
  else if a.1 ≥ b.1 ∧ a.2 > b.2 then .gt
  else .eq

/-- Witness for C3 on the crate's own five-solution test case; the fronts produced
are `[2,4], [0,1], [3]`, as asserted by `test_non_dominated_sort`. -/
theorem C3_front_partition_witness :
    ((((collectFronts 6 (sorterNewP tupleDomOrd
        [(1, 2), (1, 2), (2, 1), (1, 3), (0, 2)] (0, 0))).1).flatten.Perm (List.range 5))
    ∧ (∀ i, i < 5 →
        ((collectFronts 6 (sorterNewP tupleDomOrd
          [(1, 2), (1, 2), (2, 1), (1, 3), (0, 2)] (0, 0))).1).countP
          (fun f => decide (i ∈ f)) = 1)
    ∧ (∀ f ∈ (collectFronts 6 (sorterNewP tupleDomOrd
        [(1, 2), (1, 2), (2, 1), (1, 3), (0, 2)] (0, 0))).1, f ≠ [])
    ∧ ((collectFronts 6 (sorterNewP tupleDomOrd
        [(1, 2), (1, 2), (2, 1), (1, 3), (0, 2)] (0, 0))).2).front = [])
    ∧ (collectFronts 6 (sorterNewP tupleDomOrd
        [(1, 2), (1, 2), (2, 1), (1, 3), (0, 2)] (0, 0))).1 = [[2, 4], [0, 1], [3]] :=
  ⟨C3_front_partition tupleDomOrd [(1, 2), (1, 2), (2, 1), (1, 3), (0, 2)] (0, 0)
      (by decide) (by decide),
   by decide⟩

/-! ## Embedding of `multi_objective.rs`: `MultiObjective2` and NaN behaviour -/

/-- Rust `f64` as used by the fitness values: either NaN or an exact numeric
value (modelled by a rational; no rounding is exercised by the claims). -/
inductive F64 where
  | nan : F64
  | val : ℚ → F64
deriving DecidableEq

/-- IEEE `partial_cmp` on `f64`: `None` exactly when an operand is NaN. -/
def partialCmp : F64 → F64 → Option Ordering
  | .nan, _ => none
  | _, .nan => none
  | .val a, .val b => some (if a < b then .lt else if a = b then .eq else .gt)

/-- `MultiObjective2<T>` (multi_objective.rs lines 48–53): two objectives. -/
structure MultiObjective2 where
  objectives : Fin 2 → F64

/-- `MultiObjective2::cmp_objective` (multi_objective.rs lines 70–73):
`self.objectives[objective].partial_cmp(&other.objectives[objective]).unwrap()`.
The `unwrap` of `None` is a panic, modelled by the `none` result. -/
def cmpObjective2 (a b : MultiObjective2) (objective : Fin 2) : Option Ordering :=
  partialCmp (a.objectives objective) (b.objectives objective)

/-- C6: if a fitness value involved in a per-objective comparison contains NaN,
`cmp_objective`'s `partial_cmp(..).unwrap()` receives `None` and panics — a
deterministic fatal failure — rather than silently returning `Equal` (or any
other `Ordering`). -/
theorem C6_nan_panics (a b : MultiObjective2) (i : Fin 2)
    (h : a.objectives i = .nan ∨ b.objectives i = .nan) :
    cmpObjective2 a b i = none ∧ ∀ o : Ordering, cmpObjective2 a b i ≠ some o := by
  have hnone : cmpObjective2 a b i = none := by
    unfold cmpObjective2 partialCmp
    rcases h with h | h
    · rw [h]
      cases b.objectives i <;> rfl
    · rw [h]
      cases a.objectives i <;> rfl
  refine ⟨hnone, ?_⟩
  intro o ho
  rw [hnone] at ho
  cases ho

/-- Witness for C6: comparing a NaN fitness against a numeric one panics. -/
theorem C6_nan_panics_witness :
    cmpObjective2 ⟨fun _ => F64.nan⟩ ⟨fun _ => F64.val 0⟩ 0 = none
    ∧ ∀ o : Ordering, cmpObjective2 ⟨fun _ => F64.nan⟩ ⟨fun _ => F64.val 0⟩ 0 ≠ some o :=
  C6_nan_panics _ _ 0 (Or.inl rfl)

/-! ## Embedding of `tournament_selection_fast` (selection.rs lines 413–437) -/

/-- A scripted random-number stream: `rng.gen_range(0, n)` consumes the head value
(reduced mod `n`, so it is uniform-in-range for a uniform stream) and leaves the
tail. -/
def drawRange (rng : List Nat) (n : Nat) : Nat × List Nat :=
  match rng with
  | [] => (0, [])
  | x :: xs => (x % n, xs)

/-- The `for _ in 1..k` loop of `tournament_selection_fast`: `t` more draws,
replacing the current best only when the newly drawn index is strictly better. -/
def tournLoop (better : Nat → Nat → Bool) (n : Nat) :
    Nat → Nat → List Nat → Nat × List Nat
  | 0, best, rng => (best, rng)
  | t + 1, best, rng =>
    let p := drawRange rng n
    tournLoop better n t (if better p.1 best then p.1 else best) p.2

/-- The body of `tournament_selection_fast` after the three asserts. -/
def tournamentBody (rng : List Nat) (better : Nat → Nat → Bool) (n k : Nat) :
    Nat × List Nat :=
  let p := drawRange rng n
  tournLoop better n (k - 1) p.1 p.2

/-- `tournament_selection_fast` (selection.rs lines 413–437).  The three
`assert!(n > 0)`, `assert!(k > 0)`, `assert!(n >= k)` abort (modelled `none`)
before any sampling happens. -/
def tournament_selection_fast (rng : List Nat) (better : Nat → Nat → Bool)
    (n k : Nat) : Option Nat :=
  if 0 < n ∧ 0 < k ∧ k ≤ n then some (tournamentBody rng better n k).1 else none

theorem drawRange_eq (rng : List Nat) (n : Nat) :
    drawRange rng n = ((rng.getD 0 0) % n, rng.drop 1) := by
  cases rng with
  | nil => simp [drawRange]
  | cons x xs => rfl

theorem draws_cons (rng : List Nat) (n t : Nat) :
    (List.range (t + 1)).map (fun s => (rng.getD s 0) % n)
      = ((rng.getD 0 0) % n) :: (List.range t).map (fun s => ((rng.drop 1).getD s 0) % n) := by
  rw [List.range_succ_eq_map, List.map_cons, List.map_map]
  congr 1
  apply List.map_congr_left
  intro s _
  cases rng with
  | nil => simp
  | cons x xs => simp

theorem tournLoop_char (better : Nat → Nat → Bool) (n : Nat) :
    ∀ (t : Nat) (best : Nat) (rng : List Nat),
      tournLoop better n t best rng
        = (((List.range t).map (fun s => (rng.getD s 0) % n)).foldl
            (fun b i => if better i b then i else b) best, rng.drop t) := by
  intro t
  induction t with
  | zero =>
    intro best rng
    simp [tournLoop]
  | succ t ih =>
    intro best rng
    rw [tournLoop, drawRange_eq]
    dsimp only
    rw [ih, draws_cons, List.foldl_cons, List.drop_drop, Nat.add_comm 1 t]

/-- The winner under a comparator that never improves on the initial best is the
initial best. -/
theorem foldl_no_improve (better : Nat → Nat → Bool) (b0 : Nat) :
    ∀ (l : List Nat), (∀ i ∈ l, better i b0 = false) →
      l.foldl (fun b i => if better i b then i else b) b0 = b0 := by
  intro l
  induction l with
  | nil => intro _; rfl
  | cons x l ih =>
    intro h
    rw [List.foldl_cons]
    have hx : better x b0 = false := h x (by simp)
    rw [hx]
    simp only [Bool.false_eq_true, if_false]
    exact ih (fun i hi => h i (by simp [hi]))

/-- The strict order `4 < 0 < 2 < 1 < 3` on a population of five, as a
position-based comparator. -/
def pos5 : Nat → Nat
  | 4 => 0
  | 0 => 1
  | 2 => 2
  | 1 => 3
  | 3 => 4
  | _ => 5

def better5 (i j : Nat) : Bool := pos5 i < pos5 j

/-- C7: `tournament_selection_fast` picks a uniform random index as initial best
and then does `k-1` more draws, replacing the best only when the new index is
strictly better: its result is the fold of the comparator over the `k` drawn
indices (first conjunct is the concrete scripted run `[2, 0, 4]`, `k = 3`,
ranking `4 < 0 < 2 < 1 < 3`, returning index `4`). -/
theorem C7_tournament_deterministic :
    (tournament_selection_fast [2, 0, 4] better5 5 3 = some 4)
    ∧ (∀ (rng : List Nat) (better : Nat → Nat → Bool) (n k : Nat),
        0 < n → 0 < k → k ≤ n →
        tournament_selection_fast rng better n k
          = some (((List.range (k - 1)).map (fun s => ((rng.drop 1).getD s 0) % n)).foldl
              (fun b i => if better i b then i else b) ((rng.getD 0 0) % n)))
    ∧ (∀ (rng : List Nat) (better : Nat → Nat → Bool) (n k : Nat),
        0 < n → 0 < k → k ≤ n →
        (∀ i ∈ (List.range (k - 1)).map (fun s => ((rng.drop 1).getD s 0) % n),
          better i ((rng.getD 0 0) % n) = false) →
        tournament_selection_fast rng better n k = some ((rng.getD 0 0) % n)) := by
  have hgen : ∀ (rng : List Nat) (better : Nat → Nat → Bool) (n k : Nat),
      0 < n → 0 < k → k ≤ n →
      tournament_selection_fast rng better n k
        = some (((List.range (k - 1)).map (fun s => ((rng.drop 1).getD s 0) % n)).foldl
            (fun b i => if better i b then i else b) ((rng.getD 0 0) % n)) := by
    intro rng better n k hn hk hkn
    unfold tournament_selection_fast
    rw [if_pos ⟨hn, hk, hkn⟩]
    unfold tournamentBody
    rw [drawRange_eq, tournLoop_char]
  refine ⟨?_, hgen, ?_⟩
  · rw [hgen [2, 0, 4] better5 5 3 (by omega) (by omega) (by omega)]
    rfl
  · intro rng better n k hn hk hkn hno
    rw [hgen rng better n k hn hk hkn, foldl_no_improve better _ _ hno]

/-- Witness for C7 (all three conjuncts instantiated at the scripted run). -/
theorem C7_tournament_deterministic_witness :
    tournament_selection_fast [2, 0, 4] better5 5 3 = some 4
    ∧ tournament_selection_fast [1, 0, 2] better5 5 3
        = some (((List.range 2).map (fun s => (([0, 2] : List Nat).getD s 0) % 5)).foldl
            (fun b i => if better5 i b then i else b) (1 % 5))
    ∧ tournament_selection_fast [4, 0, 2] better5 5 3 = some (4 % 5) :=
  ⟨C7_tournament_deterministic.1,
   C7_tournament_deterministic.2.1 [1, 0, 2] better5 5 3 (by decide) (by decide) (by decide),
   C7_tournament_deterministic.2.2 [4, 0, 2] better5 5 3 (by decide) (by decide) (by decide)
     (by decide)⟩

theorem tournLoop_lt (better : Nat → Nat → Bool) (n : Nat) (hn : 0 < n) :
    ∀ (t : Nat) (best : Nat) (rng : List Nat), best < n →
      (tournLoop better n t best rng).1 < n := by
  intro t
  induction t with
  | zero => intro best rng h; exact h
  | succ t ih =>
    intro best rng h
    rw [tournLoop, drawRange_eq]
    apply ih
    by_cases hb : better ((rng.getD 0 0) % n) best = true
    · rw [hb]
      simp only [if_true]
      exact Nat.mod_lt _ hn
    · have : better ((rng.getD 0 0) % n) best = false := by
        cases hx : better ((rng.getD 0 0) % n) best
        · rfl
        · exact absurd hx hb
      rw [this]
      simpa using h

/-- C9: the index-based `tournament_selection_fast` has the unstated precondition
`k ≤ n`: it asserts `n > 0`, `k > 0` and `n >= k` and aborts whenever the
tournament size exceeds the population size (second conjunct), even though its
sampling — `k` independent uniform draws with replacement — is well-defined for
any `k ≥ 1` and any `n > 0` (fourth conjunct: the unguarded body returns an
in-range index for every `k`). -/
theorem C9_tournament_asserts :
    (∀ (rng : List Nat) (better : Nat → Nat → Bool) (n k : Nat),
      ¬(0 < n ∧ 0 < k ∧ k ≤ n) → tournament_selection_fast rng better n k = none)
    ∧ (∀ (rng : List Nat) (better : Nat → Nat → Bool) (n k : Nat),
      n < k → tournament_selection_fast rng better n k = none)
    ∧ (∀ (rng : List Nat) (better : Nat → Nat → Bool) (n k : Nat),
      0 < n → 0 < k → k ≤ n →
      ∃ v, tournament_selection_fast rng better n k = some v ∧ v < n)
    ∧ (∀ (rng : List Nat) (better : Nat → Nat → Bool) (n k : Nat),
      0 < n → (tournamentBody rng better n k).1 < n) := by
  refine ⟨?_, ?_, ?_, ?_⟩
  · intro rng better n k h
    unfold tournament_selection_fast
    rw [if_neg h]
  · intro rng better n k h
    unfold tournament_selection_fast
    rw [if_neg (by omega)]
  · intro rng better n k hn hk hkn
    refine ⟨(tournamentBody rng better n k).1, ?_, ?_⟩
    · unfold tournament_selection_fast
      rw [if_pos ⟨hn, hk, hkn⟩]
    · unfold tournamentBody
      rw [drawRange_eq]
      exact tournLoop_lt better n hn (k - 1) _ _ (Nat.mod_lt _ hn)
  · intro rng better n k hn
    unfold tournamentBody
    rw [drawRange_eq]
    exact tournLoop_lt better n hn (k - 1) _ _ (Nat.mod_lt _ hn)

/-- Witness for C9: the asserts fire for `k = 6 > n = 5` (abort), and with
`k = 7 > n = 5` the unguarded sampling body is still well-defined. -/
theorem C9_tournament_asserts_witness :
    tournament_selection_fast [2, 0, 4] better5 5 6 = none
    ∧ tournament_selection_fast [] better5 0 1 = none
    ∧ (∃ v, tournament_selection_fast [2, 0, 4] better5 5 3 = some v ∧ v < 5)
    ∧ (tournamentBody [2, 0, 4, 1, 1, 1, 1] better5 5 7).1 < 5 :=
  ⟨C9_tournament_asserts.2.1 [2, 0, 4] better5 5 6 (by omega),
   C9_tournament_asserts.1 [] better5 0 1 (by omega),
   C9_tournament_asserts.2.2.1 [2, 0, 4] better5 5 3 (by omega) (by omega) (by omega),
   C9_tournament_asserts.2.2.2 [2, 0, 4, 1, 1, 1, 1] better5 5 7 (by omega)⟩

/-! ## Embedding of `crowding_distance.rs`: `assign_crowding_distance`

Crowding distances are `f64` values that are either finite (exact here) or the
`+∞` sentinel; addition is absorbing at `∞` as in IEEE arithmetic. -/

inductive FVal where
  | inf : FVal
  | fin : ℚ → FVal
deriving DecidableEq

def FVal.add : FVal → FVal → FVal
  | .inf, _ => .inf
  | _, .inf => .inf
  | .fin a, .fin b => .fin (a + b)

theorem FVal.inf_add (x : FVal) : FVal.inf.add x = .inf := by
  cases x <;> rfl

/-- An `Objective` (objective.rs): a total order and a signed distance metric on
solution values. -/
structure Objective (S : Type) where
  totalOrder : S → S → Ordering
  distance : S → S → ℚ

/-- The `MultiObjective<S, f64>` struct consumed by `assign_crowding_distance`:
its list of objectives. -/
structure MultiObjective (S : Type) where
  objectives : List (Objective S)

/-- Modelled from the spec: `non_dominated_sort::Front` (from the sorter variant
missing under src/), as consumed by `assign_crowding_distance`: the front's
members as `(index, solution)` pairs plus the front's rank. -/
structure Front (S : Type) where
  solutions : List (Nat × S)
  rank : Nat

structure AssignedCrowdingDistance (S : Type) where
  index : Nat
  solution : S
  rank : Nat
  crowding_distance : FVal

/-- Stable insertion sort by a three-way comparator; agrees with Rust's stable
`slice::sort_by` for any total, transitive comparator (equal elements keep their
original relative order). -/
def insertC {β : Type} (c : β → β → Ordering) (x : β) : List β → List β
  | [] => [x]
  | y :: ys => if c y x = .lt then y :: insertC c x ys else x :: y :: ys

def sortC {β : Type} (c : β → β → Ordering) : List β → List β
  | [] => []
  | x :: xs => insertC c x (sortC c xs)

/-- `a.sort_by(|a, b| objective.total_order(a.solution, b.solution))`. -/
def cdSort {S : Type} (objective : Objective S) (a : List (AssignedCrowdingDistance S)) :
    List (AssignedCrowdingDistance S) :=
  sortC (fun x y => objective.totalOrder x.solution y.solution) a

/-- `a.first_mut().unwrap().crowding_distance = INFINITY`. -/
def setFirstInf {S : Type} : List (AssignedCrowdingDistance S) →
    List (AssignedCrowdingDistance S)
  | [] => []
  | x :: xs => { x with crowding_distance := .inf } :: xs

/-- `a.last_mut().unwrap().crowding_distance = INFINITY`. -/
def setLastInf {S : Type} : List (AssignedCrowdingDistance S) →
    List (AssignedCrowdingDistance S)
  | [] => []
  | [x] => [{ x with crowding_distance := .inf }]
  | x :: y :: xs => x :: setLastInf (y :: xs)

def mapWithIdx {β : Type} (f : Nat → β → β) : Nat → List β → List β
  | _, [] => []
  | i, x :: xs => f i x :: mapWithIdx f (i + 1) xs

/-- The interior loop of `assign_crowding_distance` (crowding_distance.rs lines
55–68): when the spread is positive, each interior solution gains the normalized
absolute distance between its two neighbours under the current sort order. -/
def addInterior {S : Type} (objective : Objective S) (k : Nat) (spread : ℚ)
    (a : List (AssignedCrowdingDistance S)) : List (AssignedCrowdingDistance S) :=
  if 0 < spread then
    mapWithIdx (fun i x =>
      if 1 ≤ i ∧ i + 1 < a.length then
        let d := abs (objective.distance
          ((a.getD (i + 1) x).solution) ((a.getD (i - 1) x).solution))
        { x with crowding_distance := x.crowding_distance.add (.fin (d * (1 / (spread * (k : ℚ))))) }
      else x) 0 a
  else a

/-- One iteration of the per-objective map in `assign_crowding_distance`
(crowding_distance.rs lines 35–71): sort by the objective, set the two extremes'
crowding distances to `+∞`, compute the spread, and (when positive) add the
normalized neighbour distances to the interior; `none` models the panic of
`first_mut().unwrap()` on an empty front. -/
def objectiveStep {S : Type} (k : Nat) (objective : Objective S)
    (a : List (AssignedCrowdingDistance S)) :
    Option (List (AssignedCrowdingDistance S) × ℚ) :=
  match cdSort objective a with
  | [] => none
  | h :: t =>
    let a2 := setLastInf (setFirstInf (h :: t))
    let spread := abs (objective.distance h.solution
      ((h :: t).getLast (List.cons_ne_nil h t)).solution)
    some (addInterior objective k spread a2, spread)

/-- `assign_crowding_distance` (crowding_distance.rs lines 20–75): zero-initialise
all crowding distances, then process every objective in order, collecting the
per-objective spreads (`ObjectiveStat`). -/
def assign_crowding_distance {S : Type} (front : Front S) (mo : MultiObjective S) :
    Option (List (AssignedCrowdingDistance S) × List ℚ) :=
  let a0 := front.solutions.map (fun i =>
    ({ index := i.1
       solution := i.2
       rank := front.rank
       crowding_distance := FVal.fin 0 } : AssignedCrowdingDistance S))
  mo.objectives.foldl (fun acc objective =>
    match acc with
    | none => none
    | some (a, stats) =>
      match objectiveStep mo.objectives.length objective a with
      | none => none
      | some (a', spread) => some (a', stats ++ [spread]))
    (some (a0, []))

/-! ### Properties of the crowding-distance assignment -/

theorem insertC_perm {β : Type} (c : β → β → Ordering) (x : β) :
    ∀ (l : List β), (insertC c x l).Perm (x :: l) := by
  intro l
  induction l with
  | nil => exact List.Perm.refl _
  | cons y ys ih =>
    rw [insertC]
    split
    · exact ((ih.cons y).trans (List.Perm.swap x y ys)).symm.symm
    · exact List.Perm.refl _

theorem sortC_perm {β : Type} (c : β → β → Ordering) :
    ∀ (l : List β), (sortC c l).Perm l := by
  intro l
  induction l with
  | nil => exact List.Perm.refl _
  | cons x xs ih =>
    rw [sortC]
    exact (insertC_perm c x (sortC c xs)).trans (ih.cons x)

def hasInfIdx {S : Type} (ix : Nat) (a : List (AssignedCrowdingDistance S)) : Prop :=
  ∃ x ∈ a, x.index = ix ∧ x.crowding_distance = .inf

theorem setFirstInf_hasInf {S : Type} {ix : Nat} {l : List (AssignedCrowdingDistance S)}
    (h : hasInfIdx ix l) : hasInfIdx ix (setFirstInf l) := by
  obtain ⟨x, hx, hix, hinf⟩ := h
  cases l with
  | nil => cases hx
  | cons y ys =>
    rcases List.mem_cons.mp hx with rfl | hx'
    · exact ⟨{ x with crowding_distance := .inf }, by simp [setFirstInf], hix, rfl⟩
    · exact ⟨x, by simp [setFirstInf, hx'], hix, hinf⟩

theorem setLastInf_hasInf {S : Type} {ix : Nat} :
    ∀ {l : List (AssignedCrowdingDistance S)},
      hasInfIdx ix l → hasInfIdx ix (setLastInf l) := by
  intro l
  induction l with
  | nil => intro h; obtain ⟨x, hx, _⟩ := h; cases hx
  | cons y ys ih =>
    intro h
    obtain ⟨x, hx, hix, hinf⟩ := h
    cases ys with
    | nil =>
      rcases List.mem_cons.mp hx with rfl | hx'
      · exact ⟨{ x with crowding_distance := .inf }, by simp [setLastInf], hix, rfl⟩
      · cases hx'
    | cons z zs =>
      rcases List.mem_cons.mp hx with rfl | hx'
      · exact ⟨x, by rw [setLastInf]; exact List.mem_cons_self x _, hix, hinf⟩
      · obtain ⟨x', hx'', hix', hinf'⟩ := ih ⟨x, hx', hix, hinf⟩
        exact ⟨x', by rw [setLastInf]; exact List.mem_cons_of_mem y hx'', hix', hinf'⟩

theorem mapWithIdx_hasInf {S : Type} {ix : Nat}
    (f : Nat → AssignedCrowdingDistance S → AssignedCrowdingDistance S)
    (hf : ∀ i x, (f i x).index = x.index
      ∧ (x.crowding_distance = .inf → (f i x).crowding_distance = .inf)) :
    ∀ (l : List (AssignedCrowdingDistance S)) (s : Nat),
      hasInfIdx ix l → hasInfIdx ix (mapWithIdx f s l) := by
  intro l
  induction l with
  | nil => intro s h; obtain ⟨x, hx, _⟩ := h; cases hx
  | cons y ys ih =>
    intro s h
    obtain ⟨x, hx, hix, hinf⟩ := h
    rcases List.mem_cons.mp hx with rfl | hx'
    · exact ⟨f s x, by rw [mapWithIdx]; exact List.mem_cons_self _ _,
        by rw [(hf s x).1]; exact hix, (hf s x).2 hinf⟩
    · obtain ⟨x', hx'', hix', hinf'⟩ := ih (s + 1) ⟨x, hx', hix, hinf⟩
      exact ⟨x', by rw [mapWithIdx]; exact List.mem_cons_of_mem _ hx'', hix', hinf'⟩

theorem addInterior_hasInf {S : Type} {ix : Nat} (objective : Objective S) (k : Nat)
    (spread : ℚ) (a : List (AssignedCrowdingDistance S)) (h : hasInfIdx ix a) :
    hasInfIdx ix (addInterior objective k spread a) := by
  unfold addInterior
  split
  · apply mapWithIdx_hasInf _ _ a 0 h
    intro i x
    dsimp only
    split
    · refine ⟨rfl, fun hc => ?_⟩
      dsimp only
      rw [hc]
      exact FVal.inf_add _
    · exact ⟨rfl, fun hc => hc⟩
  · exact h

theorem cdSort_hasInf {S : Type} {ix : Nat} (objective : Objective S)
    (a : List (AssignedCrowdingDistance S)) (h : hasInfIdx ix a) :
    hasInfIdx ix (cdSort objective a) := by
  obtain ⟨x, hx, hix, hinf⟩ := h
  exact ⟨x, (sortC_perm _ a).mem_iff.mpr hx, hix, hinf⟩

/-- `+∞`, once assigned to a solution, survives the processing of any further
objective: the sort permutes, re-assigning the extremes writes `+∞`, and interior
additions absorb into `+∞`. -/
theorem objectiveStep_preserves_inf {S : Type} {ix : Nat} (k : Nat)
    (objective : Objective S) (a a' : List (AssignedCrowdingDistance S)) (spread : ℚ)
    (hstep : objectiveStep k objective a = some (a', spread)) (h : hasInfIdx ix a) :
    hasInfIdx ix a' := by
  unfold objectiveStep at hstep
  rcases hsort : cdSort objective a with _ | ⟨h0, t⟩
  · rw [hsort] at hstep
    cases hstep
  · rw [hsort] at hstep
    simp only [Option.some.injEq, Prod.mk.injEq] at hstep
    rw [← hstep.1]
    apply addInterior_hasInf
    apply setLastInf_hasInf
    apply setFirstInf_hasInf
    rw [← hsort]
    exact cdSort_hasInf objective a h

theorem setFirstInf_length {S : Type} (l : List (AssignedCrowdingDistance S)) :
    (setFirstInf l).length = l.length := by
  cases l <;> rfl

theorem setLastInf_length {S : Type} :
    ∀ (l : List (AssignedCrowdingDistance S)), (setLastInf l).length = l.length := by
  intro l
  induction l with
  | nil => rfl
  | cons y ys ih =>
    cases ys with
    | nil => rfl
    | cons z zs =>
      rw [setLastInf]
      simp only [List.length_cons]
      rw [ih]
      simp

theorem mapWithIdx_length {β : Type} (f : Nat → β → β) :
    ∀ (l : List β) (s : Nat), (mapWithIdx f s l).length = l.length := by
  intro l
  induction l with
  | nil => intro s; rfl
  | cons y ys ih =>
    intro s
    rw [mapWithIdx]
    simp only [List.length_cons]
    rw [ih]

theorem addInterior_length {S : Type} (objective : Objective S) (k : Nat) (spread : ℚ)
    (a : List (AssignedCrowdingDistance S)) :
    (addInterior objective k spread a).length = a.length := by
  unfold addInterior
  split
  · rw [mapWithIdx_length]
  · rfl

theorem mapWithIdx_getD {β : Type} (f : Nat → β → β) :
    ∀ (l : List β) (s i : Nat) (d : β), i < l.length →
      (mapWithIdx f s l).getD i d = f (s + i) (l.getD i d) := by
  intro l
  induction l with
  | nil => intro s i d h; simp at h
  | cons y ys ih =>
    intro s i d h
    cases i with
    | zero => rfl
    | succ i =>
      rw [mapWithIdx]
      simp only [List.getD_cons_succ]
      rw [ih (s + 1) i d (by simpa using h)]
      congr 1
      omega

theorem getD_irrel {β : Type} (l : List β) (i : Nat) (d d' : β) (h : i < l.length) :
    l.getD i d = l.getD i d' := by
  rw [List.getD_eq_getElem l d h, List.getD_eq_getElem l d' h]

/-- When the spread is positive, the interior loop adds exactly
`|distance(next, prev)| / (spread * k)` to position `i`. -/
theorem addInterior_getD_interior {S : Type} (objective : Objective S) (k : Nat)
    (spread : ℚ) (a : List (AssignedCrowdingDistance S)) (i : Nat)
    (d : AssignedCrowdingDistance S) (hpos : 0 < spread) (h1 : 1 ≤ i)
    (h2 : i + 1 < a.length) :
    (addInterior objective k spread a).getD i d
      = { a.getD i d with crowding_distance := ((a.getD i d).crowding_distance).add (.fin ((abs (objective.distance ((a.getD (i + 1) d).solution) ((a.getD (i - 1) d).solution))) * (1 / (spread * (k : ℚ))))) } := by
  unfold addInterior
  rw [if_pos hpos]
  rw [mapWithIdx_getD _ a 0 i d (by omega)]
  simp only [Nat.zero_add]
  rw [if_pos ⟨h1, h2⟩]
  rw [getD_irrel a (i + 1) (a.getD i d) d (by omega),
    getD_irrel a (i - 1) (a.getD i d) d (by omega)]

/-- The interior loop never touches the two extreme positions. -/
theorem addInterior_getD_extreme {S : Type} (objective : Objective S) (k : Nat)
    (spread : ℚ) (a : List (AssignedCrowdingDistance S)) (i : Nat)
    (d : AssignedCrowdingDistance S) (h : ¬(1 ≤ i ∧ i + 1 < a.length))
    (hlen : i < a.length) :
    (addInterior objective k spread a).getD i d = a.getD i d := by
  unfold addInterior
  split
  · rw [mapWithIdx_getD _ a 0 i d hlen]
    simp only [Nat.zero_add]
    rw [if_neg h]
  · rfl

theorem setFirstInf_getD_zero {S : Type} (l : List (AssignedCrowdingDistance S))
    (d : AssignedCrowdingDistance S) (h : l ≠ []) :
    ((setFirstInf l).getD 0 d).crowding_distance = .inf := by
  cases l with
  | nil => exact absurd rfl h
  | cons y ys => rfl

theorem setLastInf_getD_zero {S : Type} :
    ∀ (l : List (AssignedCrowdingDistance S)) (d : AssignedCrowdingDistance S),
      ((setLastInf l).getD 0 d).crowding_distance = (l.getD 0 d).crowding_distance
      ∨ ((setLastInf l).getD 0 d).crowding_distance = .inf := by
  intro l d
  cases l with
  | nil => left; rfl
  | cons y ys =>
    cases ys with
    | nil => right; rfl
    | cons z zs => left; rfl

theorem setLastInf_getD_last {S : Type} :
    ∀ (l : List (AssignedCrowdingDistance S)) (d : AssignedCrowdingDistance S), l ≠ [] →
      ((setLastInf l).getD ((setLastInf l).length - 1) d).crowding_distance = .inf := by
  intro l
  induction l with
  | nil => intro d h; exact absurd rfl h
  | cons y ys ih =>
    intro d _
    cases ys with
    | nil => rfl
    | cons z zs =>
      rw [setLastInf]
      have hlen : (setLastInf (z :: zs)).length = zs.length + 1 := by
        rw [setLastInf_length]
        rfl
      simp only [List.length_cons, hlen]
      have : (zs.length + 1 + 1 - 1) = zs.length + 1 := by omega
      rw [this]
      have hstep : ((z :: zs).length - 1) = zs.length := by simp
      have := ih d (List.cons_ne_nil z zs)
      rw [setLastInf_length] at this
      simp only [List.length_cons] at this
      have harg : (zs.length + 1 - 1) = zs.length := by omega
      rw [harg] at this
      simpa using this

theorem objectiveStep_extremes {S : Type} (k : Nat) (objective : Objective S)
    (a a' : List (AssignedCrowdingDistance S)) (spread : ℚ)
    (d : AssignedCrowdingDistance S)
    (hstep : objectiveStep k objective a = some (a', spread)) :
    a' ≠ [] ∧ ((a'.getD 0 d).crowding_distance = .inf)
    ∧ ((a'.getD (a'.length - 1) d).crowding_distance = .inf) := by
  unfold objectiveStep at hstep
  rcases hsort : cdSort objective a with _ | ⟨h0, t⟩
  · rw [hsort] at hstep
    cases hstep
  · rw [hsort] at hstep
    simp only [Option.some.injEq, Prod.mk.injEq] at hstep
    have ha' : a' = addInterior objective k spread (setLastInf (setFirstInf (h0 :: t))) := by
      rw [← hstep.1, hstep.2]
    set a2 := setLastInf (setFirstInf (h0 :: t)) with ha2
    have ha2len : a2.length = t.length + 1 := by
      rw [ha2, setLastInf_length, setFirstInf_length]
      rfl
    have ha'len : a'.length = t.length + 1 := by
      rw [ha', addInterior_length, ha2len]
    refine ⟨?_, ?_, ?_⟩
    · intro hnil
      rw [hnil] at ha'len
      simp at ha'len
    · rw [ha', addInterior_getD_extreme _ _ _ _ _ _ (by omega) (by omega)]
      rcases setLastInf_getD_zero (setFirstInf (h0 :: t)) d with h | h
      · rw [ha2, h]
        exact setFirstInf_getD_zero _ d (by simp [setFirstInf])
      · rw [ha2]
        exact h
    · rw [ha'len, ha', addInterior_getD_extreme _ _ _ _ _ _ (by omega) (by omega)]
      have := setLastInf_getD_last (setFirstInf (h0 :: t)) d (by simp [setFirstInf])
      rw [setLastInf_length, setFirstInf_length] at this
      simp only [List.length_cons] at this
      have harg : t.length + 1 - 1 = t.length := by omega
      rw [harg] at this
      rw [ha2]
      have harg2 : t.length + 1 - 1 = t.length := by omega
      rw [harg2]
      exact this

theorem objectiveStep_zero_spread {S : Type} (k : Nat) (objective : Objective S)
    (a a' : List (AssignedCrowdingDistance S)) (spread : ℚ)
    (hstep : objectiveStep k objective a = some (a', spread)) (hz : spread = 0) :
    a' = setLastInf (setFirstInf (cdSort objective a)) := by
  unfold objectiveStep at hstep
  rcases hsort : cdSort objective a with _ | ⟨h0, t⟩
  · rw [hsort] at hstep
    cases hstep
  · rw [hsort] at hstep
    simp only [Option.some.injEq, Prod.mk.injEq] at hstep
    rw [← hstep.1, hstep.2, hz]
    unfold addInterior
    rw [if_neg (by norm_num)]

/-- The two objectives on integer pairs used by the crate's crowding-distance test
(test_helper_objective.rs): compare and measure the first resp. second component. -/
def objTuple1 : Objective (Nat × Nat) where
  totalOrder := fun a b => if a.1 < b.1 then .lt else if a.1 = b.1 then .eq else .gt
  distance := fun a b => (a.1 : ℚ) - (b.1 : ℚ)

def objTuple2 : Objective (Nat × Nat) where
  totalOrder := fun a b => if a.2 < b.2 then .lt else if a.2 = b.2 then .eq else .gt
  distance := fun a b => (a.2 : ℚ) - (b.2 : ℚ)

/-- The rank-0 front `{a = (1,3), b = (3,1), d = (2,2)}` (indices 0, 1, 3 of the
crate's `test_crowding_distance`). -/
def frontABD : Front (Nat × Nat) where
  solutions := [(0, (1, 3)), (1, (3, 1)), (3, (2, 2))]
  rank := 0

/-- C4: `assign_crowding_distance` gives the two extreme solutions under each
objective's total order crowding distance `+∞` (conjuncts 3 and 4: extremes of
every per-objective pass get `+∞` and `+∞` survives all later passes), lets an
objective with zero spread contribute nothing (conjunct 2), and adds
`|distance(next, prev)| / (k·spread)` to each interior solution per objective
(conjunct 5); concretely (conjunct 1), on the front `{a=(1,3), b=(3,1), d=(2,2)}`
with two minimizing objectives both spreads are `2` and the distances are
`a → +∞`, `b → +∞`, `d → 1`. -/
theorem C4_crowding_distance :
    (assign_crowding_distance frontABD ⟨[objTuple1, objTuple2]⟩
      = some ([⟨1, (3, 1), 0, .inf⟩, ⟨3, (2, 2), 0, .fin 1⟩, ⟨0, (1, 3), 0, .inf⟩], [2, 2]))
    ∧ (∀ (S : Type) (k : Nat) (objective : Objective S)
        (a a' : List (AssignedCrowdingDistance S)) (spread : ℚ),
        objectiveStep k objective a = some (a', spread) → spread = 0 →
        a' = setLastInf (setFirstInf (cdSort objective a)))
    ∧ (∀ (S : Type) (k : Nat) (objective : Objective S)
        (a a' : List (AssignedCrowdingDistance S)) (spread : ℚ)
        (d : AssignedCrowdingDistance S),
        objectiveStep k objective a = some (a', spread) →
        a' ≠ [] ∧ ((a'.getD 0 d).crowding_distance = .inf)
          ∧ ((a'.getD (a'.length - 1) d).crowding_distance = .inf))
    ∧ (∀ (S : Type) (k : Nat) (objective : Objective S)
        (a a' : List (AssignedCrowdingDistance S)) (spread : ℚ) (ix : Nat),
        objectiveStep k objective a = some (a', spread) →
        hasInfIdx ix a → hasInfIdx ix a')
    ∧ (∀ (S : Type) (objective : Objective S) (k : Nat) (spread : ℚ)
        (a : List (AssignedCrowdingDistance S)) (i : Nat)
        (d : AssignedCrowdingDistance S),
        0 < spread → 1 ≤ i → i + 1 < a.length →
        ((addInterior objective k spread a).getD i d).crowding_distance
          = ((a.getD i d).crowding_distance).add (.fin ((abs (objective.distance ((a.getD (i + 1) d).solution) ((a.getD (i - 1) d).solution))) * (1 / (spread * (k : ℚ)))))) := by
  refine ⟨?_, ?_, ?_, ?_, ?_⟩
  · with_unfolding_all rfl
  · intro S k objective a a' spread hstep hz
    exact objectiveStep_zero_spread k objective a a' spread hstep hz
  · intro S k objective a a' spread d hstep
    exact objectiveStep_extremes k objective a a' spread d hstep
  · intro S k objective a a' spread ix hstep hinf
    exact objectiveStep_preserves_inf k objective a a' spread hstep hinf
  · intro S objective k spread a i d hpos h1 h2
    rw [addInterior_getD_interior objective k spread a i d hpos h1 h2]

/-- Witness for C4: the general conjuncts instantiated on concrete fronts
(a zero-spread objective leaves only sort + extremes; the extremes of a pass are
`+∞`; `+∞` survives the second pass; the interior formula on the concrete sorted
front adds `2·(1/(2·2)) = 1/2`). -/
theorem C4_crowding_distance_witness :
    (assign_crowding_distance frontABD ⟨[objTuple1, objTuple2]⟩
      = some ([⟨1, (3, 1), 0, .inf⟩, ⟨3, (2, 2), 0, .fin 1⟩, ⟨0, (1, 3), 0, .inf⟩], [2, 2]))
    ∧ (([⟨0, (1, 1), 0, .inf⟩, ⟨1, (1, 5), 0, .inf⟩]
          : List (AssignedCrowdingDistance (Nat × Nat)))
        = setLastInf (setFirstInf (cdSort objTuple1
            [⟨0, (1, 1), 0, .fin 0⟩, ⟨1, (1, 5), 0, .fin 0⟩])))
    ∧ (([⟨0, (1, 3), 0, .inf⟩, ⟨3, (2, 2), 0, .fin (1/2)⟩, ⟨1, (3, 1), 0, .inf⟩]
          : List (AssignedCrowdingDistance (Nat × Nat))) ≠ [])
    ∧ hasInfIdx 0 [⟨1, (3, 1), 0, .inf⟩, ⟨3, (2, 2), 0, .fin 1⟩, ⟨0, (1, 3), 0, .inf⟩]
    ∧ ((addInterior objTuple1 2 2
          [⟨0, (1, 3), 0, .inf⟩, ⟨3, (2, 2), 0, .fin 0⟩, ⟨1, (3, 1), 0, .inf⟩]).getD 1
          ⟨99, (0, 0), 0, .fin 0⟩).crowding_distance
        = (FVal.fin 0).add (.fin ((abs (objTuple1.distance (3, 1) (1, 3))) * (1 / ((2 : ℚ) * (2 : ℚ))))) := by
  refine ⟨C4_crowding_distance.1, ?_, ?_, ?_, ?_⟩
  · have h := C4_crowding_distance.2.1 (Nat × Nat) 1 objTuple1
      [⟨0, (1, 1), 0, .fin 0⟩, ⟨1, (1, 5), 0, .fin 0⟩]
      [⟨0, (1, 1), 0, .inf⟩, ⟨1, (1, 5), 0, .inf⟩] 0
      (by with_unfolding_all rfl) rfl
    exact h
  · have h := C4_crowding_distance.2.2.1 (Nat × Nat) 2 objTuple1
      [⟨0, (1, 3), 0, .fin 0⟩, ⟨1, (3, 1), 0, .fin 0⟩, ⟨3, (2, 2), 0, .fin 0⟩]
      [⟨0, (1, 3), 0, .inf⟩, ⟨3, (2, 2), 0, .fin (1/2)⟩, ⟨1, (3, 1), 0, .inf⟩] 2
      ⟨99, (0, 0), 0, .fin 0⟩ (by with_unfolding_all rfl)
    exact h.1
  · have h := C4_crowding_distance.2.2.2.1 (Nat × Nat) 2 objTuple2
      [⟨0, (1, 3), 0, .inf⟩, ⟨3, (2, 2), 0, .fin (1/2)⟩, ⟨1, (3, 1), 0, .inf⟩]
      [⟨1, (3, 1), 0, .inf⟩, ⟨3, (2, 2), 0, .fin 1⟩, ⟨0, (1, 3), 0, .inf⟩] 2 0
      (by with_unfolding_all rfl)
      ⟨⟨0, (1, 3), 0, .inf⟩, by simp, rfl, rfl⟩
    exact h
  · have h := C4_crowding_distance.2.2.2.2 (Nat × Nat) objTuple1 2 2
      [⟨0, (1, 3), 0, .inf⟩, ⟨3, (2, 2), 0, .fin 0⟩, ⟨1, (3, 1), 0, .inf⟩] 1
      ⟨99, (0, 0), 0, .fin 0⟩ (by norm_num) (by norm_num) (by simp)
    rw [h]
    rfl

/-! ## Embedding of `population.rs` / `selection.rs`: individuals and selection

An `Individual` (population.rs lines 10–31) carries a genome, a fitness, the
pareto rank, the crowding distance, the crowd size and the `selected` flag
(`fitness` is held directly: every individual reaching selection has been
rated).  The `crowding_distance_assignment` helper and the
`CrowdingDistanceAssignment` comparator methods imported by selection.rs are not
part of this snapshot of `src/`; they are abstracted as parameters (`cda`,
`cmp`, `rcOrd`, `similar`, `cmpO`) constrained in the theorems per the spec to
update only ranks and crowding distances (never the `selected` flags or the
fitness values).  Panics (`assert!` failures, out-of-bounds indexing,
`gen_range` on an empty range) become `Except` errors; the random generator is
a scripted stream of naturals, as for `tournament_selection_fast`. -/

structure Ind (G F : Type) where
  genome : G
  fitness : F
  rank : Nat
  dist : FVal
  crowd : Nat
  selected : Bool
deriving DecidableEq

inductive SelErr where
  | objectivesEmpty : SelErr
  | missingAssert : SelErr
  | doubleSelect : SelErr
  | indexOOB : SelErr
  | emptyGroup : SelErr
  | sizeAssert : SelErr
  | reproAssert : SelErr
  | fuel : SelErr
deriving DecidableEq

/-- The projection of a population to its `selected` flags. -/
def flags {G F : Type} (sols : List (Ind G F)) : List Bool :=
  sols.map fun s => s.selected

/-- How many individuals are currently marked selected. -/
def countSel {G F : Type} (sols : List (Ind G F)) : Nat :=
  (flags sols).count true

/-- The projection of a population to its fitness values (as passed to the
non-dominated sorter via `&|s| s.fitness()`). -/
def fitList {G F : Type} (sols : List (Ind G F)) : List F :=
  sols.map fun s => s.fitness

/-- `solutions[i].select()` (population.rs lines 54–57):
`assert!(self.selected == false); self.selected = true;`.  Out-of-bounds
indexing and the assert are distinct panics. -/
def selectIdx {G F : Type} (sols : List (Ind G F)) (i : Nat) :
    Except SelErr (List (Ind G F)) :=
  match sols[i]? with
  | none => .error .indexOOB
  | some s =>
    if s.selected then .error .doubleSelect
    else .ok (sols.set i { s with selected := true })

/-- `for s in solutions.iter_mut() { s.unselect(); }`. -/
def unselectAll {G F : Type} (sols : List (Ind G F)) : List (Ind G F) :=
  sols.map fun s => { s with selected := false }

/-- The whole-front branch of `SelectNSGA::select_solutions` (selection.rs
lines 64–68): `for i in front { solutions[i].select(); assert!(missing > 0);
missing -= 1; }`. -/
def selWhole {G F : Type} :
    List (Ind G F) → Nat → List Nat → Except SelErr (List (Ind G F) × Nat)
  | sols, missing, [] => .ok (sols, missing)
  | sols, missing, i :: rest =>
    match selectIdx sols i with
    | .error e => .error e
    | .ok sols' =>
      if missing = 0 then .error .missingAssert
      else selWhole sols' (missing - 1) rest

/-- The partial-front branch of `SelectNSGA::select_solutions` (selection.rs
lines 86–90): `for i in front.into_iter().take(missing) { assert!(missing > 0);
solutions[i].select(); missing -= 1; }` (the `take` is applied by the caller). -/
def selPart {G F : Type} :
    List (Ind G F) → Nat → List Nat → Except SelErr (List (Ind G F) × Nat)
  | sols, missing, [] => .ok (sols, missing)
  | sols, missing, i :: rest =>
    if missing = 0 then .error .missingAssert
    else
      match selectIdx sols i with
      | .error e => .error e
      | .ok sols' => selPart sols' (missing - 1) rest

/-- The front loop of `SelectNSGA::select_solutions` (selection.rs lines
55–95): per front, assert `missing > 0`, assign crowding distances (`cda`),
then either take the whole front, or sort it by the rank-and-crowding
comparator (`cmp`, evaluated on the updated solutions) and take the best
`missing`, asserting `missing == 0` afterwards. -/
def selNSGAFronts {G F : Type}
    (cda : List (Ind G F) → List Nat → Nat → List (Ind G F))
    (cmp : List (Ind G F) → Nat → Nat → Ordering) :
    List (Ind G F) → Nat → Nat → List (List Nat) → Except SelErr (List (Ind G F))
  | sols, _, _, [] => .ok sols
  | sols, missing, rank, front :: rest =>
    if missing = 0 then .error .missingAssert
    else
      let sols1 := cda sols front rank
      if front.length ≤ missing then
        match selWhole sols1 missing front with
        | .error e => .error e
        | .ok (sols2, m2) =>
          if m2 = 0 then .ok sols2
          else selNSGAFronts cda cmp sols2 m2 (rank + 1) rest
      else
        match selPart sols1 missing ((sortC (fun a b => cmp sols1 a b) front).take missing) with
        | .error e => .error e
        | .ok (sols2, m2) =>
          if m2 = 0 then .ok sols2 else .error .missingAssert

/-- `SelectNSGA::select_solutions` (selection.rs lines 34–96):
`assert!(objectives.len() > 0)`, unselect everything, run the eager
non-dominated sort on the fitness values, then fill fronts until
`min(solutions.len(), select_n)` individuals are selected. -/
def selectNSGA_select_solutions {G F : Type} (dom : F → F → Ordering) (dfltF : F)
    (cda : List (Ind G F) → List Nat → Nat → List (Ind G F))
    (cmp : List (Ind G F) → Nat → Nat → Ordering) (objectives : List Nat)
    (sols : List (Ind G F)) (select_n : Nat) : Except SelErr (List (Ind G F)) :=
  if objectives = [] then .error .objectivesEmpty
  else
    let missing := min sols.length select_n
    let sols0 := unselectAll sols
    let fronts := (collectFronts (sols.length + 1)
      (sorterNewP dom (fitList sols0) dfltF)).1
    selNSGAFronts cda cmp sols0 missing 0 fronts

/-- `RatedPopulation::select` (population.rs lines 190–215), generic over the
selection policy: run `select_solutions`, retain the selected individuals, sort
them by `rank_and_crowding_order` (comparator `rcOrd`, a
`CrowdingDistanceAssignment` method not in this snapshot), then
`assert!(individuals.len() == population_size)`. -/
def ratedSelect {G F : Type}
    (policy : List (Ind G F) → Nat → Except SelErr (List (Ind G F)))
    (rcOrd : Ind G F → Ind G F → Ordering)
    (sols : List (Ind G F)) (population_size : Nat) :
    Except SelErr (List (Ind G F)) :=
  match policy sols population_size with
  | .error e => .error e
  | .ok sols' =>
    let kept := sortC rcOrd (sols'.filter fun s => s.selected)
    if kept.length = population_size then .ok kept else .error .sizeAssert

/-! ### Flag bookkeeping -/

theorem flags_length {G F : Type} (sols : List (Ind G F)) :
    (flags sols).length = sols.length := by
  simp [flags]

theorem flags_getD {G F : Type} (sols : List (Ind G F)) (i : Nat) :
    (flags sols).getD i false = ((sols[i]?).map (fun s => s.selected)).getD false := by
  rw [List.getD_eq_getElem?_getD, flags, List.getElem?_map]

theorem bool_getD_set_self {l : List Bool} {i : Nat} (x : Bool) (hi : i < l.length) :
    (l.set i x).getD i false = x := by
  rw [List.getD_eq_getElem?_getD, List.getElem?_set_self hi]
  rfl

theorem bool_getD_set_ne (l : List Bool) {i j : Nat} (x : Bool) (h : i ≠ j) :
    (l.set i x).getD j false = l.getD j false := by
  rw [List.getD_eq_getElem?_getD, List.getElem?_set_ne h, ← List.getD_eq_getElem?_getD]

theorem count_set_true :
    ∀ (l : List Bool) (i : Nat), i < l.length → l.getD i false = false →
      (l.set i true).count true = l.count true + 1 := by
  intro l
  induction l with
  | nil =>
    intro i hi _
    simp at hi
  | cons b t ih =>
    intro i hi hf
    cases i with
    | zero =>
      have hb : b = false := hf
      subst hb
      simp [List.count_cons]
    | succ i =>
      have hi' : i < t.length := by
        simpa using hi
      have hf' : t.getD i false = false := hf
      simp only [List.set_cons_succ, List.count_cons]
      rw [ih i hi' hf']
      omega

theorem getD_set_true_mono (l : List Bool) (i e : Nat)
    (h : l.getD e false = true) : (l.set i true).getD e false = true := by
  by_cases hie : i = e
  · subst hie
    by_cases hi : i < l.length
    · exact bool_getD_set_self true hi
    · rw [List.set_eq_of_length_le (by omega)]
      exact h
  · rw [bool_getD_set_ne l true hie]
    exact h

theorem flags_unselectAll {G F : Type} (sols : List (Ind G F)) :
    flags (unselectAll sols) = List.replicate sols.length false := by
  induction sols with
  | nil => rfl
  | cons a t ih =>
    simp only [unselectAll, flags, List.map_cons, List.map_map] at ih ⊢
    rw [List.length_cons, List.replicate_succ]
    exact congrArg (List.cons false) ih

theorem getD_replicate_false (n j : Nat) :
    (List.replicate n false).getD j false = false := by
  rw [List.getD_eq_getElem?_getD]
  cases h : (List.replicate n false)[j]? with
  | none => rfl
  | some b =>
    have := List.getElem?_mem h
    rw [List.eq_of_mem_replicate this]
    rfl

theorem length_unselectAll {G F : Type} (sols : List (Ind G F)) :
    (unselectAll sols).length = sols.length := by
  simp [unselectAll]

theorem fitList_unselectAll {G F : Type} (sols : List (Ind G F)) :
    fitList (unselectAll sols) = fitList sols := by
  rw [fitList, unselectAll, List.map_map]
  rfl

theorem selectIdx_ok {G F : Type} (sols : List (Ind G F)) (i : Nat)
    (hi : i < sols.length) (hf : (flags sols).getD i false = false) :
    ∃ sols', selectIdx sols i = .ok sols'
      ∧ flags sols' = (flags sols).set i true
      ∧ sols'.length = sols.length := by
  have hsome : sols[i]? = some sols[i] := List.getElem?_eq_getElem hi
  have hsel : sols[i].selected = false := by
    rw [flags_getD, hsome] at hf
    exact hf
  refine ⟨sols.set i { sols[i] with selected := true }, ?_, ?_, ?_⟩
  · unfold selectIdx
    rw [hsome]
    simp [hsel]
  · rw [flags, List.map_set, ← flags]
  · simp

theorem selectIdx_ne_double {G F : Type} (sols : List (Ind G F)) (i : Nat)
    (hf : (flags sols).getD i false = false) :
    ∀ e, selectIdx sols i = .error e → e ≠ .doubleSelect := by
  intro e he
  by_cases hi : i < sols.length
  · obtain ⟨sols', hok, _, _⟩ := selectIdx_ok sols i hi hf
    rw [hok] at he
    cases he
  · have hnone : sols[i]? = none := List.getElem?_eq_none (by omega)
    have hval : selectIdx sols i = .error .indexOOB := by
      unfold selectIdx
      rw [hnone]
    rw [hval] at he
    cases he
    decide

theorem selWhole_ok {G F : Type} :
    ∀ (front : List Nat) (sols : List (Ind G F)) (missing : Nat),
      front.Nodup →
      (∀ i ∈ front, i < sols.length) →
      (∀ i ∈ front, (flags sols).getD i false = false) →
      front.length ≤ missing →
      ∃ sols', selWhole sols missing front = .ok (sols', missing - front.length)
        ∧ sols'.length = sols.length
        ∧ countSel sols' = countSel sols + front.length
        ∧ (∀ j, j ∉ front → (flags sols').getD j false = (flags sols).getD j false)
        ∧ (∀ j ∈ front, (flags sols').getD j false = true) := by
  intro front
  induction front with
  | nil =>
    intro sols missing _ _ _ _
    exact ⟨sols, rfl, rfl, by simp, fun j _ => rfl, fun j hj => absurd hj (by simp)⟩
  | cons i rest ih =>
    intro sols missing hnd hb hf hm
    have hi : i < sols.length := hb i (by simp)
    have hfi : (flags sols).getD i false = false := hf i (by simp)
    obtain ⟨sols1, hsel, hfl1, hlen1⟩ := selectIdx_ok sols i hi hfi
    have hndr : rest.Nodup := (List.nodup_cons.mp hnd).2
    have hir : i ∉ rest := (List.nodup_cons.mp hnd).1
    have hb1 : ∀ j ∈ rest, j < sols1.length := by
      intro j hj
      rw [hlen1]
      exact hb j (by simp [hj])
    have hf1 : ∀ j ∈ rest, (flags sols1).getD j false = false := by
      intro j hj
      rw [hfl1, bool_getD_set_ne _ true (by rintro rfl; exact hir hj)]
      exact hf j (by simp [hj])
    have hm1 : rest.length ≤ missing - 1 := by
      simp only [List.length_cons] at hm
      omega
    obtain ⟨sols2, hrun, hlen2, hcnt2, hout2, hin2⟩ := ih sols1 (missing - 1) hndr hb1 hf1 hm1
    have hmpos : ¬ missing = 0 := by
      simp only [List.length_cons] at hm
      omega
    refine ⟨sols2, ?_, ?_, ?_, ?_, ?_⟩
    · unfold selWhole
      rw [hsel]
      simp only [hmpos, if_false]
      rw [hrun]
      congr 2
      simp only [List.length_cons]
      omega
    · rw [hlen2, hlen1]
    · rw [hcnt2]
      have : countSel sols1 = countSel sols + 1 := by
        unfold countSel
        rw [hfl1]
        exact count_set_true (flags sols) i (by rw [flags_length]; exact hi) hfi
      rw [this]
      simp only [List.length_cons]
      omega
    · intro j hj
      have hjne : j ≠ i := by
        rintro rfl
        exact hj (by simp)
      rw [hout2 j (fun hjr => hj (by simp [hjr])), hfl1,
        bool_getD_set_ne _ true (fun h => hjne h.symm)]
    · intro j hj
      rcases List.mem_cons.mp hj with rfl | hjr
      · rw [hout2 j hir, hfl1, bool_getD_set_self true (by rw [flags_length]; exact hi)]
      · exact hin2 j hjr

theorem selPart_ok {G F : Type} :
    ∀ (front : List Nat) (sols : List (Ind G F)) (missing : Nat),
      front.Nodup →
      (∀ i ∈ front, i < sols.length) →
      (∀ i ∈ front, (flags sols).getD i false = false) →
      front.length ≤ missing →
      ∃ sols', selPart sols missing front = .ok (sols', missing - front.length)
        ∧ sols'.length = sols.length
        ∧ countSel sols' = countSel sols + front.length
        ∧ (∀ j, j ∉ front → (flags sols').getD j false = (flags sols).getD j false)
        ∧ (∀ j ∈ front, (flags sols').getD j false = true) := by
  intro front
  induction front with
  | nil =>
    intro sols missing _ _ _ _
    exact ⟨sols, rfl, rfl, by simp, fun j _ => rfl, fun j hj => absurd hj (by simp)⟩
  | cons i rest ih =>
    intro sols missing hnd hb hf hm
    have hi : i < sols.length := hb i (by simp)
    have hfi : (flags sols).getD i false = false := hf i (by simp)
    obtain ⟨sols1, hsel, hfl1, hlen1⟩ := selectIdx_ok sols i hi hfi
    have hndr : rest.Nodup := (List.nodup_cons.mp hnd).2
    have hir : i ∉ rest := (List.nodup_cons.mp hnd).1
    have hb1 : ∀ j ∈ rest, j < sols1.length := by
      intro j hj
      rw [hlen1]
      exact hb j (by simp [hj])
    have hf1 : ∀ j ∈ rest, (flags sols1).getD j false = false := by
      intro j hj
      rw [hfl1, bool_getD_set_ne _ true (by rintro rfl; exact hir hj)]
      exact hf j (by simp [hj])
    have hm1 : rest.length ≤ missing - 1 := by
      simp only [List.length_cons] at hm
      omega
    obtain ⟨sols2, hrun, hlen2, hcnt2, hout2, hin2⟩ := ih sols1 (missing - 1) hndr hb1 hf1 hm1
    have hmpos : ¬ missing = 0 := by
      simp only [List.length_cons] at hm
      omega
    refine ⟨sols2, ?_, ?_, ?_, ?_, ?_⟩
    · unfold selPart
      simp only [hmpos, if_false, hsel]
      rw [hrun]
      congr 2
      simp only [List.length_cons]
      omega
    · rw [hlen2, hlen1]
    · rw [hcnt2]
      have : countSel sols1 = countSel sols + 1 := by
        unfold countSel
        rw [hfl1]
        exact count_set_true (flags sols) i (by rw [flags_length]; exact hi) hfi
      rw [this]
      simp only [List.length_cons]
      omega
    · intro j hj
      have hjne : j ≠ i := by
        rintro rfl
        exact hj (by simp)
      rw [hout2 j (fun hjr => hj (by simp [hjr])), hfl1,
        bool_getD_set_ne _ true (fun h => hjne h.symm)]
    · intro j hj
      rcases List.mem_cons.mp hj with rfl | hjr
      · rw [hout2 j hir, hfl1, bool_getD_set_self true (by rw [flags_length]; exact hi)]
      · exact hin2 j hjr

theorem selNSGAFronts_ok {G F : Type}
    (cda : List (Ind G F) → List Nat → Nat → List (Ind G F))
    (cmp : List (Ind G F) → Nat → Nat → Ordering)
    (hcda : ∀ s f r, flags (cda s f r) = flags s) :
    ∀ (fronts : List (List Nat)) (sols : List (Ind G F)) (missing rank : Nat),
      fronts.flatten.Nodup →
      (∀ i ∈ fronts.flatten, i < sols.length) →
      (∀ i ∈ fronts.flatten, (flags sols).getD i false = false) →
      missing ≤ fronts.flatten.length →
      (fronts = [] ∨ 0 < missing) →
      ∃ sols', selNSGAFronts cda cmp sols missing rank fronts = .ok sols'
        ∧ sols'.length = sols.length
        ∧ countSel sols' = countSel sols + missing := by
  intro fronts
  induction fronts with
  | nil =>
    intro sols missing rank _ _ _ hm _
    have hm0 : missing = 0 := by
      simpa using hm
    exact ⟨sols, rfl, rfl, by omega⟩
  | cons front rest ih =>
    intro sols missing rank hnd hb hf hm hpos
    have hmpos : 0 < missing := by
      rcases hpos with h | h
      · cases h
      · exact h
    have hmne : ¬ missing = 0 := by omega
    set sols1 := cda sols front rank with hsols1
    have hfl1 : flags sols1 = flags sols := hcda sols front rank
    have hlen1 : sols1.length = sols.length := by
      have := congrArg List.length hfl1
      rw [flags_length, flags_length] at this
      exact this
    have hcnt1 : countSel sols1 = countSel sols := by
      unfold countSel
      rw [hfl1]
    have hndf : front.Nodup := by
      rw [List.flatten_cons] at hnd
      exact (List.nodup_append.mp hnd).1
    have hndr : rest.flatten.Nodup := by
      rw [List.flatten_cons] at hnd
      exact (List.nodup_append.mp hnd).2.1
    have hdisj : ∀ i ∈ front, i ∉ rest.flatten := by
      rw [List.flatten_cons] at hnd
      intro i hi hir
      exact (List.nodup_append.mp hnd).2.2 hi hir
    have hbf : ∀ i ∈ front, i < sols1.length := by
      intro i hi
      rw [hlen1]
      exact hb i (by rw [List.flatten_cons]; exact List.mem_append_left _ hi)
    have hff : ∀ i ∈ front, (flags sols1).getD i false = false := by
      intro i hi
      rw [hfl1]
      exact hf i (by rw [List.flatten_cons]; exact List.mem_append_left _ hi)
    by_cases hfit : front.length ≤ missing
    · obtain ⟨sols2, hrun, hlen2, hcnt2, hout2, _⟩ :=
        selWhole_ok front sols1 missing hndf hbf hff hfit
      by_cases hm2 : missing - front.length = 0
      · have hfm : front.length = missing := by omega
        refine ⟨sols2, ?_, ?_, ?_⟩
        · unfold selNSGAFronts
          simp only [hmne, if_false, ← hsols1, hfit, if_true]
          rw [hrun]
          simp [hm2]
        · rw [hlen2, hlen1]
        · rw [hcnt2, hcnt1, hfm]
      · have hbr : ∀ i ∈ rest.flatten, i < sols2.length := by
          intro i hi
          rw [hlen2, hlen1]
          exact hb i (by rw [List.flatten_cons]; exact List.mem_append_right _ hi)
        have hfr : ∀ i ∈ rest.flatten, (flags sols2).getD i false = false := by
          intro i hi
          have hninf : i ∉ front := fun hc => hdisj i hc hi
          rw [hout2 i hninf, hfl1]
          exact hf i (by rw [List.flatten_cons]; exact List.mem_append_right _ hi)
        have hmr : missing - front.length ≤ rest.flatten.length := by
          rw [List.flatten_cons, List.length_append] at hm
          omega
        obtain ⟨sols3, hrun3, hlen3, hcnt3⟩ := ih sols2 (missing - front.length) (rank + 1)
          hndr hbr hfr hmr (Or.inr (by omega))
        refine ⟨sols3, ?_, ?_, ?_⟩
        · unfold selNSGAFronts
          simp only [hmne, if_false, ← hsols1, hfit, if_true]
          rw [hrun]
          simp only [hm2, if_false]
          exact hrun3
        · rw [hlen3, hlen2, hlen1]
        · rw [hcnt3, hcnt2, hcnt1]
          omega
    · set ss := sortC (fun a b => cmp sols1 a b) front with hss
      have hperm : ss.Perm front := sortC_perm _ front
      have hssnd : ss.Nodup := (hperm.nodup_iff).mpr hndf
      set tk := ss.take missing with htk
      have htklen : tk.length = missing := by
        rw [htk, List.length_take, hperm.length_eq]
        omega
      have htknd : tk.Nodup := hssnd.sublist (List.take_sublist _ _)
      have htkmem : ∀ i ∈ tk, i ∈ front := by
        intro i hi
        exact hperm.mem_iff.mp (List.mem_of_mem_take hi)
      obtain ⟨sols2, hrun, hlen2, hcnt2, _, _⟩ :=
        selPart_ok tk sols1 missing htknd
          (fun i hi => hbf i (htkmem i hi))
          (fun i hi => hff i (htkmem i hi))
          (by omega)
      refine ⟨sols2, ?_, ?_, ?_⟩
      · unfold selNSGAFronts
        simp only [hmne, if_false, ← hsols1, hfit, if_false]
        rw [← hss, ← htk, hrun]
        simp [htklen]
      · rw [hlen2, hlen1]
      · rw [hcnt2, hcnt1, htklen]

/-- `SelectNSGA::select_solutions` marks exactly `min(n, select_n)` individuals
selected (and leaves the population size unchanged), provided the domination
relation is a strict order on the fitness values, the crowding-distance
assignment touches no `selected` flag, the objective list is non-empty and
`select_n > 0`. -/
theorem selectNSGA_count {G F : Type} (dom : F → F → Ordering) (dfltF : F)
    (cda : List (Ind G F) → List Nat → Nat → List (Ind G F))
    (cmp : List (Ind G F) → Nat → Nat → Ordering) (objectives : List Nat)
    (sols : List (Ind G F)) (select_n : Nat)
    (hobj : ¬ objectives = [])
    (hcda : ∀ s f r, flags (cda s f r) = flags s)
    (hA : ∀ a ∈ fitList sols, ∀ b ∈ fitList sols, (dom a b = .lt ↔ dom b a = .gt))
    (hT : ∀ a ∈ fitList sols, ∀ b ∈ fitList sols, ∀ c ∈ fitList sols,
      dom a b = .lt → dom b c = .lt → dom a c = .lt)
    (hsel : 0 < select_n) :
    ∃ sols', selectNSGA_select_solutions dom dfltF cda cmp objectives sols select_n
        = .ok sols'
      ∧ sols'.length = sols.length
      ∧ countSel sols' = min sols.length select_n := by
  have hfit0 : fitList (unselectAll sols) = fitList sols := fitList_unselectAll sols
  have hflen : (fitList (unselectAll sols)).length = sols.length := by
    rw [hfit0, fitList, List.length_map]
  have hA' : ∀ a ∈ fitList (unselectAll sols), ∀ b ∈ fitList (unselectAll sols),
      (dom a b = .lt ↔ dom b a = .gt) := by
    rw [hfit0]
    exact hA
  have hT' : ∀ a ∈ fitList (unselectAll sols), ∀ b ∈ fitList (unselectAll sols),
      ∀ c ∈ fitList (unselectAll sols),
      dom a b = .lt → dom b c = .lt → dom a c = .lt := by
    rw [hfit0]
    exact hT
  have hmain := collectFronts_partition dom (fitList (unselectAll sols)) dfltF hA' hT'
    (sols.length + 1) [] (sorterNewP dom (fitList (unselectAll sols)) dfltF)
    (sorterNewP_inv dom (fitList (unselectAll sols)) dfltF) (by omega)
  rw [hflen] at hmain
  have hflat : ((collectFronts (sols.length + 1)
      (sorterNewP dom (fitList (unselectAll sols)) dfltF)).1).flatten.Perm
      (List.range sols.length) := by
    simpa using hmain.1
  have hnd : ((collectFronts (sols.length + 1)
      (sorterNewP dom (fitList (unselectAll sols)) dfltF)).1).flatten.Nodup :=
    hflat.nodup_iff.mpr (List.nodup_range _)
  have hbound : ∀ i ∈ ((collectFronts (sols.length + 1)
      (sorterNewP dom (fitList (unselectAll sols)) dfltF)).1).flatten,
      i < (unselectAll sols).length := by
    intro i hi
    rw [length_unselectAll]
    exact List.mem_range.mp (hflat.mem_iff.mp hi)
  have hflatlen : ((collectFronts (sols.length + 1)
      (sorterNewP dom (fitList (unselectAll sols)) dfltF)).1).flatten.length
      = sols.length := by
    rw [hflat.length_eq, List.length_range]
  have hfalse : ∀ i ∈ ((collectFronts (sols.length + 1)
      (sorterNewP dom (fitList (unselectAll sols)) dfltF)).1).flatten,
      (flags (unselectAll sols)).getD i false = false := by
    intro i _
    rw [flags_unselectAll]
    exact getD_replicate_false _ _
  have hpos : (collectFronts (sols.length + 1)
      (sorterNewP dom (fitList (unselectAll sols)) dfltF)).1 = []
      ∨ 0 < min sols.length select_n := by
    by_cases hn : sols.length = 0
    · left
      cases hfr : (collectFronts (sols.length + 1)
          (sorterNewP dom (fitList (unselectAll sols)) dfltF)).1 with
      | nil => rfl
      | cons f rest =>
        have hfne : f ≠ [] :=
          collectFronts_ne_nil _ _ f (by rw [hfr]; simp)
        cases hfe : f with
        | nil => exact absurd hfe hfne
        | cons x xs =>
          have hxmem : x ∈ ((collectFronts (sols.length + 1)
              (sorterNewP dom (fitList (unselectAll sols)) dfltF)).1).flatten := by
            rw [hfr, List.flatten_cons, hfe]
            simp
          have := List.mem_range.mp (hflat.mem_iff.mp hxmem)
          omega
    · right
      omega
  obtain ⟨sols', hrun, hlen, hcnt⟩ := selNSGAFronts_ok cda cmp hcda
    (collectFronts (sols.length + 1)
      (sorterNewP dom (fitList (unselectAll sols)) dfltF)).1
    (unselectAll sols) (min sols.length select_n) 0 hnd hbound hfalse
    (by omega) hpos
  refine ⟨sols', ?_, ?_, ?_⟩
  · unfold selectNSGA_select_solutions
    rw [if_neg hobj]
    exact hrun
  · rw [hlen, length_unselectAll]
  · rw [hcnt]
    have : countSel (unselectAll sols) = 0 := by
      unfold countSel
      rw [flags_unselectAll]
      rw [List.count_eq_zero]
      intro hmem
      have := List.eq_of_mem_replicate hmem
      cases this
    rw [this]
    omega

/-- `RatedPopulation::select` succeeds and returns exactly `population_size`
individuals whenever its policy marks exactly `population_size` individuals. -/
theorem ratedSelect_ok {G F : Type}
    (policy : List (Ind G F) → Nat → Except SelErr (List (Ind G F)))
    (rcOrd : Ind G F → Ind G F → Ordering)
    (sols : List (Ind G F)) (population_size : Nat)
    (sols' : List (Ind G F))
    (hpol : policy sols population_size = .ok sols')
    (hcnt : countSel sols' = population_size) :
    ∃ out, ratedSelect policy rcOrd sols population_size = .ok out
      ∧ out.length = population_size
      ∧ out.Perm (sols'.filter fun s => s.selected) := by
  have hkl : (sols'.filter fun s => s.selected).length = population_size := by
    rw [← hcnt]
    unfold countSel
    rw [← List.countP_eq_length_filter]
    unfold flags
    rw [List.count_eq_countP, List.countP_map]
    congr 1
    funext s
    simp
  have hsl : (sortC rcOrd (sols'.filter fun s => s.selected)).length = population_size := by
    rw [(sortC_perm rcOrd _).length_eq]
    exact hkl
  refine ⟨sortC rcOrd (sols'.filter fun s => s.selected), ?_, hsl, sortC_perm rcOrd _⟩
  unfold ratedSelect
  rw [hpol]
  simp [hsl]

/-! ### Embedding of `SelectNSGP::select_solutions` (selection.rs lines 99–242)

The `similar_to` test and `cmp_objective` under `objectives[0]` are methods of
the `MultiObjective` trait version used by selection.rs, which is not in this
snapshot of `src/` (the trait here has a different `similar_to` signature);
they are abstracted as `similar : F → F → Bool` and `cmpO : F → F → Ordering`.
Fitness values are never mutated during selection, so fitness reads through the
current solution list (`fitAt`) agree with reads through the initial one.  The
unbounded `'outer: while missing > 0` loop gets a fuel parameter; running out of
fuel is the distinguished error `SelErr.fuel`. -/

/-- `Vec::swap_remove(i)`: return the `i`-th element, and the vector with the
last element moved into position `i` (for `i` the last position, just a pop —
`List.set` out of range is the identity). -/
def swapRemove (l : List Nat) (i : Nat) : Nat × List Nat :=
  (l.getD i 0, (l.dropLast).set i (l.getD (l.length - 1) 0))

/-- The `'group` loop body (selection.rs lines 145–168): insert `idx` into the
first group whose representative `grp[0]` has similar fitness, or else open a
new group. -/
def insertGrp {F : Type} (similar : F → F → Bool) (fits : Nat → F) (idx : Nat) :
    List (List Nat) → List (List Nat)
  | [] => [[idx]]
  | grp :: rest =>
    if similar (fits idx) (fits (grp.headD 0)) then (grp ++ [idx]) :: rest
    else grp :: insertGrp similar fits idx rest

/-- Grouping a front into similarity groups (selection.rs lines 143–168). -/
def buildGroups {F : Type} (similar : F → F → Bool) (fits : Nat → F)
    (front : List Nat) : List (List Nat) :=
  front.foldl (fun gs idx => insertGrp similar fits idx gs) []

/-- `solutions[i]`, modified in place when the index is in bounds. -/
def modifyAt {G F : Type} (sols : List (Ind G F)) (i : Nat) (f : Ind G F → Ind G F) :
    List (Ind G F) :=
  match sols[i]? with
  | none => sols
  | some s => sols.set i (f s)

/-- `FVal` division by an integer, as used by the group average. -/
def FVal.divNat : FVal → Nat → FVal
  | .inf, _ => .inf
  | .fin q, n => .fin (q / (n : ℚ))

/-- The fitness of `solutions[i]`. -/
def fitAt {G F : Type} (dfltI : Ind G F) (sols : List (Ind G F)) (i : Nat) : F :=
  (sols.getD i dfltI).fitness

/-- The average crowding distance of a group (selection.rs lines 176–179). -/
def groupAvg {G F : Type} (dfltI : Ind G F) (sols : List (Ind G F))
    (grp : List Nat) : FVal :=
  (grp.foldl (fun (acc : FVal) idx => acc.add (sols.getD idx dfltI).dist)
    (FVal.fin 0)).divNat grp.length

/-- `solutions[idx].set_dist(avg); solutions[idx].set_crowd(grp.len());` for
every group member (selection.rs lines 180–183). -/
def setStats {G F : Type} (sols : List (Ind G F)) (grp : List Nat) (avg : FVal) :
    List (Ind G F) :=
  grp.foldl
    (fun s idx => modifyAt s idx (fun ind => { ind with dist := avg, crowd := grp.length }))
    sols

/-- Processing of one front (selection.rs lines 135–204): assign crowding
distances (`cda`), group the front by similar fitness, then per group average
the crowding distance, record the crowd size and sort the group by
`cmp_objective` under `objectives[0]` (`cmpO`); finally sort the groups by
their best member so that the first group holds the objective-0 elite. -/
def nsgpGroupStep {G F : Type} (cmpO : F → F → Ordering) (dfltI : Ind G F)
    (acc : List (Ind G F) × List (List Nat)) (grp : List Nat) :
    List (Ind G F) × List (List Nat) :=
  let s1 := setStats acc.1 grp (groupAvg dfltI acc.1 grp)
  (s1, acc.2 ++ [sortC (fun a b => cmpO (fitAt dfltI s1 a) (fitAt dfltI s1 b)) grp])

def nsgpFront {G F : Type}
    (cda : List (Ind G F) → List Nat → Nat → List (Ind G F))
    (similar : F → F → Bool) (cmpO : F → F → Ordering) (dfltI : Ind G F)
    (sols : List (Ind G F)) (front : List Nat) (rank : Nat) :
    List (Ind G F) × List (List Nat) :=
  let sols1 := cda sols front rank
  let groups := buildGroups similar (fitAt dfltI sols1) front
  let p := groups.foldl (nsgpGroupStep cmpO dfltI) (sols1, [])
  (p.1, sortC (fun g h => cmpO (fitAt dfltI p.1 (g.headD 0)) (fitAt dfltI p.1 (h.headD 0))) p.2)

/-- The group loop of one front in an NSGP selection round (selection.rs lines
217–235): from each group pick one member — index `0` for the very first pick
(round 0, front 0, group 0), otherwise a randomly drawn index — remove it with
`swap_remove`, assert it is unselected, select it.  When `missing` hits `0` the
`'outer` loop is broken; the returned group state is then dead (never read
again), so it is returned unmodified. -/
def nsgpGroups {G F : Type} (elite : Bool) :
    List (Ind G F) → Nat → List Nat → Nat → List (List Nat) → List (List Nat) →
    Except SelErr (List (Ind G F) × Nat × List Nat × List (List Nat))
  | sols, missing, rng, _, [], acc => .ok (sols, missing, rng, acc)
  | sols, missing, rng, gi, grp :: rest, acc =>
    if missing = 0 then .ok (sols, missing, rng, acc ++ grp :: rest)
    else
      if grp.length = 0 then .error .emptyGroup
      else
        let pr := if elite = true ∧ gi = 0 then ((0 : Nat), rng) else drawRange rng grp.length
        let sw := swapRemove grp pr.1
        match selectIdx sols sw.1 with
        | .error e => .error e
        | .ok sols' =>
          nsgpGroups elite sols' (missing - 1) pr.2 (gi + 1) rest (acc ++ [sw.2])

/-- The front loop of an NSGP selection round (selection.rs lines 214–239),
including the `retain` of non-empty groups. -/
def nsgpFrontsLoop {G F : Type} (round : Nat) :
    List (Ind G F) → Nat → List Nat → Nat → List (List (List Nat)) →
    List (List (List Nat)) →
    Except SelErr (List (Ind G F) × Nat × List Nat × List (List (List Nat)))
  | sols, missing, rng, _, [], acc => .ok (sols, missing, rng, acc)
  | sols, missing, rng, fi, fr :: rest, acc =>
    match nsgpGroups (decide (round = 0 ∧ fi = 0)) sols missing rng 0 fr [] with
    | .error e => .error e
    | .ok (sols', missing', rng', fr') =>
      nsgpFrontsLoop round sols' missing' rng' (fi + 1) rest
        (acc ++ [fr'.filter fun g => decide (0 < g.length)])

/-- The `'outer: while missing > 0` loop (selection.rs lines 212–241), fueled. -/
def nsgpRounds {G F : Type} :
    Nat → List (Ind G F) → Nat → List Nat → List (List (List Nat)) → Nat →
    Except SelErr (List (Ind G F))
  | 0, sols, missing, _, _, _ => if missing = 0 then .ok sols else .error .fuel
  | fuel + 1, sols, missing, rng, fg, round =>
    if missing = 0 then .ok sols
    else
      match nsgpFrontsLoop round sols missing rng 0 fg [] with
      | .error e => .error e
      | .ok (sols', missing', rng', fg') =>
        nsgpRounds fuel sols' missing' rng' fg' (round + 1)

def nsgpFrontStep {G F : Type}
    (cda : List (Ind G F) → List Nat → Nat → List (Ind G F))
    (similar : F → F → Bool) (cmpO : F → F → Ordering) (dfltI : Ind G F)
    (acc : (List (Ind G F) × List (List (List Nat))) × Nat) (front : List Nat) :
    (List (Ind G F) × List (List (List Nat))) × Nat :=
  let r := nsgpFront cda similar cmpO dfltI acc.1.1 front acc.2
  ((r.1, acc.1.2 ++ [r.2]), acc.2 + 1)

/-- `SelectNSGP::select_solutions` (selection.rs lines 113–242). -/
def selectNSGP_select_solutions {G F : Type} (dom : F → F → Ordering) (dfltF : F)
    (dfltI : Ind G F)
    (cda : List (Ind G F) → List Nat → Nat → List (Ind G F))
    (similar : F → F → Bool) (cmpO : F → F → Ordering) (objectives : List Nat)
    (rng : List Nat) (fuel : Nat)
    (sols : List (Ind G F)) (select_n : Nat) : Except SelErr (List (Ind G F)) :=
  if objectives = [] then .error .objectivesEmpty
  else
    let missing := min sols.length select_n
    let sols0 := unselectAll sols
    let fronts := (collectFronts (sols.length + 1)
      (sorterNewP dom (fitList sols0) dfltF)).1
    let p := fronts.foldl (nsgpFrontStep cda similar cmpO dfltI) ((sols0, []), 0)
    nsgpRounds fuel p.1.1 missing rng p.1.2 0

/-! ### Bookkeeping lemmas for the NSGP embedding -/

theorem getD_set_self_any {β : Type} (l : List β) (i : Nat) (x d : β)
    (hi : i < l.length) : (l.set i x).getD i d = x := by
  rw [List.getD_eq_getElem?_getD, List.getElem?_set_self hi]
  rfl

theorem getD_set_ne_any {β : Type} (l : List β) {i j : Nat} (x d : β) (h : i ≠ j) :
    (l.set i x).getD j d = l.getD j d := by
  rw [List.getD_eq_getElem?_getD, List.getElem?_set_ne h, ← List.getD_eq_getElem?_getD]

theorem set_getElem_self_any {β : Type} (l : List β) (i : Nat) (x : β)
    (h : l[i]? = some x) : l.set i x = l := by
  have hi : i < l.length := by
    by_contra hc
    rw [List.getElem?_eq_none (by omega)] at h
    cases h
  apply List.ext_getElem?
  intro j
  by_cases hij : i = j
  · subst hij
    rw [List.getElem?_set_self hi]
    exact h.symm
  · rw [List.getElem?_set_ne hij]

theorem getD_map_any {β γ : Type} (f : β → γ) (l : List β) (i : Nat) (d : β) :
    (l.map f).getD i (f d) = f (l.getD i d) := by
  rw [List.getD_eq_getElem?_getD, List.getElem?_map, List.getD_eq_getElem?_getD]
  cases l[i]? <;> rfl

theorem swapRemove_perm :
    ∀ (l : List Nat) (i : Nat), i < l.length →
      ((swapRemove l i).1 :: (swapRemove l i).2).Perm l := by
  intro l
  induction l with
  | nil =>
    intro i hi
    simp at hi
  | cons a t ih =>
    intro i hi
    cases t with
    | nil =>
      have hi0 : i = 0 := by
        simp at hi
        omega
      subst hi0
      exact List.Perm.refl _
    | cons b t' =>
      have hlast : (a :: b :: t').getD ((a :: b :: t').length - 1) 0
          = (b :: t').getD ((b :: t').length - 1) 0 := by
        have h1 : (a :: b :: t').length - 1 = ((b :: t').length - 1) + 1 := by
          simp
        rw [h1, List.getD_cons_succ]
      cases i with
      | zero =>
        have hrw : swapRemove (a :: b :: t') 0
            = (a, ((b :: t').getD ((b :: t').length - 1) 0) :: (b :: t').dropLast) := by
          unfold swapRemove
          rw [hlast]
          rfl
        rw [hrw]
        refine List.Perm.cons a ?_
        have hsub := ih ((b :: t').length - 1) (by simp)
        have hoob : ((b :: t').dropLast).set ((b :: t').length - 1)
            ((b :: t').getD ((b :: t').length - 1) 0) = (b :: t').dropLast := by
          apply List.set_eq_of_length_le
          rw [List.length_dropLast]
        unfold swapRemove at hsub
        rw [hoob] at hsub
        exact hsub
      | succ j =>
        have hj : j < (b :: t').length := by
          simpa using hi
        have hrw : swapRemove (a :: b :: t') (j + 1)
            = ((swapRemove (b :: t') j).1, a :: (swapRemove (b :: t') j).2) := by
          unfold swapRemove
          rw [hlast]
          rfl
        rw [hrw]
        have hperm := (ih j hj).cons a
        have hswap : ((swapRemove (b :: t') j).1 :: a :: (swapRemove (b :: t') j).2).Perm
            (a :: (swapRemove (b :: t') j).1 :: (swapRemove (b :: t') j).2) :=
          List.Perm.swap a _ _
        exact hswap.trans hperm

theorem insertGrp_flatten_perm {F : Type} (similar : F → F → Bool) (fits : Nat → F)
    (idx : Nat) : ∀ (gs : List (List Nat)),
      ((insertGrp similar fits idx gs).flatten).Perm (idx :: gs.flatten) := by
  intro gs
  induction gs with
  | nil => simp [insertGrp]
  | cons grp rest ih =>
    unfold insertGrp
    by_cases h : similar (fits idx) (fits (grp.headD 0)) = true
    · rw [if_pos h, List.flatten_cons, List.flatten_cons, List.append_assoc]
      exact List.perm_middle
    · rw [if_neg h, List.flatten_cons, List.flatten_cons]
      exact (List.Perm.append_left grp ih).trans List.perm_middle

theorem foldl_insertGrp_flatten_perm {F : Type} (similar : F → F → Bool)
    (fits : Nat → F) :
    ∀ (front : List Nat) (gs : List (List Nat)),
      ((front.foldl (fun gs idx => insertGrp similar fits idx gs) gs).flatten).Perm
        (front ++ gs.flatten) := by
  intro front
  induction front with
  | nil =>
    intro gs
    simp
  | cons idx rest ih =>
    intro gs
    rw [List.foldl_cons]
    have h1 := ih (insertGrp similar fits idx gs)
    have h2 : (rest ++ (insertGrp similar fits idx gs).flatten).Perm
        (rest ++ (idx :: gs.flatten)) :=
      List.Perm.append_left rest (insertGrp_flatten_perm similar fits idx gs)
    have h3 : (rest ++ (idx :: gs.flatten)).Perm (idx :: (rest ++ gs.flatten)) :=
      List.perm_middle
    exact ((h1.trans h2).trans h3)

theorem buildGroups_flatten_perm {F : Type} (similar : F → F → Bool) (fits : Nat → F)
    (front : List Nat) : ((buildGroups similar fits front).flatten).Perm front := by
  have := foldl_insertGrp_flatten_perm similar fits front []
  simpa [buildGroups] using this

theorem insertGrp_ne_nil {F : Type} (similar : F → F → Bool) (fits : Nat → F)
    (idx : Nat) : ∀ (gs : List (List Nat)), (∀ g ∈ gs, g ≠ []) →
      ∀ g ∈ insertGrp similar fits idx gs, g ≠ [] := by
  intro gs
  induction gs with
  | nil =>
    intro _ g hg
    unfold insertGrp at hg
    rcases List.mem_cons.mp hg with rfl | h
    · simp
    · cases h
  | cons grp rest ih =>
    intro hne g hg
    unfold insertGrp at hg
    by_cases h : similar (fits idx) (fits (grp.headD 0)) = true
    · rw [if_pos h] at hg
      rcases List.mem_cons.mp hg with rfl | hr
      · simp
      · exact hne g (by simp [hr])
    · rw [if_neg h] at hg
      rcases List.mem_cons.mp hg with rfl | hr
      · exact hne g (by simp)
      · exact ih (fun g' hg' => hne g' (by simp [hg'])) g hr

theorem buildGroups_ne_nil {F : Type} (similar : F → F → Bool) (fits : Nat → F) :
    ∀ (front : List Nat) (gs : List (List Nat)), (∀ g ∈ gs, g ≠ []) →
      ∀ g ∈ front.foldl (fun gs idx => insertGrp similar fits idx gs) gs, g ≠ [] := by
  intro front
  induction front with
  | nil =>
    intro gs hne g hg
    exact hne g hg
  | cons idx rest ih =>
    intro gs hne g hg
    rw [List.foldl_cons] at hg
    exact ih (insertGrp similar fits idx gs) (insertGrp_ne_nil similar fits idx gs hne) g hg

theorem length_modifyAt {G F : Type} (sols : List (Ind G F)) (i : Nat)
    (f : Ind G F → Ind G F) : (modifyAt sols i f).length = sols.length := by
  unfold modifyAt
  cases sols[i]? <;> simp

theorem flags_modifyAt {G F : Type} (sols : List (Ind G F)) (i : Nat)
    (f : Ind G F → Ind G F) (hf : ∀ x, (f x).selected = x.selected) :
    flags (modifyAt sols i f) = flags sols := by
  unfold modifyAt
  cases h : sols[i]? with
  | none => rfl
  | some s =>
    rw [flags, List.map_set, ← flags, hf s]
    apply set_getElem_self_any
    rw [flags, List.getElem?_map, h]
    rfl

theorem fitList_modifyAt {G F : Type} (sols : List (Ind G F)) (i : Nat)
    (f : Ind G F → Ind G F) (hf : ∀ x, (f x).fitness = x.fitness) :
    fitList (modifyAt sols i f) = fitList sols := by
  unfold modifyAt
  cases h : sols[i]? with
  | none => rfl
  | some s =>
    rw [fitList, List.map_set, ← fitList, hf s]
    apply set_getElem_self_any
    rw [fitList, List.getElem?_map, h]
    rfl

theorem flags_foldl_modify {G F : Type} :
    ∀ (grp : List Nat) (sols : List (Ind G F)) (avg : FVal) (c : Nat),
      flags (grp.foldl
        (fun s idx => modifyAt s idx (fun ind => { ind with dist := avg, crowd := c }))
        sols) = flags sols := by
  intro grp
  induction grp with
  | nil =>
    intro sols avg c
    rfl
  | cons i rest ih =>
    intro sols avg c
    rw [List.foldl_cons, ih]
    exact flags_modifyAt sols i _ (fun x => rfl)

theorem fitList_foldl_modify {G F : Type} :
    ∀ (grp : List Nat) (sols : List (Ind G F)) (avg : FVal) (c : Nat),
      fitList (grp.foldl
        (fun s idx => modifyAt s idx (fun ind => { ind with dist := avg, crowd := c }))
        sols) = fitList sols := by
  intro grp
  induction grp with
  | nil =>
    intro sols avg c
    rfl
  | cons i rest ih =>
    intro sols avg c
    rw [List.foldl_cons, ih]
    exact fitList_modifyAt sols i _ (fun x => rfl)

theorem flags_setStats {G F : Type} (sols : List (Ind G F)) (grp : List Nat)
    (avg : FVal) : flags (setStats sols grp avg) = flags sols :=
  flags_foldl_modify grp sols avg grp.length

theorem fitList_setStats {G F : Type} (sols : List (Ind G F)) (grp : List Nat)
    (avg : FVal) : fitList (setStats sols grp avg) = fitList sols :=
  fitList_foldl_modify grp sols avg grp.length

theorem fitAt_congr {G F : Type} (dfltI : Ind G F) {s₁ s₂ : List (Ind G F)}
    (h : fitList s₁ = fitList s₂) : ∀ i, fitAt dfltI s₁ i = fitAt dfltI s₂ i := by
  intro i
  have h1 : (fitList s₁).getD i dfltI.fitness = (fitList s₂).getD i dfltI.fitness := by
    rw [h]
  rw [fitList, fitList, getD_map_any, getD_map_any] at h1
  exact h1

theorem filter_flatten_pos :
    ∀ (L : List (List Nat)),
      ((L.filter fun g => decide (0 < g.length)).flatten) = L.flatten := by
  intro L
  induction L with
  | nil => rfl
  | cons g rest ih =>
    rw [List.filter_cons]
    by_cases h : 0 < g.length
    · rw [if_pos (decide_eq_true h)]
      rw [List.flatten_cons, List.flatten_cons, ih]
    · have hg : g = [] := by
        cases g with
        | nil => rfl
        | cons x xs => simp at h
      subst hg
      have hd : (decide (0 < ([] : List Nat).length)) = false := rfl
      rw [hd]
      simp only [Bool.false_eq_true, if_false]
      rw [ih, List.flatten_cons, List.nil_append]

theorem nsgpGroupStep_foldl {G F : Type} (cmpO : F → F → Ordering) (dfltI : Ind G F) :
    ∀ (groups : List (List Nat)) (s : List (Ind G F)) (acc : List (List Nat)),
      flags (groups.foldl (nsgpGroupStep cmpO dfltI) (s, acc)).1 = flags s
      ∧ fitList (groups.foldl (nsgpGroupStep cmpO dfltI) (s, acc)).1 = fitList s
      ∧ ((groups.foldl (nsgpGroupStep cmpO dfltI) (s, acc)).2).flatten.Perm
          (acc.flatten ++ groups.flatten) := by
  intro groups
  induction groups with
  | nil =>
    intro s acc
    refine ⟨rfl, rfl, by simp⟩
  | cons grp rest ih =>
    intro s acc
    rw [List.foldl_cons]
    have hstep : nsgpGroupStep cmpO dfltI (s, acc) grp
        = (setStats s grp (groupAvg dfltI s grp),
           acc ++ [sortC (fun a b =>
             cmpO (fitAt dfltI (setStats s grp (groupAvg dfltI s grp)) a)
                  (fitAt dfltI (setStats s grp (groupAvg dfltI s grp)) b)) grp]) := rfl
    rw [hstep]
    obtain ⟨h1, h2, h3⟩ := ih (setStats s grp (groupAvg dfltI s grp))
      (acc ++ [sortC (fun a b =>
        cmpO (fitAt dfltI (setStats s grp (groupAvg dfltI s grp)) a)
             (fitAt dfltI (setStats s grp (groupAvg dfltI s grp)) b)) grp])
    refine ⟨?_, ?_, ?_⟩
    · rw [h1, flags_setStats]
    · rw [h2, fitList_setStats]
    · refine h3.trans ?_
      rw [List.flatten_append, List.flatten_cons]
      rw [List.flatten_cons, List.flatten_nil, List.append_nil, List.append_assoc]
      exact List.Perm.append_left _
        (List.Perm.append (sortC_perm _ grp) (List.Perm.refl _))

/-! ### No index is ever selected twice -/

theorem collectFronts_nodup {α : Type} (dom : α → α → Ordering) (sols : List α)
    (dflt : α) :
    ∀ (fuel : Nat) (D : List Nat) (st : SorterState Unit),
      SorterInv dom sols dflt D st →
      (D ++ ((collectFronts fuel st).1).flatten).Nodup
      ∧ (∀ i ∈ ((collectFronts fuel st).1).flatten, i < sols.length) := by
  intro fuel
  induction fuel with
  | zero =>
    intro D st hInv
    constructor
    · have hz : (collectFronts 0 st).1 = ([] : List (List Nat)) := rfl
      rw [hz]
      simpa using (List.nodup_append.mp hInv.2.2.2.1).1
    · intro i hi
      have hz : (collectFronts 0 st).1 = ([] : List (List Nat)) := rfl
      rw [hz] at hi
      simp at hi
  | succ fuel ih =>
    intro D st hInv
    by_cases hfe : st.front = []
    · have hnone : sorterNext st = none := by
        unfold sorterNext
        rw [if_pos hfe]
      have hcoll : collectFronts (fuel + 1) st = ([], st) := by
        unfold collectFronts
        rw [hnone]
      rw [hcoll]
      constructor
      · simpa using (List.nodup_append.mp hInv.2.2.2.1).1
      · intro i hi
        simp at hi
    · obtain ⟨st', hnext, hInv', _, _⟩ := sorterNext_inv dom sols dflt D st hInv hfe
      have hcoll : collectFronts (fuel + 1) st
          = (st.front :: (collectFronts fuel st').1, (collectFronts fuel st').2) := by
        conv_lhs => unfold collectFronts
        rw [hnext]
      rw [hcoll]
      obtain ⟨hnd', hlt'⟩ := ih (D ++ st.front) st' hInv'
      constructor
      · rw [List.flatten_cons, ← List.append_assoc]
        exact hnd'
      · intro i hi
        rw [List.flatten_cons] at hi
        rcases List.mem_append.mp hi with h | h
        · exact ((hInv.2.2.2.2.1 i).mp h).1
        · exact hlt' i h

theorem selectIdx_ok_char {G F : Type} (sols : List (Ind G F)) (i : Nat)
    (sols' : List (Ind G F)) (h : selectIdx sols i = .ok sols') :
    flags sols' = (flags sols).set i true ∧ i < sols.length := by
  unfold selectIdx at h
  cases hs : sols[i]? with
  | none =>
    rw [hs] at h
    cases h
  | some s =>
    rw [hs] at h
    have h2 : (if s.selected = true
        then (Except.error SelErr.doubleSelect : Except SelErr (List (Ind G F)))
        else .ok (sols.set i { s with selected := true })) = .ok sols' := h
    by_cases hsel : s.selected = true
    · rw [if_pos hsel] at h2
      cases h2
    · rw [if_neg hsel] at h2
      cases h2
      constructor
      · rw [flags, List.map_set, ← flags]
      · by_contra hc
        rw [List.getElem?_eq_none (by omega)] at hs
        cases hs

theorem selWhole_no_double {G F : Type} :
    ∀ (front : List Nat) (sols : List (Ind G F)) (missing : Nat),
      front.Nodup →
      (∀ i ∈ front, (flags sols).getD i false = false) →
      (∀ e, selWhole sols missing front = .error e → e ≠ .doubleSelect)
      ∧ (∀ sols' m', selWhole sols missing front = .ok (sols', m') →
          (∀ j, j ∉ front → (flags sols').getD j false = (flags sols).getD j false)
          ∧ (∀ j, (flags sols).getD j false = true →
              (flags sols').getD j false = true)) := by
  intro front
  induction front with
  | nil =>
    intro sols missing _ _
    constructor
    · intro e he
      cases he
    · intro sols' m' h
      cases h
      exact ⟨fun j _ => rfl, fun j hj => hj⟩
  | cons i rest ih =>
    intro sols missing hnd hf
    have hfi : (flags sols).getD i false = false := hf i (by simp)
    have hir : i ∉ rest := (List.nodup_cons.mp hnd).1
    have hndr : rest.Nodup := (List.nodup_cons.mp hnd).2
    cases hsel : selectIdx sols i with
    | error e0 =>
      have hrw : selWhole sols missing (i :: rest) = .error e0 := by
        conv_lhs => unfold selWhole
        rw [hsel]
      constructor
      · intro e he
        rw [hrw] at he
        cases he
        exact selectIdx_ne_double sols i hfi _ hsel
      · intro sols' m' h
        rw [hrw] at h
        cases h
    | ok sols1 =>
      obtain ⟨hfl1, hi⟩ := selectIdx_ok_char sols i sols1 hsel
      have hrw : selWhole sols missing (i :: rest)
          = if missing = 0 then .error .missingAssert
            else selWhole sols1 (missing - 1) rest := by
        conv_lhs => unfold selWhole
        rw [hsel]
      by_cases hm : missing = 0
      · rw [if_pos hm] at hrw
        constructor
        · intro e he
          rw [hrw] at he
          cases he
          decide
        · intro sols' m' h
          rw [hrw] at h
          cases h
      · rw [if_neg hm] at hrw
        have hf1 : ∀ j ∈ rest, (flags sols1).getD j false = false := by
          intro j hj
          rw [hfl1, bool_getD_set_ne _ true (by rintro rfl; exact hir hj)]
          exact hf j (by simp [hj])
        obtain ⟨ihe, iho⟩ := ih sols1 (missing - 1) hndr hf1
        constructor
        · intro e he
          rw [hrw] at he
          exact ihe e he
        · intro sols' m' h
          rw [hrw] at h
          obtain ⟨hpres, hmono⟩ := iho sols' m' h
          constructor
          · intro j hj
            rw [hpres j (fun hjr => hj (by simp [hjr])), hfl1,
              bool_getD_set_ne _ true (by rintro rfl; exact hj (by simp))]
          · intro j hj
            apply hmono
            rw [hfl1]
            exact getD_set_true_mono _ i j hj

theorem selPart_no_double {G F : Type} :
    ∀ (front : List Nat) (sols : List (Ind G F)) (missing : Nat),
      front.Nodup →
      (∀ i ∈ front, (flags sols).getD i false = false) →
      (∀ e, selPart sols missing front = .error e → e ≠ .doubleSelect)
      ∧ (∀ sols' m', selPart sols missing front = .ok (sols', m') →
          (∀ j, j ∉ front → (flags sols').getD j false = (flags sols).getD j false)
          ∧ (∀ j, (flags sols).getD j false = true →
              (flags sols').getD j false = true)) := by
  intro front
  induction front with
  | nil =>
    intro sols missing _ _
    constructor
    · intro e he
      cases he
    · intro sols' m' h
      cases h
      exact ⟨fun j _ => rfl, fun j hj => hj⟩
  | cons i rest ih =>
    intro sols missing hnd hf
    have hfi : (flags sols).getD i false = false := hf i (by simp)
    have hir : i ∉ rest := (List.nodup_cons.mp hnd).1
    have hndr : rest.Nodup := (List.nodup_cons.mp hnd).2
    by_cases hm : missing = 0
    · have hrw : selPart sols missing (i :: rest) = .error .missingAssert := by
        conv_lhs => unfold selPart
        rw [if_pos hm]
      constructor
      · intro e he
        rw [hrw] at he
        cases he
        decide
      · intro sols' m' h
        rw [hrw] at h
        cases h
    · cases hsel : selectIdx sols i with
      | error e0 =>
        have hrw : selPart sols missing (i :: rest) = .error e0 := by
          conv_lhs => unfold selPart
          rw [if_neg hm, hsel]
        constructor
        · intro e he
          rw [hrw] at he
          cases he
          exact selectIdx_ne_double sols i hfi _ hsel
        · intro sols' m' h
          rw [hrw] at h
          cases h
      | ok sols1 =>
        obtain ⟨hfl1, hi⟩ := selectIdx_ok_char sols i sols1 hsel
        have hrw : selPart sols missing (i :: rest)
            = selPart sols1 (missing - 1) rest := by
          conv_lhs => unfold selPart
          rw [if_neg hm, hsel]
        have hf1 : ∀ j ∈ rest, (flags sols1).getD j false = false := by
          intro j hj
          rw [hfl1, bool_getD_set_ne _ true (by rintro rfl; exact hir hj)]
          exact hf j (by simp [hj])
        obtain ⟨ihe, iho⟩ := ih sols1 (missing - 1) hndr hf1
        constructor
        · intro e he
          rw [hrw] at he
          exact ihe e he
        · intro sols' m' h
          rw [hrw] at h
          obtain ⟨hpres, hmono⟩ := iho sols' m' h
          constructor
          · intro j hj
            rw [hpres j (fun hjr => hj (by simp [hjr])), hfl1,
              bool_getD_set_ne _ true (by rintro rfl; exact hj (by simp))]
          · intro j hj
            apply hmono
            rw [hfl1]
            exact getD_set_true_mono _ i j hj

theorem selNSGAFronts_no_double {G F : Type}
    (cda : List (Ind G F) → List Nat → Nat → List (Ind G F))
    (cmp : List (Ind G F) → Nat → Nat → Ordering)
    (hcda : ∀ s f r, flags (cda s f r) = flags s) :
    ∀ (fronts : List (List Nat)) (sols : List (Ind G F)) (missing rank : Nat),
      fronts.flatten.Nodup →
      (∀ i ∈ fronts.flatten, (flags sols).getD i false = false) →
      ∀ e, selNSGAFronts cda cmp sols missing rank fronts = .error e →
        e ≠ .doubleSelect := by
  intro fronts
  induction fronts with
  | nil =>
    intro sols missing rank _ _ e he
    cases he
  | cons front rest ih =>
    intro sols missing rank hnd hf e he
    by_cases hm : missing = 0
    · have hrw : selNSGAFronts cda cmp sols missing rank (front :: rest)
          = .error .missingAssert := by
        conv_lhs => unfold selNSGAFronts
        rw [if_pos hm]
      rw [hrw] at he
      cases he
      decide
    · have hndf : front.Nodup := by
        rw [List.flatten_cons] at hnd
        exact (List.nodup_append.mp hnd).1
      have hndr : rest.flatten.Nodup := by
        rw [List.flatten_cons] at hnd
        exact (List.nodup_append.mp hnd).2.1
      have hdisj : ∀ i ∈ front, i ∉ rest.flatten := by
        rw [List.flatten_cons] at hnd
        intro i hi hir
        exact (List.nodup_append.mp hnd).2.2 hi hir
      have hfl1 : flags (cda sols front rank) = flags sols := hcda sols front rank
      have hff : ∀ i ∈ front, (flags (cda sols front rank)).getD i false = false := by
        intro i hi
        rw [hfl1]
        exact hf i (by rw [List.flatten_cons]; exact List.mem_append_left _ hi)
      by_cases hfit : front.length ≤ missing
      · cases hw : selWhole (cda sols front rank) missing front with
        | error e0 =>
          have hrw : selNSGAFronts cda cmp sols missing rank (front :: rest)
              = .error e0 := by
            conv_lhs => unfold selNSGAFronts
            simp only [hm, if_false, hfit, if_true]
            rw [hw]
          rw [hrw] at he
          cases he
          exact (selWhole_no_double front (cda sols front rank) missing hndf hff).1 _ hw
        | ok p =>
          obtain ⟨sols2, m2⟩ := p
          obtain ⟨hpres, _⟩ :=
            (selWhole_no_double front (cda sols front rank) missing hndf hff).2 sols2 m2 hw
          by_cases hm2 : m2 = 0
          · have hrw : selNSGAFronts cda cmp sols missing rank (front :: rest)
                = .ok sols2 := by
              conv_lhs => unfold selNSGAFronts
              simp only [hm, if_false, hfit, if_true]
              rw [hw]
              simp [hm2]
            rw [hrw] at he
            cases he
          · have hrw : selNSGAFronts cda cmp sols missing rank (front :: rest)
                = selNSGAFronts cda cmp sols2 m2 (rank + 1) rest := by
              conv_lhs => unfold selNSGAFronts
              simp only [hm, if_false, hfit, if_true]
              rw [hw]
              simp only [hm2, if_false]
            rw [hrw] at he
            have hfr : ∀ i ∈ rest.flatten, (flags sols2).getD i false = false := by
              intro i hi
              rw [hpres i (fun hc => hdisj i hc hi), hfl1]
              exact hf i (by rw [List.flatten_cons]; exact List.mem_append_right _ hi)
            exact ih sols2 m2 (rank + 1) hndr hfr e he
      · have hperm : (sortC (fun a b => cmp (cda sols front rank) a b) front).Perm front :=
          sortC_perm _ front
        have htknd : ((sortC (fun a b => cmp (cda sols front rank) a b) front).take
            missing).Nodup :=
          (hperm.nodup_iff.mpr hndf).sublist (List.take_sublist _ _)
        have htkf : ∀ i ∈ (sortC (fun a b => cmp (cda sols front rank) a b) front).take
            missing, (flags (cda sols front rank)).getD i false = false := by
          intro i hi
          exact hff i (hperm.mem_iff.mp (List.mem_of_mem_take hi))
        cases hw : selPart (cda sols front rank) missing
            ((sortC (fun a b => cmp (cda sols front rank) a b) front).take missing) with
        | error e0 =>
          have hrw : selNSGAFronts cda cmp sols missing rank (front :: rest)
              = .error e0 := by
            conv_lhs => unfold selNSGAFronts
            simp only [hm, if_false, hfit, if_false]
            rw [hw]
          rw [hrw] at he
          cases he
          exact (selPart_no_double _ (cda sols front rank) missing htknd htkf).1 _ hw
        | ok p =>
          obtain ⟨sols2, m2⟩ := p
          by_cases hm2 : m2 = 0
          · have hrw : selNSGAFronts cda cmp sols missing rank (front :: rest)
                = .ok sols2 := by
              conv_lhs => unfold selNSGAFronts
              simp only [hm, if_false, hfit, if_false]
              rw [hw]
              simp [hm2]
            rw [hrw] at he
            cases he
          · have hrw : selNSGAFronts cda cmp sols missing rank (front :: rest)
                = .error .missingAssert := by
              conv_lhs => unfold selNSGAFronts
              simp only [hm, if_false, hfit, if_false]
              rw [hw]
              simp [hm2]
            rw [hrw] at he
            cases he
            decide

theorem selectNSGA_no_double {G F : Type} (dom : F → F → Ordering) (dfltF : F)
    (cda : List (Ind G F) → List Nat → Nat → List (Ind G F))
    (cmp : List (Ind G F) → Nat → Nat → Ordering) (objectives : List Nat)
    (sols : List (Ind G F)) (select_n : Nat)
    (hcda : ∀ s f r, flags (cda s f r) = flags s) :
    ∀ e, selectNSGA_select_solutions dom dfltF cda cmp objectives sols select_n
      = .error e → e ≠ .doubleSelect := by
  intro e he
  by_cases hobj : objectives = []
  · have hrw : selectNSGA_select_solutions dom dfltF cda cmp objectives sols select_n
        = .error .objectivesEmpty := by
      unfold selectNSGA_select_solutions
      rw [if_pos hobj]
    rw [hrw] at he
    cases he
    decide
  · have hnd := collectFronts_nodup dom (fitList (unselectAll sols)) dfltF
      (sols.length + 1) [] (sorterNewP dom (fitList (unselectAll sols)) dfltF)
      (sorterNewP_inv dom (fitList (unselectAll sols)) dfltF)
    have hnd1 : ((collectFronts (sols.length + 1)
        (sorterNewP dom (fitList (unselectAll sols)) dfltF)).1).flatten.Nodup := by
      simpa using hnd.1
    have hf1 : ∀ i ∈ ((collectFronts (sols.length + 1)
        (sorterNewP dom (fitList (unselectAll sols)) dfltF)).1).flatten,
        (flags (unselectAll sols)).getD i false = false := by
      intro i _
      rw [flags_unselectAll]
      exact getD_replicate_false _ _
    have he' : selNSGAFronts cda cmp (unselectAll sols) (min sols.length select_n) 0
        (collectFronts (sols.length + 1)
          (sorterNewP dom (fitList (unselectAll sols)) dfltF)).1 = .error e := by
      have hrw : selectNSGA_select_solutions dom dfltF cda cmp objectives sols select_n
          = selNSGAFronts cda cmp (unselectAll sols) (min sols.length select_n) 0
            (collectFronts (sols.length + 1)
              (sorterNewP dom (fitList (unselectAll sols)) dfltF)).1 := by
        unfold selectNSGA_select_solutions
        rw [if_neg hobj]
      rw [← hrw]
      exact he
    exact selNSGAFronts_no_double cda cmp hcda _ (unselectAll sols)
      (min sols.length select_n) 0 hnd1 hf1 e he'

theorem perm_append_swap {β : Type} (X P W : List β) :
    (X ++ (P ++ W)).Perm (P ++ (X ++ W)) := by
  rw [← List.append_assoc, ← List.append_assoc]
  exact List.Perm.append_right W List.perm_append_comm

theorem pick_lt (elite : Bool) (gi : Nat) (rng : List Nat) (grp : List Nat)
    (h : ¬ grp.length = 0) :
    ((if elite = true ∧ gi = 0 then ((0 : Nat), rng)
      else drawRange rng grp.length)).1 < grp.length := by
  by_cases c : elite = true ∧ gi = 0
  · rw [if_pos c]
    omega
  · rw [if_neg c, drawRange_eq]
    exact Nat.mod_lt _ (by omega)

theorem nsgpGroups_inv {G F : Type} (elite : Bool) :
    ∀ (groups : List (List Nat)) (sols : List (Ind G F)) (missing : Nat)
      (rng : List Nat) (gi : Nat) (acc : List (List Nat)),
      ((acc ++ groups).flatten).Nodup →
      (∀ i ∈ (acc ++ groups).flatten, (flags sols).getD i false = false) →
      (∀ e, nsgpGroups elite sols missing rng gi groups acc = .error e →
        e ≠ .doubleSelect)
      ∧ (∀ sols' m' rng' out,
          nsgpGroups elite sols missing rng gi groups acc = .ok (sols', m', rng', out) →
          ∃ picked : List Nat,
            ((picked ++ out.flatten).Perm ((acc ++ groups).flatten))
            ∧ (∀ j, j ∉ (acc ++ groups).flatten →
                (flags sols').getD j false = (flags sols).getD j false)
            ∧ (∀ i ∈ out.flatten, (flags sols').getD i false = false)) := by
  intro groups
  induction groups with
  | nil =>
    intro sols missing rng gi acc hnd hf
    constructor
    · intro e he
      have h' : (Except.ok (sols, missing, rng, acc)
          : Except SelErr (List (Ind G F) × Nat × List Nat × List (List Nat)))
          = .error e := he
      cases h'
    · intro sols' m' rng' out h
      have h' : (Except.ok (sols, missing, rng, acc)
          : Except SelErr (List (Ind G F) × Nat × List Nat × List (List Nat)))
          = .ok (sols', m', rng', out) := h
      cases h'
      exact ⟨[], by simp, fun j _ => rfl, fun i hi => hf i (by simpa using hi)⟩
  | cons grp rest ih =>
    intro sols missing rng gi acc hnd hf
    have hcons : nsgpGroups elite sols missing rng gi (grp :: rest) acc
        = (if missing = 0 then .ok (sols, missing, rng, acc ++ grp :: rest)
           else if grp.length = 0 then .error .emptyGroup
           else
             match selectIdx sols (swapRemove grp
                 ((if elite = true ∧ gi = 0 then ((0 : Nat), rng)
                   else drawRange rng grp.length)).1).1 with
             | .error e => .error e
             | .ok sols1 =>
               nsgpGroups elite sols1 (missing - 1)
                 ((if elite = true ∧ gi = 0 then ((0 : Nat), rng)
                   else drawRange rng grp.length)).2
                 (gi + 1) rest
                 (acc ++ [(swapRemove grp
                   ((if elite = true ∧ gi = 0 then ((0 : Nat), rng)
                     else drawRange rng grp.length)).1).2])) := rfl
    by_cases hm : missing = 0
    · rw [if_pos hm] at hcons
      constructor
      · intro e he
        rw [hcons] at he
        cases he
      · intro sols' m' rng' out h
        rw [hcons] at h
        cases h
        exact ⟨[], by simp, fun j _ => rfl, fun i hi => hf i hi⟩
    · rw [if_neg hm] at hcons
      by_cases hg : grp.length = 0
      · rw [if_pos hg] at hcons
        constructor
        · intro e he
          rw [hcons] at he
          cases he
          decide
        · intro sols' m' rng' out h
          rw [hcons] at h
          cases h
      · rw [if_neg hg] at hcons
        set pr := (if elite = true ∧ gi = 0 then ((0 : Nat), rng)
          else drawRange rng grp.length) with hprdef
        set sw := swapRemove grp pr.1 with hswdef
        have hlt : pr.1 < grp.length := by
          rw [hprdef]
          exact pick_lt elite gi rng grp hg
        have hperm : (sw.1 :: sw.2).Perm grp := by
          rw [hswdef]
          exact swapRemove_perm grp pr.1 hlt
        have hswmem : sw.1 ∈ grp := hperm.mem_iff.mp (by simp)
        have hmemflat : sw.1 ∈ (acc ++ grp :: rest).flatten := by
          rw [List.flatten_append, List.flatten_cons]
          exact List.mem_append_right _ (List.mem_append_left _ hswmem)
        have hfsw : (flags sols).getD sw.1 false = false := hf sw.1 hmemflat
        have heq : (acc ++ grp :: rest).flatten
            = acc.flatten ++ (grp ++ rest.flatten) := by
          rw [List.flatten_append, List.flatten_cons]
        have heq' : ((acc ++ [sw.2]) ++ rest).flatten
            = (acc.flatten ++ sw.2) ++ rest.flatten := by
          rw [List.flatten_append, List.flatten_append, List.flatten_cons,
            List.flatten_nil, List.append_nil]
        have hkey : (sw.1 :: ((acc ++ [sw.2]) ++ rest).flatten).Perm
            ((acc ++ grp :: rest).flatten) := by
          rw [heq, heq', List.append_assoc]
          have h1 : (sw.1 :: (acc.flatten ++ (sw.2 ++ rest.flatten))).Perm
              (acc.flatten ++ (sw.1 :: (sw.2 ++ rest.flatten))) :=
            List.perm_middle.symm
          have h2 : (acc.flatten ++ ((sw.1 :: sw.2) ++ rest.flatten)).Perm
              (acc.flatten ++ (grp ++ rest.flatten)) :=
            List.Perm.append_left _ (List.Perm.append_right _ hperm)
          exact h1.trans h2
        cases hsel : selectIdx sols sw.1 with
        | error e0 =>
          have hrw : nsgpGroups elite sols missing rng gi (grp :: rest) acc
              = .error e0 := by
            rw [hcons, hsel]
          constructor
          · intro e he
            rw [hrw] at he
            cases he
            exact selectIdx_ne_double sols sw.1 hfsw _ hsel
          · intro sols' m' rng' out h
            rw [hrw] at h
            cases h
        | ok sols1 =>
          obtain ⟨hfl1, hi1⟩ := selectIdx_ok_char sols sw.1 sols1 hsel
          have hrw : nsgpGroups elite sols missing rng gi (grp :: rest) acc
              = nsgpGroups elite sols1 (missing - 1) pr.2 (gi + 1) rest
                  (acc ++ [sw.2]) := by
            rw [hcons, hsel]
          have hX : (sw.1 :: ((acc ++ [sw.2]) ++ rest).flatten).Nodup :=
            hkey.nodup_iff.mpr hnd
          have hnd' : (((acc ++ [sw.2]) ++ rest).flatten).Nodup :=
            (List.nodup_cons.mp hX).2
          have hswnot : sw.1 ∉ ((acc ++ [sw.2]) ++ rest).flatten :=
            (List.nodup_cons.mp hX).1
          have hf' : ∀ i ∈ ((acc ++ [sw.2]) ++ rest).flatten,
              (flags sols1).getD i false = false := by
            intro i hi
            rw [hfl1, bool_getD_set_ne _ true (by rintro rfl; exact hswnot hi)]
            exact hf i (hkey.mem_iff.mp (List.mem_cons_of_mem _ hi))
          obtain ⟨ihe, iho⟩ := ih sols1 (missing - 1) pr.2 (gi + 1) (acc ++ [sw.2])
            hnd' hf'
          constructor
          · intro e he
            rw [hrw] at he
            exact ihe e he
          · intro sols' m' rng' out h
            rw [hrw] at h
            obtain ⟨picked', hp1, hp2, hp3⟩ := iho sols' m' rng' out h
            refine ⟨sw.1 :: picked', ?_, ?_, hp3⟩
            · exact (hp1.cons sw.1).trans hkey
            · intro j hj
              have hjn' : j ∉ ((acc ++ [sw.2]) ++ rest).flatten := by
                intro hc
                exact hj (hkey.mem_iff.mp (List.mem_cons_of_mem _ hc))
              rw [hp2 j hjn', hfl1,
                bool_getD_set_ne _ true (by rintro rfl; exact hj hmemflat)]

theorem nsgpGroups_mono {G F : Type} (elite : Bool) :
    ∀ (groups : List (List Nat)) (sols : List (Ind G F)) (missing : Nat)
      (rng : List Nat) (gi : Nat) (acc : List (List Nat))
      (sols' : List (Ind G F)) (m' : Nat) (rng' : List Nat) (out : List (List Nat)),
      nsgpGroups elite sols missing rng gi groups acc = .ok (sols', m', rng', out) →
      ∀ j, (flags sols).getD j false = true → (flags sols').getD j false = true := by
  intro groups
  induction groups with
  | nil =>
    intro sols missing rng gi acc sols' m' rng' out h j hj
    have h' : (Except.ok (sols, missing, rng, acc)
        : Except SelErr (List (Ind G F) × Nat × List Nat × List (List Nat)))
        = .ok (sols', m', rng', out) := h
    cases h'
    exact hj
  | cons grp rest ih =>
    intro sols missing rng gi acc sols' m' rng' out h j hj
    have hcons : nsgpGroups elite sols missing rng gi (grp :: rest) acc
        = (if missing = 0 then .ok (sols, missing, rng, acc ++ grp :: rest)
           else if grp.length = 0 then .error .emptyGroup
           else
             match selectIdx sols (swapRemove grp
                 ((if elite = true ∧ gi = 0 then ((0 : Nat), rng)
                   else drawRange rng grp.length)).1).1 with
             | .error e => .error e
             | .ok sols1 =>
               nsgpGroups elite sols1 (missing - 1)
                 ((if elite = true ∧ gi = 0 then ((0 : Nat), rng)
                   else drawRange rng grp.length)).2
                 (gi + 1) rest
                 (acc ++ [(swapRemove grp
                   ((if elite = true ∧ gi = 0 then ((0 : Nat), rng)
                     else drawRange rng grp.length)).1).2])) := rfl
    by_cases hm : missing = 0
    · rw [if_pos hm] at hcons
      rw [hcons] at h
      cases h
      exact hj
    · rw [if_neg hm] at hcons
      by_cases hg : grp.length = 0
      · rw [if_pos hg] at hcons
        rw [hcons] at h
        cases h
      · rw [if_neg hg] at hcons
        set pr := (if elite = true ∧ gi = 0 then ((0 : Nat), rng)
          else drawRange rng grp.length) with hprdef
        set sw := swapRemove grp pr.1 with hswdef
        cases hsel : selectIdx sols sw.1 with
        | error e0 =>
          rw [hcons, hsel] at h
          cases h
        | ok sols1 =>
          obtain ⟨hfl1, _⟩ := selectIdx_ok_char sols sw.1 sols1 hsel
          rw [hcons, hsel] at h
          apply ih sols1 (missing - 1) pr.2 (gi + 1) (acc ++ [sw.2]) sols' m' rng' out h
          rw [hfl1]
          exact getD_set_true_mono _ sw.1 j hj

theorem nsgpFrontsLoop_inv {G F : Type} (round : Nat) :
    ∀ (fronts : List (List (List Nat))) (sols : List (Ind G F)) (missing : Nat)
      (rng : List Nat) (fi : Nat) (acc : List (List (List Nat))),
      (((acc ++ fronts).flatten).flatten).Nodup →
      (∀ i ∈ ((acc ++ fronts).flatten).flatten, (flags sols).getD i false = false) →
      (∀ e, nsgpFrontsLoop round sols missing rng fi fronts acc = .error e →
        e ≠ .doubleSelect)
      ∧ (∀ sols' m' rng' out,
          nsgpFrontsLoop round sols missing rng fi fronts acc
            = .ok (sols', m', rng', out) →
          ∃ picked : List Nat,
            ((picked ++ (out.flatten).flatten).Perm (((acc ++ fronts).flatten).flatten))
            ∧ (∀ j, j ∉ ((acc ++ fronts).flatten).flatten →
                (flags sols').getD j false = (flags sols).getD j false)
            ∧ (∀ i ∈ (out.flatten).flatten, (flags sols').getD i false = false)) := by
  intro fronts
  induction fronts with
  | nil =>
    intro sols missing rng fi acc hnd hf
    constructor
    · intro e he
      have h' : (Except.ok (sols, missing, rng, acc)
          : Except SelErr (List (Ind G F) × Nat × List Nat × List (List (List Nat))))
          = .error e := he
      cases h'
    · intro sols' m' rng' out h
      have h' : (Except.ok (sols, missing, rng, acc)
          : Except SelErr (List (Ind G F) × Nat × List Nat × List (List (List Nat))))
          = .ok (sols', m', rng', out) := h
      cases h'
      exact ⟨[], by simp, fun j _ => rfl, fun i hi => hf i (by simpa using hi)⟩
  | cons fr rest ih =>
    intro sols missing rng fi acc hnd hf
    have hcons : nsgpFrontsLoop round sols missing rng fi (fr :: rest) acc
        = (match nsgpGroups (decide (round = 0 ∧ fi = 0)) sols missing rng 0 fr [] with
           | .error e => .error e
           | .ok (sols', missing', rng', fr') =>
             nsgpFrontsLoop round sols' missing' rng' (fi + 1) rest
               (acc ++ [fr'.filter fun g => decide (0 < g.length)])) := rfl
    have hEQ : ((acc ++ fr :: rest).flatten).flatten
        = ((acc.flatten).flatten) ++ (fr.flatten ++ ((rest.flatten).flatten)) := by
      simp only [List.flatten_append, List.flatten_cons, List.append_assoc]
    have hndfr : (fr.flatten).Nodup := by
      rw [hEQ] at hnd
      exact (List.nodup_append.mp (List.nodup_append.mp hnd).2.1).1
    have hffr : ∀ i ∈ fr.flatten, (flags sols).getD i false = false := by
      intro i hi
      apply hf
      rw [hEQ]
      exact List.mem_append_right _ (List.mem_append_left _ hi)
    obtain ⟨ge, go⟩ := nsgpGroups_inv (decide (round = 0 ∧ fi = 0)) fr sols missing rng
      0 [] (by simpa using hndfr) (by simpa using hffr)
    cases hgrp : nsgpGroups (decide (round = 0 ∧ fi = 0)) sols missing rng 0 fr [] with
    | error e0 =>
      have hrw : nsgpFrontsLoop round sols missing rng fi (fr :: rest) acc
          = .error e0 := by
        rw [hcons, hgrp]
      constructor
      · intro e he
        rw [hrw] at he
        cases he
        exact ge _ hgrp
      · intro sols' m' rng' out h
        rw [hrw] at h
        cases h
    | ok q =>
      obtain ⟨s1, m1, r1, fr1⟩ := q
      obtain ⟨pg, hg1, hg2, hg3⟩ := go s1 m1 r1 fr1 hgrp
      have hg1' : (pg ++ fr1.flatten).Perm (fr.flatten) := by
        simpa using hg1
      have hg2' : ∀ j, j ∉ fr.flatten →
          (flags s1).getD j false = (flags sols).getD j false := by
        intro j hj
        apply hg2
        simpa using hj
      have hrw : nsgpFrontsLoop round sols missing rng fi (fr :: rest) acc
          = nsgpFrontsLoop round s1 m1 r1 (fi + 1) rest
              (acc ++ [fr1.filter fun g => decide (0 < g.length)]) := by
        rw [hcons, hgrp]
      have hfilter : ((fr1.filter fun g => decide (0 < g.length)).flatten)
          = fr1.flatten := filter_flatten_pos fr1
      have hEQ' : (((acc ++ [fr1.filter fun g => decide (0 < g.length)]) ++ rest).flatten).flatten
          = ((acc.flatten).flatten) ++ (fr1.flatten ++ ((rest.flatten).flatten)) := by
        simp only [List.flatten_append, List.flatten_cons, List.flatten_nil,
          List.append_nil, List.append_assoc]
        rw [hfilter]
      have horig : (((acc ++ fr :: rest).flatten).flatten).Perm
          (pg ++ (((acc ++ [fr1.filter fun g => decide (0 < g.length)]) ++ rest).flatten).flatten) := by
        rw [hEQ, hEQ']
        have h1 : (((acc.flatten).flatten) ++ (fr.flatten ++ ((rest.flatten).flatten))).Perm
            (((acc.flatten).flatten) ++ ((pg ++ fr1.flatten) ++ ((rest.flatten).flatten))) :=
          List.Perm.append_left _ (List.Perm.append_right _ hg1'.symm)
        have h2 : (((acc.flatten).flatten) ++ ((pg ++ fr1.flatten) ++ ((rest.flatten).flatten))).Perm
            (pg ++ (((acc.flatten).flatten) ++ (fr1.flatten ++ ((rest.flatten).flatten)))) := by
          rw [List.append_assoc]
          exact perm_append_swap _ _ _
        exact h1.trans h2
      have hnd' : ((((acc ++ [fr1.filter fun g => decide (0 < g.length)]) ++ rest).flatten).flatten).Nodup := by
        have := (horig.nodup_iff).mp hnd
        exact (List.nodup_append.mp this).2.1
      have hf' : ∀ i ∈ (((acc ++ [fr1.filter fun g => decide (0 < g.length)]) ++ rest).flatten).flatten,
          (flags s1).getD i false = false := by
        intro i hi
        rw [hEQ'] at hi
        rcases List.mem_append.mp hi with hA | hBR
        · have hniA : i ∉ fr.flatten := by
            intro hc
            rw [hEQ] at hnd
            exact (List.nodup_append.mp hnd).2.2 hA
              (List.mem_append_left _ hc)
          rw [hg2' i hniA]
          apply hf
          rw [hEQ]
          exact List.mem_append_left _ hA
        · rcases List.mem_append.mp hBR with h1 | hR
          · exact hg3 i h1
          · have hniR : i ∉ fr.flatten := by
              intro hc
              rw [hEQ] at hnd
              have := (List.nodup_append.mp (List.nodup_append.mp hnd).2.1).2.2
              exact this hc hR
            rw [hg2' i hniR]
            apply hf
            rw [hEQ]
            exact List.mem_append_right _ (List.mem_append_right _ hR)
      obtain ⟨ihe, iho⟩ := ih s1 m1 r1 (fi + 1)
        (acc ++ [fr1.filter fun g => decide (0 < g.length)]) hnd' hf'
      constructor
      · intro e he
        rw [hrw] at he
        exact ihe e he
      · intro sols' m' rng' out h
        rw [hrw] at h
        obtain ⟨pr', hp1, hp2, hp3⟩ := iho sols' m' rng' out h
        refine ⟨pg ++ pr', ?_, ?_, hp3⟩
        · have h1 : ((pg ++ pr') ++ (out.flatten).flatten).Perm
              (pg ++ (pr' ++ (out.flatten).flatten)) := by
            rw [List.append_assoc]
          exact (h1.trans (List.Perm.append_left pg hp1)).trans horig.symm
        · intro j hj
          have hjn' : j ∉ (((acc ++ [fr1.filter fun g => decide (0 < g.length)]) ++ rest).flatten).flatten := by
            intro hc
            exact hj (horig.mem_iff.mpr (List.mem_append_right _ hc))
          rw [hp2 j hjn']
          apply hg2'
          intro hc
          apply hj
          rw [hEQ]
          exact List.mem_append_right _ (List.mem_append_left _ hc)

theorem nsgpFrontsLoop_mono {G F : Type} (round : Nat) :
    ∀ (fronts : List (List (List Nat))) (sols : List (Ind G F)) (missing : Nat)
      (rng : List Nat) (fi : Nat) (acc : List (List (List Nat)))
      (sols' : List (Ind G F)) (m' : Nat) (rng' : List Nat)
      (out : List (List (List Nat))),
      nsgpFrontsLoop round sols missing rng fi fronts acc = .ok (sols', m', rng', out) →
      ∀ j, (flags sols).getD j false = true → (flags sols').getD j false = true := by
  intro fronts
  induction fronts with
  | nil =>
    intro sols missing rng fi acc sols' m' rng' out h j hj
    have h' : (Except.ok (sols, missing, rng, acc)
        : Except SelErr (List (Ind G F) × Nat × List Nat × List (List (List Nat))))
        = .ok (sols', m', rng', out) := h
    cases h'
    exact hj
  | cons fr rest ih =>
    intro sols missing rng fi acc sols' m' rng' out h j hj
    have hcons : nsgpFrontsLoop round sols missing rng fi (fr :: rest) acc
        = (match nsgpGroups (decide (round = 0 ∧ fi = 0)) sols missing rng 0 fr [] with
           | .error e => .error e
           | .ok (sols', missing', rng', fr') =>
             nsgpFrontsLoop round sols' missing' rng' (fi + 1) rest
               (acc ++ [fr'.filter fun g => decide (0 < g.length)])) := rfl
    cases hgrp : nsgpGroups (decide (round = 0 ∧ fi = 0)) sols missing rng 0 fr [] with
    | error e0 =>
      rw [hcons, hgrp] at h
      cases h
    | ok q =>
      obtain ⟨s1, m1, r1, fr1⟩ := q
      rw [hcons, hgrp] at h
      exact ih s1 m1 r1 (fi + 1) _ sols' m' rng' out h j
        (nsgpGroups_mono (decide (round = 0 ∧ fi = 0)) fr sols missing rng 0 []
          s1 m1 r1 fr1 hgrp j hj)

theorem nsgpRounds_no_double {G F : Type} :
    ∀ (fuel : Nat) (sols : List (Ind G F)) (missing : Nat) (rng : List Nat)
      (fg : List (List (List Nat))) (round : Nat),
      ((fg.flatten).flatten).Nodup →
      (∀ i ∈ (fg.flatten).flatten, (flags sols).getD i false = false) →
      ∀ e, nsgpRounds fuel sols missing rng fg round = .error e →
        e ≠ .doubleSelect := by
  intro fuel
  induction fuel with
  | zero =>
    intro sols missing rng fg round _ _ e he
    have hval : nsgpRounds 0 sols missing rng fg round
        = if missing = 0 then .ok sols else .error .fuel := rfl
    rw [hval] at he
    by_cases hm : missing = 0
    · rw [if_pos hm] at he
      cases he
    · rw [if_neg hm] at he
      cases he
      decide
  | succ fuel ih =>
    intro sols missing rng fg round hnd hf e he
    have hval : nsgpRounds (fuel + 1) sols missing rng fg round
        = if missing = 0 then .ok sols
          else
            match nsgpFrontsLoop round sols missing rng 0 fg [] with
            | .error e => .error e
            | .ok (sols', missing', rng', fg') =>
              nsgpRounds fuel sols' missing' rng' fg' (round + 1) := rfl
    by_cases hm : missing = 0
    · rw [hval, if_pos hm] at he
      cases he
    · obtain ⟨ge, go⟩ := nsgpFrontsLoop_inv round fg sols missing rng 0 []
        (by simpa using hnd) (by simpa using hf)
      cases hfl : nsgpFrontsLoop round sols missing rng 0 fg [] with
      | error e0 =>
        rw [hval, if_neg hm, hfl] at he
        cases he
        exact ge _ hfl
      | ok q =>
        obtain ⟨s1, m1, r1, fg1⟩ := q
        rw [hval, if_neg hm, hfl] at he
        obtain ⟨picked, hp1, _, hp3⟩ := go s1 m1 r1 fg1 hfl
        have hp1' : (picked ++ (fg1.flatten).flatten).Perm ((fg.flatten).flatten) := by
          simpa using hp1
        have hnd1 : ((fg1.flatten).flatten).Nodup := by
          have := hp1'.nodup_iff.mpr hnd
          exact (List.nodup_append.mp this).2.1
        exact ih s1 m1 r1 fg1 (round + 1) hnd1 hp3 e he

theorem nsgpRounds_mono {G F : Type} :
    ∀ (fuel : Nat) (sols : List (Ind G F)) (missing : Nat) (rng : List Nat)
      (fg : List (List (List Nat))) (round : Nat) (out : List (Ind G F)),
      nsgpRounds fuel sols missing rng fg round = .ok out →
      ∀ j, (flags sols).getD j false = true → (flags out).getD j false = true := by
  intro fuel
  induction fuel with
  | zero =>
    intro sols missing rng fg round out h j hj
    have hval : nsgpRounds 0 sols missing rng fg round
        = if missing = 0 then .ok sols else .error .fuel := rfl
    rw [hval] at h
    by_cases hm : missing = 0
    · rw [if_pos hm] at h
      cases h
      exact hj
    · rw [if_neg hm] at h
      cases h
  | succ fuel ih =>
    intro sols missing rng fg round out h j hj
    have hval : nsgpRounds (fuel + 1) sols missing rng fg round
        = if missing = 0 then .ok sols
          else
            match nsgpFrontsLoop round sols missing rng 0 fg [] with
            | .error e => .error e
            | .ok (sols', missing', rng', fg') =>
              nsgpRounds fuel sols' missing' rng' fg' (round + 1) := rfl
    by_cases hm : missing = 0
    · rw [hval, if_pos hm] at h
      cases h
      exact hj
    · cases hfl : nsgpFrontsLoop round sols missing rng 0 fg [] with
      | error e0 =>
        rw [hval, if_neg hm, hfl] at h
        cases h
      | ok q =>
        obtain ⟨s1, m1, r1, fg1⟩ := q
        rw [hval, if_neg hm, hfl] at h
        exact ih s1 m1 r1 fg1 (round + 1) out h j
          (nsgpFrontsLoop_mono round fg sols missing rng 0 [] s1 m1 r1 fg1 hfl j hj)

theorem nsgpFront_char1 {G F : Type}
    (cda : List (Ind G F) → List Nat → Nat → List (Ind G F))
    (similar : F → F → Bool) (cmpO : F → F → Ordering) (dfltI : Ind G F)
    (hcda : ∀ s f r, flags (cda s f r) = flags s)
    (sols : List (Ind G F)) (front : List Nat) (rank : Nat) :
    flags (nsgpFront cda similar cmpO dfltI sols front rank).1 = flags sols
    ∧ (((nsgpFront cda similar cmpO dfltI sols front rank).2).flatten).Perm front := by
  obtain ⟨h1, h2, h3⟩ := nsgpGroupStep_foldl cmpO dfltI
    (buildGroups similar (fitAt dfltI (cda sols front rank)) front)
    (cda sols front rank) []
  constructor
  · exact h1.trans (hcda sols front rank)
  · have h3' : (((buildGroups similar (fitAt dfltI (cda sols front rank)) front).foldl
        (nsgpGroupStep cmpO dfltI) (cda sols front rank, ([] : List (List Nat)))).2).flatten.Perm
        ((buildGroups similar (fitAt dfltI (cda sols front rank)) front).flatten) := by
      simpa using h3
    have hs : (((nsgpFront cda similar cmpO dfltI sols front rank).2).flatten).Perm
        ((((buildGroups similar (fitAt dfltI (cda sols front rank)) front).foldl
          (nsgpGroupStep cmpO dfltI) (cda sols front rank, ([] : List (List Nat)))).2).flatten) :=
      (sortC_perm _ _).flatten
    exact (hs.trans h3').trans
      (buildGroups_flatten_perm similar (fitAt dfltI (cda sols front rank)) front)

theorem nsgpBuild_char {G F : Type}
    (cda : List (Ind G F) → List Nat → Nat → List (Ind G F))
    (similar : F → F → Bool) (cmpO : F → F → Ordering) (dfltI : Ind G F)
    (hcda : ∀ s f r, flags (cda s f r) = flags s) :
    ∀ (fronts : List (List Nat)) (s : List (Ind G F))
      (gs : List (List (List Nat))) (r : Nat),
      flags ((fronts.foldl (nsgpFrontStep cda similar cmpO dfltI) ((s, gs), r)).1.1)
        = flags s
      ∧ (((((fronts.foldl (nsgpFrontStep cda similar cmpO dfltI) ((s, gs), r)).1.2).flatten).flatten).Perm
          (((gs.flatten).flatten) ++ fronts.flatten)) := by
  intro fronts
  induction fronts with
  | nil =>
    intro s gs r
    exact ⟨rfl, by simp⟩
  | cons front rest ih =>
    intro s gs r
    rw [List.foldl_cons]
    have hstep : nsgpFrontStep cda similar cmpO dfltI ((s, gs), r) front
        = (((nsgpFront cda similar cmpO dfltI s front r).1,
            gs ++ [(nsgpFront cda similar cmpO dfltI s front r).2]), r + 1) := rfl
    rw [hstep]
    obtain ⟨hfl, hperm⟩ := nsgpFront_char1 cda similar cmpO dfltI hcda s front r
    obtain ⟨ih1, ih2⟩ := ih (nsgpFront cda similar cmpO dfltI s front r).1
      (gs ++ [(nsgpFront cda similar cmpO dfltI s front r).2]) (r + 1)
    constructor
    · rw [ih1, hfl]
    · refine ih2.trans ?_
      have hEQ : (((gs ++ [(nsgpFront cda similar cmpO dfltI s front r).2]).flatten).flatten)
          = ((gs.flatten).flatten)
            ++ ((nsgpFront cda similar cmpO dfltI s front r).2).flatten := by
        simp only [List.flatten_append, List.flatten_cons, List.flatten_nil,
          List.append_nil]
      rw [hEQ, List.flatten_cons, List.append_assoc]
      exact List.Perm.append_left _ (List.Perm.append_right _ hperm)

theorem selectNSGP_no_double {G F : Type} (dom : F → F → Ordering) (dfltF : F)
    (dfltI : Ind G F)
    (cda : List (Ind G F) → List Nat → Nat → List (Ind G F))
    (similar : F → F → Bool) (cmpO : F → F → Ordering) (objectives : List Nat)
    (rng : List Nat) (fuel : Nat) (sols : List (Ind G F)) (select_n : Nat)
    (hcda : ∀ s f r, flags (cda s f r) = flags s) :
    ∀ e, selectNSGP_select_solutions dom dfltF dfltI cda similar cmpO objectives
      rng fuel sols select_n = .error e → e ≠ .doubleSelect := by
  intro e he
  by_cases hobj : objectives = []
  · have hrw : selectNSGP_select_solutions dom dfltF dfltI cda similar cmpO objectives
        rng fuel sols select_n = .error .objectivesEmpty := by
      unfold selectNSGP_select_solutions
      rw [if_pos hobj]
    rw [hrw] at he
    cases he
    decide
  · obtain ⟨hbf, hbp⟩ := nsgpBuild_char cda similar cmpO dfltI hcda
      ((collectFronts (sols.length + 1)
        (sorterNewP dom (fitList (unselectAll sols)) dfltF)).1)
      (unselectAll sols) [] 0
    have hnd0 := collectFronts_nodup dom (fitList (unselectAll sols)) dfltF
      (sols.length + 1) [] (sorterNewP dom (fitList (unselectAll sols)) dfltF)
      (sorterNewP_inv dom (fitList (unselectAll sols)) dfltF)
    have hndf : (((collectFronts (sols.length + 1)
        (sorterNewP dom (fitList (unselectAll sols)) dfltF)).1).flatten).Nodup := by
      simpa using hnd0.1
    have hbp' : (((((((collectFronts (sols.length + 1)
        (sorterNewP dom (fitList (unselectAll sols)) dfltF)).1).foldl
        (nsgpFrontStep cda similar cmpO dfltI)
        ((unselectAll sols, []), 0)).1.2).flatten).flatten).Perm
          (((collectFronts (sols.length + 1)
            (sorterNewP dom (fitList (unselectAll sols)) dfltF)).1).flatten)) := by
      simpa using hbp
    have hnd1 : ((((((collectFronts (sols.length + 1)
        (sorterNewP dom (fitList (unselectAll sols)) dfltF)).1).foldl
        (nsgpFrontStep cda similar cmpO dfltI)
        ((unselectAll sols, []), 0)).1.2).flatten).flatten).Nodup :=
      hbp'.nodup_iff.mpr hndf
    have hf1 : ∀ i ∈ ((((((collectFronts (sols.length + 1)
        (sorterNewP dom (fitList (unselectAll sols)) dfltF)).1).foldl
        (nsgpFrontStep cda similar cmpO dfltI)
        ((unselectAll sols, []), 0)).1.2).flatten).flatten),
        (flags ((((collectFronts (sols.length + 1)
          (sorterNewP dom (fitList (unselectAll sols)) dfltF)).1).foldl
          (nsgpFrontStep cda similar cmpO dfltI)
          ((unselectAll sols, []), 0)).1.1)).getD i false = false := by
      intro i _
      rw [hbf, flags_unselectAll]
      exact getD_replicate_false _ _
    have he' : nsgpRounds fuel ((((collectFronts (sols.length + 1)
        (sorterNewP dom (fitList (unselectAll sols)) dfltF)).1).foldl
        (nsgpFrontStep cda similar cmpO dfltI)
        ((unselectAll sols, []), 0)).1.1) (min sols.length select_n) rng
        ((((collectFronts (sols.length + 1)
          (sorterNewP dom (fitList (unselectAll sols)) dfltF)).1).foldl
          (nsgpFrontStep cda similar cmpO dfltI)
          ((unselectAll sols, []), 0)).1.2) 0 = .error e := by
      have hrw : selectNSGP_select_solutions dom dfltF dfltI cda similar cmpO
          objectives rng fuel sols select_n
          = nsgpRounds fuel ((((collectFronts (sols.length + 1)
              (sorterNewP dom (fitList (unselectAll sols)) dfltF)).1).foldl
              (nsgpFrontStep cda similar cmpO dfltI)
              ((unselectAll sols, []), 0)).1.1) (min sols.length select_n) rng
              ((((collectFronts (sols.length + 1)
                (sorterNewP dom (fitList (unselectAll sols)) dfltF)).1).foldl
                (nsgpFrontStep cda similar cmpO dfltI)
                ((unselectAll sols, []), 0)).1.2) 0 := by
        unfold selectNSGP_select_solutions
        rw [if_neg hobj]
      rw [← hrw]
      exact he
    exact nsgpRounds_no_double fuel _ (min sols.length select_n) rng _ 0
      hnd1 hf1 e he'

/-- C10: during one run of `select_solutions` — for either policy, `SelectNSGA`
or `SelectNSGP` — no individual is selected twice: all `selected` flags are
cleared at the start, each index sits in exactly one front (resp. one
similarity group, from which `swap_remove` deletes it when picked), and neither
policy invokes `select` on an index already marked, so the
`assert!(self.selected == false)` of `Individual::select` never fires (the
embedding never returns the `doubleSelect` error), for every population, target
size, random stream and fuel, provided the crowding-distance assignment leaves
the `selected` flags unchanged. -/
theorem C10_no_double_select :
    (∀ (G F : Type) (dom : F → F → Ordering) (dfltF : F)
      (cda : List (Ind G F) → List Nat → Nat → List (Ind G F))
      (cmp : List (Ind G F) → Nat → Nat → Ordering) (objectives : List Nat)
      (sols : List (Ind G F)) (select_n : Nat),
      (∀ s f r, flags (cda s f r) = flags s) →
      ∀ e, selectNSGA_select_solutions dom dfltF cda cmp objectives sols select_n
        = .error e → e ≠ .doubleSelect)
    ∧ (∀ (G F : Type) (dom : F → F → Ordering) (dfltF : F) (dfltI : Ind G F)
      (cda : List (Ind G F) → List Nat → Nat → List (Ind G F))
      (similar : F → F → Bool) (cmpO : F → F → Ordering) (objectives : List Nat)
      (rng : List Nat) (fuel : Nat) (sols : List (Ind G F)) (select_n : Nat),
      (∀ s f r, flags (cda s f r) = flags s) →
      ∀ e, selectNSGP_select_solutions dom dfltF dfltI cda similar cmpO objectives
        rng fuel sols select_n = .error e → e ≠ .doubleSelect) :=
  ⟨fun _ _ dom dfltF cda cmp objectives sols select_n hcda =>
    selectNSGA_no_double dom dfltF cda cmp objectives sols select_n hcda,
   fun _ _ dom dfltF dfltI cda similar cmpO objectives rng fuel sols select_n hcda =>
    selectNSGP_no_double dom dfltF dfltI cda similar cmpO objectives rng fuel sols
      select_n hcda⟩

/-- Witness for C10: concrete runs of both policies (NSGA with `select_n = 0`,
which dies on the `assert!(missing > 0)`; NSGP with zero fuel) return errors
distinct from `doubleSelect`. -/
theorem C10_no_double_select_witness :
    SelErr.missingAssert ≠ SelErr.doubleSelect ∧ SelErr.fuel ≠ SelErr.doubleSelect :=
  ⟨C10_no_double_select.1 Unit (Nat × Nat) tupleDomOrd (0, 0)
      (fun s _ _ => s) (fun _ _ _ => Ordering.eq) [0]
      [⟨(), (1, 2), 0, .fin 0, 1, false⟩] 0 (fun _ _ _ => rfl)
      SelErr.missingAssert (by with_unfolding_all rfl),
   C10_no_double_select.2 Unit (Nat × Nat) tupleDomOrd (0, 0)
      ⟨(), (0, 0), 0, .fin 0, 1, false⟩ (fun s _ _ => s) (fun _ _ => true)
      (fun _ _ => Ordering.eq) [0] [] 0
      [⟨(), (1, 2), 0, .fin 0, 1, false⟩] 1 (fun _ _ _ => rfl)
      SelErr.fuel (by with_unfolding_all rfl)⟩

/-! ### NSGP elitism: the objective-0 best of front 0 is picked first -/

theorem headD_mem {β : Type} (l : List β) (d : β) (h : l ≠ []) : l.headD d ∈ l := by
  cases l with
  | nil => exact absurd rfl h
  | cons a t => simp

theorem sortC_ne_nil {β : Type} (c : β → β → Ordering) (l : List β) (h : l ≠ []) :
    sortC c l ≠ [] := by
  intro hc
  have hp := sortC_perm c l
  rw [hc] at hp
  exact h hp.nil_eq.symm

/-- The head of the stable insertion sort is minimal: no element of the list is
strictly better than it, for any comparator that is asymmetric and whose
`not-worse-than` relation is transitive on the list's members. -/
theorem sortC_head_min {β : Type} (c : β → β → Ordering) (P : β → Prop)
    (hasym : ∀ a b, P a → P b → (c a b = .lt ↔ c b a = .gt))
    (htr : ∀ a b d, P a → P b → P d → c a b ≠ .gt → c b d ≠ .gt → c a d ≠ .gt) :
    ∀ (l : List β), (∀ x ∈ l, P x) → ∀ (d : β), ∀ x ∈ l,
      c ((sortC c l).headD d) x ≠ .gt := by
  intro l
  induction l with
  | nil =>
    intro _ d x hx
    cases hx
  | cons a t ih =>
    intro hP d x hx
    have hPa : P a := hP a (by simp)
    have hself : c a a ≠ .gt := by
      intro hgt
      have hlt := (hasym a a hPa hPa).mpr hgt
      rw [hlt] at hgt
      cases hgt
    have hsort : sortC c (a :: t) = insertC c a (sortC c t) := rfl
    cases ht : sortC c t with
    | nil =>
      have htnil : t = [] := by
        have hp := sortC_perm c t
        rw [ht] at hp
        exact hp.nil_eq.symm
      subst htnil
      rcases List.mem_cons.mp hx with rfl | hxt
      · rw [hsort, ht]
        exact hself
      · cases hxt
    | cons b s =>
      have hbmem : b ∈ t := by
        have hp := sortC_perm c t
        rw [ht] at hp
        exact hp.mem_iff.mp (by simp)
      have hPb : P b := hP b (by simp [hbmem])
      have hbmin : ∀ y ∈ t, c b y ≠ .gt := by
        intro y hy
        have := ih (fun z hz => hP z (by simp [hz])) d y hy
        rw [ht] at this
        exact this
      have hins0 : insertC c a (b :: s)
          = if c b a = .lt then b :: insertC c a s else a :: b :: s := rfl
      by_cases hba : c b a = .lt
      · have hins : insertC c a (b :: s) = b :: insertC c a s := by
          rw [hins0, if_pos hba]
        rw [hsort, ht, hins]
        simp only [List.headD_cons]
        rcases List.mem_cons.mp hx with rfl | hxt
        · intro h
          rw [hba] at h
          cases h
        · exact hbmin x hxt
      · have hins : insertC c a (b :: s) = a :: b :: s := by
          rw [hins0, if_neg hba]
        rw [hsort, ht, hins]
        simp only [List.headD_cons]
        have hab : c a b ≠ .gt := fun h => hba ((hasym b a hPb hPa).mpr h)
        rcases List.mem_cons.mp hx with rfl | hxt
        · exact hself
        · exact htr a b x hPa hPb (hP x (by simp [hxt])) hab (hbmin x hxt)

theorem nsgpGroupStep_foldl_fit {G F : Type} (cmpO : F → F → Ordering)
    (dfltI : Ind G F) (base : List (Ind G F)) :
    ∀ (groups : List (List Nat)) (s : List (Ind G F)) (acc : List (List Nat)),
      fitList s = fitList base →
      (groups.foldl (nsgpGroupStep cmpO dfltI) (s, acc)).2
        = acc ++ groups.map (sortC (fun a b =>
            cmpO (fitAt dfltI base a) (fitAt dfltI base b)))
      ∧ fitList (groups.foldl (nsgpGroupStep cmpO dfltI) (s, acc)).1
        = fitList base := by
  intro groups
  induction groups with
  | nil =>
    intro s acc h
    exact ⟨by simp, h⟩
  | cons grp rest ih =>
    intro s acc h
    rw [List.foldl_cons]
    have hstep : nsgpGroupStep cmpO dfltI (s, acc) grp
        = (setStats s grp (groupAvg dfltI s grp),
           acc ++ [sortC (fun a b =>
             cmpO (fitAt dfltI (setStats s grp (groupAvg dfltI s grp)) a)
                  (fitAt dfltI (setStats s grp (groupAvg dfltI s grp)) b)) grp]) := rfl
    rw [hstep]
    have hfit1 : fitList (setStats s grp (groupAvg dfltI s grp)) = fitList base := by
      rw [fitList_setStats]
      exact h
    have hcomp : (fun a b =>
        cmpO (fitAt dfltI (setStats s grp (groupAvg dfltI s grp)) a)
             (fitAt dfltI (setStats s grp (groupAvg dfltI s grp)) b))
        = (fun a b => cmpO (fitAt dfltI base a) (fitAt dfltI base b)) := by
      funext a b
      rw [fitAt_congr dfltI hfit1 a, fitAt_congr dfltI hfit1 b]
    obtain ⟨ih1, ih2⟩ := ih (setStats s grp (groupAvg dfltI s grp))
      (acc ++ [sortC (fun a b =>
        cmpO (fitAt dfltI (setStats s grp (groupAvg dfltI s grp)) a)
             (fitAt dfltI (setStats s grp (groupAvg dfltI s grp)) b)) grp]) hfit1
    constructor
    · rw [ih1, hcomp, List.map_cons, List.append_assoc]
      rfl
    · exact ih2

theorem nsgpFront_groups {G F : Type}
    (cda : List (Ind G F) → List Nat → Nat → List (Ind G F))
    (similar : F → F → Bool) (cmpO : F → F → Ordering) (dfltI : Ind G F)
    (hcdaFit : ∀ s f r, fitList (cda s f r) = fitList s)
    (sols : List (Ind G F)) (front : List Nat) (rank : Nat) :
    (nsgpFront cda similar cmpO dfltI sols front rank).2
      = sortC (fun g h =>
          cmpO (fitAt dfltI sols (g.headD 0)) (fitAt dfltI sols (h.headD 0)))
          ((buildGroups similar (fitAt dfltI sols) front).map
            (sortC (fun a b => cmpO (fitAt dfltI sols a) (fitAt dfltI sols b)))) := by
  have hfitc : fitList (cda sols front rank) = fitList sols := hcdaFit sols front rank
  have hfitsE : fitAt dfltI (cda sols front rank) = fitAt dfltI sols := by
    funext i
    exact fitAt_congr dfltI hfitc i
  obtain ⟨h1, h2⟩ := nsgpGroupStep_foldl_fit cmpO dfltI sols
    (buildGroups similar (fitAt dfltI (cda sols front rank)) front)
    (cda sols front rank) [] hfitc
  have hcompH : (fun (g h : List Nat) =>
      cmpO (fitAt dfltI (((buildGroups similar (fitAt dfltI (cda sols front rank)) front).foldl
          (nsgpGroupStep cmpO dfltI) (cda sols front rank, ([] : List (List Nat)))).1)
        (g.headD 0))
        (fitAt dfltI (((buildGroups similar (fitAt dfltI (cda sols front rank)) front).foldl
          (nsgpGroupStep cmpO dfltI) (cda sols front rank, ([] : List (List Nat)))).1)
        (h.headD 0)))
      = (fun (g h : List Nat) =>
          cmpO (fitAt dfltI sols (g.headD 0)) (fitAt dfltI sols (h.headD 0))) := by
    funext g h
    rw [fitAt_congr dfltI h2 (g.headD 0), fitAt_congr dfltI h2 (h.headD 0)]
  have hmain : (nsgpFront cda similar cmpO dfltI sols front rank).2
      = sortC (fun g h =>
          cmpO (fitAt dfltI sols (g.headD 0)) (fitAt dfltI sols (h.headD 0)))
          (((buildGroups similar (fitAt dfltI (cda sols front rank)) front).foldl
            (nsgpGroupStep cmpO dfltI) (cda sols front rank, ([] : List (List Nat)))).2) := by
    show sortC _ _ = _
    rw [hcompH]
  rw [hmain, h1, List.nil_append, hfitsE]

theorem buildGroups_ne_nil' {F : Type} (similar : F → F → Bool) (fits : Nat → F)
    (front : List Nat) : ∀ g ∈ buildGroups similar fits front, g ≠ [] :=
  buildGroups_ne_nil similar fits front [] (fun g hg => absurd hg (by simp))

theorem nsgpBuild_prefix {G F : Type}
    (cda : List (Ind G F) → List Nat → Nat → List (Ind G F))
    (similar : F → F → Bool) (cmpO : F → F → Ordering) (dfltI : Ind G F) :
    ∀ (fronts : List (List Nat)) (s : List (Ind G F))
      (gs : List (List (List Nat))) (r : Nat),
      ∃ tail, (fronts.foldl (nsgpFrontStep cda similar cmpO dfltI) ((s, gs), r)).1.2
        = gs ++ tail := by
  intro fronts
  induction fronts with
  | nil =>
    intro s gs r
    exact ⟨[], by simp⟩
  | cons front rest ih =>
    intro s gs r
    rw [List.foldl_cons]
    have hstep : nsgpFrontStep cda similar cmpO dfltI ((s, gs), r) front
        = (((nsgpFront cda similar cmpO dfltI s front r).1,
            gs ++ [(nsgpFront cda similar cmpO dfltI s front r).2]), r + 1) := rfl
    rw [hstep]
    obtain ⟨tail, htail⟩ := ih (nsgpFront cda similar cmpO dfltI s front r).1
      (gs ++ [(nsgpFront cda similar cmpO dfltI s front r).2]) (r + 1)
    exact ⟨(nsgpFront cda similar cmpO dfltI s front r).2 :: tail,
      by rw [htail, List.append_assoc]; rfl⟩

/-- The grouped-and-sorted shape of one front as built by
`SelectNSGP::select_solutions` before the selection rounds: groups sorted by
`cmp_objective` under `objectives[0]` internally and by their best member
externally. -/
def eliteGroups {G F : Type} (similar : F → F → Bool) (cmpO : F → F → Ordering)
    (dfltI : Ind G F) (base : List (Ind G F)) (f0 : List Nat) : List (List Nat) :=
  sortC (fun g h =>
      cmpO (fitAt dfltI base (g.headD 0)) (fitAt dfltI base (h.headD 0)))
    ((buildGroups similar (fitAt dfltI base) f0).map
      (sortC (fun a b => cmpO (fitAt dfltI base a) (fitAt dfltI base b))))

theorem nsgpFront_groups' {G F : Type}
    (cda : List (Ind G F) → List Nat → Nat → List (Ind G F))
    (similar : F → F → Bool) (cmpO : F → F → Ordering) (dfltI : Ind G F)
    (hcdaFit : ∀ s f r, fitList (cda s f r) = fitList s)
    (sols : List (Ind G F)) (front : List Nat) (rank : Nat) :
    (nsgpFront cda similar cmpO dfltI sols front rank).2
      = eliteGroups similar cmpO dfltI sols front :=
  nsgpFront_groups cda similar cmpO dfltI hcdaFit sols front rank

theorem eliteGroups_member_ne_nil {G F : Type} (similar : F → F → Bool)
    (cmpO : F → F → Ordering) (dfltI : Ind G F) (base : List (Ind G F))
    (f0 : List Nat) :
    ∀ g ∈ eliteGroups similar cmpO dfltI base f0, g ≠ [] := by
  intro g hg
  have hgM : g ∈ (buildGroups similar (fitAt dfltI base) f0).map
      (sortC (fun a b => cmpO (fitAt dfltI base a) (fitAt dfltI base b))) :=
    (sortC_perm _ _).mem_iff.mp hg
  obtain ⟨g', hg'B, hg'eq⟩ := List.mem_map.mp hgM
  rw [← hg'eq]
  exact sortC_ne_nil _ _ (buildGroups_ne_nil' similar (fitAt dfltI base) f0 g' hg'B)

theorem elite_min {G F : Type} (similar : F → F → Bool) (cmpO : F → F → Ordering)
    (dfltI : Ind G F) (base : List (Ind G F)) (f0 : List Nat)
    (hne : f0 ≠ [])
    (hmem : ∀ j ∈ f0, j < base.length)
    (hOasym : ∀ a, a < base.length → ∀ b, b < base.length →
      (cmpO (fitAt dfltI base a) (fitAt dfltI base b) = .lt
        ↔ cmpO (fitAt dfltI base b) (fitAt dfltI base a) = .gt))
    (hOtr : ∀ a, a < base.length → ∀ b, b < base.length → ∀ k, k < base.length →
      cmpO (fitAt dfltI base a) (fitAt dfltI base b) ≠ .gt →
      cmpO (fitAt dfltI base b) (fitAt dfltI base k) ≠ .gt →
      cmpO (fitAt dfltI base a) (fitAt dfltI base k) ≠ .gt) :
    ((((eliteGroups similar cmpO dfltI base f0).headD []).headD 0) ∈ f0)
    ∧ ∀ j ∈ f0,
        cmpO (fitAt dfltI base (((eliteGroups similar cmpO dfltI base f0).headD []).headD 0))
          (fitAt dfltI base j) ≠ .gt := by
  have hBflat : ((buildGroups similar (fitAt dfltI base) f0).flatten).Perm f0 :=
    buildGroups_flatten_perm similar (fitAt dfltI base) f0
  have hBne : buildGroups similar (fitAt dfltI base) f0 ≠ [] := by
    intro h
    rw [h] at hBflat
    exact hne hBflat.nil_eq.symm
  have hMne : (buildGroups similar (fitAt dfltI base) f0).map
      (sortC (fun a b => cmpO (fitAt dfltI base a) (fitAt dfltI base b))) ≠ [] := by
    intro h
    exact hBne (List.map_eq_nil_iff.mp h)
  have hGSne : eliteGroups similar cmpO dfltI base f0 ≠ [] :=
    sortC_ne_nil _ _ hMne
  have hg0 : (eliteGroups similar cmpO dfltI base f0).headD []
      ∈ eliteGroups similar cmpO dfltI base f0 := headD_mem _ _ hGSne
  have hg0ne : (eliteGroups similar cmpO dfltI base f0).headD [] ≠ [] :=
    eliteGroups_member_ne_nil similar cmpO dfltI base f0 _ hg0
  have hg0M : (eliteGroups similar cmpO dfltI base f0).headD []
      ∈ (buildGroups similar (fitAt dfltI base) f0).map
        (sortC (fun a b => cmpO (fitAt dfltI base a) (fitAt dfltI base b))) :=
    (sortC_perm _ _).mem_iff.mp hg0
  obtain ⟨g, hgB, hgeq⟩ := List.mem_map.mp hg0M
  have heg0 : ((eliteGroups similar cmpO dfltI base f0).headD []).headD 0
      ∈ (eliteGroups similar cmpO dfltI base f0).headD [] :=
    headD_mem _ _ hg0ne
  have heg : ((eliteGroups similar cmpO dfltI base f0).headD []).headD 0 ∈ g := by
    have h1 : ((eliteGroups similar cmpO dfltI base f0).headD []).headD 0
        ∈ sortC (fun a b => cmpO (fitAt dfltI base a) (fitAt dfltI base b)) g := by
      rw [hgeq]
      exact heg0
    exact (sortC_perm _ _).mem_iff.mp h1
  have hef0 : ((eliteGroups similar cmpO dfltI base f0).headD []).headD 0 ∈ f0 :=
    hBflat.mem_iff.mp (List.mem_flatten.mpr ⟨g, hgB, heg⟩)
  have hPM : ∀ grp ∈ (buildGroups similar (fitAt dfltI base) f0).map
      (sortC (fun a b => cmpO (fitAt dfltI base a) (fitAt dfltI base b))),
      grp.headD 0 ∈ f0 := by
    intro grp hgrp
    obtain ⟨g', hg'B, hg'eq⟩ := List.mem_map.mp hgrp
    have hg'ne : g' ≠ [] := buildGroups_ne_nil' similar (fitAt dfltI base) f0 g' hg'B
    have hgrpne : grp ≠ [] := by
      rw [← hg'eq]
      exact sortC_ne_nil _ _ hg'ne
    have hh : grp.headD 0 ∈ grp := headD_mem _ _ hgrpne
    have hh' : grp.headD 0 ∈ g' := by
      have h1 : grp.headD 0
          ∈ sortC (fun a b => cmpO (fitAt dfltI base a) (fitAt dfltI base b)) g' := by
        rw [hg'eq]
        exact hh
      exact (sortC_perm _ _).mem_iff.mp h1
    exact hBflat.mem_iff.mp (List.mem_flatten.mpr ⟨g', hg'B, hh'⟩)
  refine ⟨hef0, ?_⟩
  intro j hj
  obtain ⟨h, hhB, hjh⟩ := List.mem_flatten.mp (hBflat.mem_iff.mpr hj)
  have hhP : ∀ z ∈ h, z ∈ f0 := fun z hz =>
    hBflat.mem_iff.mp (List.mem_flatten.mpr ⟨h, hhB, hz⟩)
  have step1 : cmpO (fitAt dfltI base ((sortC (fun a b =>
      cmpO (fitAt dfltI base a) (fitAt dfltI base b)) h).headD 0))
      (fitAt dfltI base j) ≠ .gt := by
    exact sortC_head_min (fun a b => cmpO (fitAt dfltI base a) (fitAt dfltI base b))
      (fun z => z ∈ f0)
      (fun a b ha hb => hOasym a (hmem a ha) b (hmem b hb))
      (fun a b k ha hb hk => hOtr a (hmem a ha) b (hmem b hb) k (hmem k hk))
      h hhP 0 j hjh
  have hh0M : sortC (fun a b => cmpO (fitAt dfltI base a) (fitAt dfltI base b)) h
      ∈ (buildGroups similar (fitAt dfltI base) f0).map
        (sortC (fun a b => cmpO (fitAt dfltI base a) (fitAt dfltI base b))) :=
    List.mem_map.mpr ⟨h, hhB, rfl⟩
  have step2 : cmpO
      (fitAt dfltI base (((eliteGroups similar cmpO dfltI base f0).headD []).headD 0))
      (fitAt dfltI base ((sortC (fun a b =>
        cmpO (fitAt dfltI base a) (fitAt dfltI base b)) h).headD 0)) ≠ .gt := by
    exact sortC_head_min
      (fun g h => cmpO (fitAt dfltI base (g.headD 0)) (fitAt dfltI base (h.headD 0)))
      (fun grp => grp.headD 0 ∈ f0)
      (fun a b ha hb => hOasym _ (hmem _ ha) _ (hmem _ hb))
      (fun a b k ha hb hk => hOtr _ (hmem _ ha) _ (hmem _ hb) _ (hmem _ hk))
      ((buildGroups similar (fitAt dfltI base) f0).map
        (sortC (fun a b => cmpO (fitAt dfltI base a) (fitAt dfltI base b))))
      hPM [] _ hh0M
  exact hOtr _ (hmem _ hef0) _
    (hmem _ (hPM _ hh0M)) _ (hmem _ hj) step2 step1

theorem eliteGroups_ne_nil {G F : Type} (similar : F → F → Bool)
    (cmpO : F → F → Ordering) (dfltI : Ind G F) (base : List (Ind G F))
    (f0 : List Nat) (hne : f0 ≠ []) :
    eliteGroups similar cmpO dfltI base f0 ≠ [] := by
  have hBflat : ((buildGroups similar (fitAt dfltI base) f0).flatten).Perm f0 :=
    buildGroups_flatten_perm similar (fitAt dfltI base) f0
  have hBne : buildGroups similar (fitAt dfltI base) f0 ≠ [] := by
    intro h
    rw [h] at hBflat
    exact hne hBflat.nil_eq.symm
  exact sortC_ne_nil _ _ (fun h => hBne (List.map_eq_nil_iff.mp h))

theorem nsgpGroups_first_pick {G F : Type} (S0 : List (Ind G F)) (missing : Nat)
    (rng : List Nat) (x : Nat) (xs : List Nat) (grest : List (List Nat))
    (s' : List (Ind G F)) (m' : Nat) (r' : List Nat) (out' : List (List Nat))
    (hm : ¬ missing = 0)
    (h : nsgpGroups true S0 missing rng 0 ((x :: xs) :: grest) []
      = .ok (s', m', r', out')) :
    (flags s').getD x false = true := by
  have hgstep : nsgpGroups true S0 missing rng 0 ((x :: xs) :: grest) []
      = (if missing = 0
         then .ok (S0, missing, rng, [] ++ (x :: xs) :: grest)
         else
           match selectIdx S0 (swapRemove (x :: xs) 0).1 with
           | .error e => .error e
           | .ok s1 =>
             nsgpGroups true s1 (missing - 1) rng 1 grest
               ([] ++ [(swapRemove (x :: xs) 0).2])) := rfl
  rw [hgstep, if_neg hm] at h
  cases hsel1 : selectIdx S0 (swapRemove (x :: xs) 0).1 with
  | error e0 =>
    rw [hsel1] at h
    cases h
  | ok s1 =>
    rw [hsel1] at h
    have h2 : nsgpGroups true s1 (missing - 1) rng 1 grest
        ([] ++ [(swapRemove (x :: xs) 0).2]) = .ok (s', m', r', out') := h
    obtain ⟨hfl1, hx⟩ := selectIdx_ok_char S0 (swapRemove (x :: xs) 0).1 s1 hsel1
    have hsw1 : (swapRemove (x :: xs) 0).1 = x := rfl
    have hfx : (flags s1).getD x false = true := by
      rw [hfl1, hsw1]
      apply bool_getD_set_self
      rw [flags_length]
      rw [hsw1] at hx
      exact hx
    exact nsgpGroups_mono true grest s1 (missing - 1) rng 1 _ s' m' r' out' h2 x hfx

theorem nsgpFrontsLoop_first_pick {G F : Type} (S0 : List (Ind G F)) (missing : Nat)
    (rng : List Nat) (x : Nat) (xs : List Nat) (grest : List (List Nat))
    (tail : List (List (List Nat)))
    (s' : List (Ind G F)) (m' : Nat) (r' : List Nat) (out' : List (List (List Nat)))
    (hm : ¬ missing = 0)
    (h : nsgpFrontsLoop 0 S0 missing rng 0 (((x :: xs) :: grest) :: tail) []
      = .ok (s', m', r', out')) :
    (flags s').getD x false = true := by
  have hflstep : nsgpFrontsLoop 0 S0 missing rng 0 (((x :: xs) :: grest) :: tail) []
      = (match nsgpGroups true S0 missing rng 0 ((x :: xs) :: grest) [] with
         | .error e => .error e
         | .ok (s1, m1, r1, fr1) =>
           nsgpFrontsLoop 0 s1 m1 r1 1 tail
             ([] ++ [fr1.filter fun g => decide (0 < g.length)])) := rfl
  rw [hflstep] at h
  cases hg : nsgpGroups true S0 missing rng 0 ((x :: xs) :: grest) [] with
  | error e0 =>
    rw [hg] at h
    cases h
  | ok q =>
    obtain ⟨s1, m1, r1, fr1⟩ := q
    rw [hg] at h
    have h2 : nsgpFrontsLoop 0 s1 m1 r1 1 tail
        ([] ++ [fr1.filter fun g => decide (0 < g.length)]) = .ok (s', m', r', out') := h
    have hfx : (flags s1).getD x false = true :=
      nsgpGroups_first_pick S0 missing rng x xs grest s1 m1 r1 fr1 hm hg
    exact nsgpFrontsLoop_mono 0 tail s1 m1 r1 1 _ s' m' r' out' h2 x hfx

theorem nsgpRounds_first_pick {G F : Type} (fuel : Nat) (S0 : List (Ind G F))
    (missing : Nat) (rng : List Nat) (x : Nat) (xs : List Nat)
    (grest : List (List Nat)) (tail : List (List (List Nat)))
    (out : List (Ind G F))
    (hm : ¬ missing = 0)
    (h : nsgpRounds fuel S0 missing rng (((x :: xs) :: grest) :: tail) 0 = .ok out) :
    (flags out).getD x false = true := by
  cases fuel with
  | zero =>
    have hval : nsgpRounds 0 S0 missing rng (((x :: xs) :: grest) :: tail) 0
        = if missing = 0 then .ok S0 else .error .fuel := rfl
    rw [hval, if_neg hm] at h
    cases h
  | succ fu =>
    have hval : nsgpRounds (fu + 1) S0 missing rng (((x :: xs) :: grest) :: tail) 0
        = if missing = 0 then .ok S0
          else
            match nsgpFrontsLoop 0 S0 missing rng 0 (((x :: xs) :: grest) :: tail) [] with
            | .error e => .error e
            | .ok (s1, m1, r1, fg1) => nsgpRounds fu s1 m1 r1 fg1 1 := rfl
    rw [hval, if_neg hm] at h
    cases hfl : nsgpFrontsLoop 0 S0 missing rng 0 (((x :: xs) :: grest) :: tail) [] with
    | error e0 =>
      rw [hfl] at h
      cases h
    | ok q =>
      obtain ⟨s1, m1, r1, fg1⟩ := q
      rw [hfl] at h
      have h2 : nsgpRounds fu s1 m1 r1 fg1 1 = .ok out := h
      have hfx : (flags s1).getD x false = true :=
        nsgpFrontsLoop_first_pick S0 missing rng x xs grest tail s1 m1 r1 fg1 hm hfl
      exact nsgpRounds_mono fu s1 m1 r1 fg1 1 out h2 x hfx

/-- Front 0 as computed by the non-dominated sort inside `select_solutions`. -/
def nsgpFrontZero {G F : Type} (dom : F → F → Ordering) (dfltF : F)
    (sols : List (Ind G F)) : List Nat :=
  ((collectFronts (sols.length + 1)
    (sorterNewP dom (fitList (unselectAll sols)) dfltF)).1).headD []

/-- The index picked first by NSGP selection in round 0: the first member of the
first group of front 0 after the objective-0 sorts. -/
def nsgpElite {G F : Type} (similar : F → F → Bool) (cmpO : F → F → Ordering)
    (dfltI : Ind G F) (dom : F → F → Ordering) (dfltF : F)
    (sols : List (Ind G F)) : Nat :=
  ((eliteGroups similar cmpO dfltI (unselectAll sols)
    (nsgpFrontZero dom dfltF sols)).headD []).headD 0

/-- C5: under `SelectNSGP` selection with `µ ≥ 1` on a non-empty population,
the index `nsgpElite` — the first member of front 0's first group after the
per-group and inter-group sorts under `cmp_objective(objectives[0])` — lies in
front 0 and no front-0 member is strictly better under objective 0; and it is
the first pick of round 0, so in every successful run it ends up marked
selected.  Hypotheses: the objective list is non-empty, the crowding assignment
changes only ranks/distances, domination is a strict order on the fitness
values, and `cmp_objective` under objective 0 is a total order (asymmetric with
transitive `not-worse-than`) on the population's fitness values. -/
theorem C5_nsgp_elitism {G F : Type} (dom : F → F → Ordering) (dfltF : F)
    (dfltI : Ind G F)
    (cda : List (Ind G F) → List Nat → Nat → List (Ind G F))
    (similar : F → F → Bool) (cmpO : F → F → Ordering) (objectives : List Nat)
    (rng : List Nat) (fuel : Nat) (sols : List (Ind G F)) (select_n : Nat)
    (hobj : ¬ objectives = [])
    (hcdaFit : ∀ s f r, fitList (cda s f r) = fitList s)
    (hA : ∀ a ∈ fitList sols, ∀ b ∈ fitList sols, (dom a b = .lt ↔ dom b a = .gt))
    (hT : ∀ a ∈ fitList sols, ∀ b ∈ fitList sols, ∀ c ∈ fitList sols,
      dom a b = .lt → dom b c = .lt → dom a c = .lt)
    (hOasym : ∀ a, a < sols.length → ∀ b, b < sols.length →
      (cmpO (fitAt dfltI sols a) (fitAt dfltI sols b) = .lt
        ↔ cmpO (fitAt dfltI sols b) (fitAt dfltI sols a) = .gt))
    (hOtr : ∀ a, a < sols.length → ∀ b, b < sols.length → ∀ k, k < sols.length →
      cmpO (fitAt dfltI sols a) (fitAt dfltI sols b) ≠ .gt →
      cmpO (fitAt dfltI sols b) (fitAt dfltI sols k) ≠ .gt →
      cmpO (fitAt dfltI sols a) (fitAt dfltI sols k) ≠ .gt)
    (hn : 0 < sols.length) (hsel : 0 < select_n) :
    ((nsgpElite similar cmpO dfltI dom dfltF sols ∈ nsgpFrontZero dom dfltF sols)
      ∧ ∀ j ∈ nsgpFrontZero dom dfltF sols,
          cmpO (fitAt dfltI sols (nsgpElite similar cmpO dfltI dom dfltF sols))
            (fitAt dfltI sols j) ≠ .gt)
    ∧ (∀ out, selectNSGP_select_solutions dom dfltF dfltI cda similar cmpO
        objectives rng fuel sols select_n = .ok out →
        (flags out).getD (nsgpElite similar cmpO dfltI dom dfltF sols) false
          = true) := by
  have hfit0 : fitList (unselectAll sols) = fitList sols := fitList_unselectAll sols
  have h0 : fitAt dfltI (unselectAll sols) = fitAt dfltI sols :=
    funext (fitAt_congr dfltI hfit0)
  have hflen : (fitList (unselectAll sols)).length = sols.length := by
    rw [hfit0, fitList, List.length_map]
  have hA' : ∀ a ∈ fitList (unselectAll sols), ∀ b ∈ fitList (unselectAll sols),
      (dom a b = .lt ↔ dom b a = .gt) := by
    rw [hfit0]
    exact hA
  have hT' : ∀ a ∈ fitList (unselectAll sols), ∀ b ∈ fitList (unselectAll sols),
      ∀ c ∈ fitList (unselectAll sols),
      dom a b = .lt → dom b c = .lt → dom a c = .lt := by
    rw [hfit0]
    exact hT
  have hmain := collectFronts_partition dom (fitList (unselectAll sols)) dfltF hA' hT'
    (sols.length + 1) [] (sorterNewP dom (fitList (unselectAll sols)) dfltF)
    (sorterNewP_inv dom (fitList (unselectAll sols)) dfltF) (by omega)
  rw [hflen] at hmain
  have hflat : (((collectFronts (sols.length + 1)
      (sorterNewP dom (fitList (unselectAll sols)) dfltF)).1).flatten).Perm
      (List.range sols.length) := by
    simpa using hmain.1
  cases hfr : (collectFronts (sols.length + 1)
      (sorterNewP dom (fitList (unselectAll sols)) dfltF)).1 with
  | nil =>
    exfalso
    rw [hfr] at hflat
    have hrn : ([] : List Nat) = List.range sols.length := hflat.nil_eq
    have := congrArg List.length hrn
    rw [List.length_range] at this
    simp at this
    omega
  | cons f0 frest =>
    have hfz : nsgpFrontZero dom dfltF sols = f0 := by
      unfold nsgpFrontZero
      rw [hfr]
      rfl
    have hf0ne : f0 ≠ [] := collectFronts_ne_nil _ _ f0 (by rw [hfr]; simp)
    have hmemf0 : ∀ j ∈ f0, j < sols.length := by
      intro j hj
      apply List.mem_range.mp
      apply hflat.mem_iff.mp
      rw [hfr, List.flatten_cons]
      exact List.mem_append_left _ hj
    have hOasym0 : ∀ a, a < (unselectAll sols).length →
        ∀ b, b < (unselectAll sols).length →
        (cmpO (fitAt dfltI (unselectAll sols) a) (fitAt dfltI (unselectAll sols) b)
            = .lt
          ↔ cmpO (fitAt dfltI (unselectAll sols) b) (fitAt dfltI (unselectAll sols) a)
            = .gt) := by
      simp only [h0, length_unselectAll]
      exact hOasym
    have hOtr0 : ∀ a, a < (unselectAll sols).length →
        ∀ b, b < (unselectAll sols).length → ∀ k, k < (unselectAll sols).length →
        cmpO (fitAt dfltI (unselectAll sols) a) (fitAt dfltI (unselectAll sols) b)
          ≠ .gt →
        cmpO (fitAt dfltI (unselectAll sols) b) (fitAt dfltI (unselectAll sols) k)
          ≠ .gt →
        cmpO (fitAt dfltI (unselectAll sols) a) (fitAt dfltI (unselectAll sols) k)
          ≠ .gt := by
      simp only [h0, length_unselectAll]
      exact hOtr
    have hmem0 : ∀ j ∈ f0, j < (unselectAll sols).length := by
      rw [length_unselectAll]
      exact hmemf0
    obtain ⟨hi1, hi2⟩ := elite_min similar cmpO dfltI (unselectAll sols) f0 hf0ne
      hmem0 hOasym0 hOtr0
    have hel : nsgpElite similar cmpO dfltI dom dfltF sols
        = ((eliteGroups similar cmpO dfltI (unselectAll sols) f0).headD []).headD 0 := by
      unfold nsgpElite
      rw [hfz]
    constructor
    · constructor
      · rw [hfz, hel]
        exact hi1
      · intro j hj
        rw [hfz] at hj
        rw [hel, ← h0]
        exact hi2 j hj
    · intro out he
      have hmne : ¬ (min sols.length select_n = 0) := by omega
      have he' : nsgpRounds fuel
          ((((collectFronts (sols.length + 1)
            (sorterNewP dom (fitList (unselectAll sols)) dfltF)).1).foldl
            (nsgpFrontStep cda similar cmpO dfltI)
            ((unselectAll sols, []), 0)).1.1) (min sols.length select_n) rng
          ((((collectFronts (sols.length + 1)
            (sorterNewP dom (fitList (unselectAll sols)) dfltF)).1).foldl
            (nsgpFrontStep cda similar cmpO dfltI)
            ((unselectAll sols, []), 0)).1.2) 0 = .ok out := by
        have hrw : selectNSGP_select_solutions dom dfltF dfltI cda similar cmpO
            objectives rng fuel sols select_n
            = nsgpRounds fuel ((((collectFronts (sols.length + 1)
                (sorterNewP dom (fitList (unselectAll sols)) dfltF)).1).foldl
                (nsgpFrontStep cda similar cmpO dfltI)
                ((unselectAll sols, []), 0)).1.1) (min sols.length select_n) rng
                ((((collectFronts (sols.length + 1)
                  (sorterNewP dom (fitList (unselectAll sols)) dfltF)).1).foldl
                  (nsgpFrontStep cda similar cmpO dfltI)
                  ((unselectAll sols, []), 0)).1.2) 0 := by
          unfold selectNSGP_select_solutions
          rw [if_neg hobj]
        rw [← hrw]
        exact he
      have hb2 : (f0 :: frest).foldl (nsgpFrontStep cda similar cmpO dfltI)
          ((unselectAll sols, []), 0)
          = frest.foldl (nsgpFrontStep cda similar cmpO dfltI)
              (((nsgpFront cda similar cmpO dfltI (unselectAll sols) f0 0).1,
                [] ++ [(nsgpFront cda similar cmpO dfltI (unselectAll sols) f0 0).2]),
               0 + 1) := by
        rw [List.foldl_cons]
        rfl
      obtain ⟨tail, htail⟩ := nsgpBuild_prefix cda similar cmpO dfltI frest
        (nsgpFront cda similar cmpO dfltI (unselectAll sols) f0 0).1
        ([] ++ [(nsgpFront cda similar cmpO dfltI (unselectAll sols) f0 0).2]) (0 + 1)
      have hfg : ((((collectFronts (sols.length + 1)
          (sorterNewP dom (fitList (unselectAll sols)) dfltF)).1).foldl
          (nsgpFrontStep cda similar cmpO dfltI)
          ((unselectAll sols, []), 0)).1.2)
          = (nsgpFront cda similar cmpO dfltI (unselectAll sols) f0 0).2 :: tail := by
        rw [hfr, hb2, htail]
        rfl
      have hGSeq : (nsgpFront cda similar cmpO dfltI (unselectAll sols) f0 0).2
          = eliteGroups similar cmpO dfltI (unselectAll sols) f0 :=
        nsgpFront_groups' cda similar cmpO dfltI hcdaFit (unselectAll sols) f0 0
      have hGSne : eliteGroups similar cmpO dfltI (unselectAll sols) f0 ≠ [] :=
        eliteGroups_ne_nil similar cmpO dfltI (unselectAll sols) f0 hf0ne
      cases hGS : eliteGroups similar cmpO dfltI (unselectAll sols) f0 with
      | nil => exact absurd hGS hGSne
      | cons g0 grest =>
        have hg0ne : g0 ≠ [] := eliteGroups_member_ne_nil similar cmpO dfltI
          (unselectAll sols) f0 g0 (by rw [hGS]; simp)
        cases hg0 : g0 with
        | nil => exact absurd hg0 hg0ne
        | cons x xs =>
          have heliteEq : nsgpElite similar cmpO dfltI dom dfltF sols = x := by
            rw [hel, hGS, hg0]
            rfl
          rw [heliteEq]
          rw [hfg, hGSeq, hGS, hg0] at he'
          exact nsgpRounds_first_pick fuel _ (min sols.length select_n) rng x xs
            grest tail out hmne he'

def solsC5 : List (Ind Unit (Nat × Nat)) :=
  [⟨(), (1, 3), 0, .fin 0, 1, false⟩,
   ⟨(), (3, 1), 0, .fin 0, 1, false⟩,
   ⟨(), (2, 2), 0, .fin 0, 1, false⟩]

def dfltIC5 : Ind Unit (Nat × Nat) := ⟨(), (0, 0), 0, .fin 0, 1, false⟩

def simC5 : (Nat × Nat) → (Nat × Nat) → Bool := fun a b => decide (a.1 = b.1)

/-- Witness for C5: a three-solution single-front population with objective-0
values 1, 3, 2; the elite lies in front 0, is never beaten under objective 0,
and a concrete NSGP run marks it selected. -/
theorem C5_nsgp_elitism_witness :
    ((nsgpElite simC5 objTuple1.totalOrder dfltIC5 tupleDomOrd (0, 0) solsC5
        ∈ nsgpFrontZero tupleDomOrd (0, 0) solsC5)
      ∧ ∀ j ∈ nsgpFrontZero tupleDomOrd (0, 0) solsC5,
          objTuple1.totalOrder
            (fitAt dfltIC5 solsC5
              (nsgpElite simC5 objTuple1.totalOrder dfltIC5 tupleDomOrd (0, 0) solsC5))
            (fitAt dfltIC5 solsC5 j) ≠ .gt)
    ∧ (∃ out, selectNSGP_select_solutions tupleDomOrd (0, 0) dfltIC5
        (fun s _ _ => s) simC5 objTuple1.totalOrder [0, 1] [0, 0, 0, 0, 0, 0] 4
        solsC5 2 = .ok out
      ∧ (flags out).getD
          (nsgpElite simC5 objTuple1.totalOrder dfltIC5 tupleDomOrd (0, 0) solsC5)
          false = true) := by
  have h := C5_nsgp_elitism tupleDomOrd (0, 0) dfltIC5 (fun s _ _ => s) simC5
    objTuple1.totalOrder [0, 1] [0, 0, 0, 0, 0, 0] 4 solsC5 2
    (by decide) (fun _ _ _ => rfl) (by decide) (by decide) (by decide) (by decide)
    (by decide) (by decide)
  obtain ⟨out, hout⟩ : ∃ out, selectNSGP_select_solutions tupleDomOrd (0, 0) dfltIC5
      (fun s _ _ => s) simC5 objTuple1.totalOrder [0, 1] [0, 0, 0, 0, 0, 0] 4
      solsC5 2 = .ok out := ⟨_, by with_unfolding_all rfl⟩
  exact ⟨h.1, out, hout, h.2 out hout⟩

/-! ## Embedding of `driver.rs`: `Driver::run`

The driver is generic over the selection policy; it is embedded here with
`SelectNSGA`.  `Individual::from_genome` plus `rate_in_parallel` produce a
rated individual (`ratedInd`): pareto rank `u32::MAX`, crowding distance `0`,
crowd size `1`, unselected.  `RankedPopulation::reproduce` (population.rs lines
257–309) draws two parents per child by `tournament_selection_fast` (each
tournament consumes `k` draws of the scripted stream) and mates them; the user
`mate` callback receives the stream and returns the advanced stream.  The
logger is modelled as the trace of its `(generation, solutions_found,
population size)` calls (the wall-clock duration argument is not modelled);
`time::precise_time_ns` has no observable effect.  The unbounded `loop` gets
fuel `ngen + 2`, which the generation counter never exhausts. -/

def ratedInd {G F : Type} (fitF : G → F) (g : G) : Ind G F :=
  { genome := g, fitness := fitF g, rank := 4294967295, dist := .fin 0, crowd := 1,
    selected := false }

def reproduceGo {G F : Type} (dfltI : Ind G F) (rc : Ind G F → Ind G F → Bool)
    (mate : List Nat → G → G → G × List Nat) (parents : List (Ind G F)) (k : Nat) :
    Nat → List Nat → List G → Except SelErr (List G × List Nat)
  | 0, rng, acc => .ok (acc, rng)
  | m + 1, rng, acc =>
    match tournament_selection_fast rng
        (fun i j => rc (parents.getD i dfltI) (parents.getD j dfltI))
        parents.length k with
    | none => .error .reproAssert
    | some p1 =>
      match tournament_selection_fast (rng.drop k)
          (fun i j => rc (parents.getD i dfltI) (parents.getD j dfltI))
          parents.length k with
      | none => .error .reproAssert
      | some p2 =>
        let mr := mate ((rng.drop k).drop k) (parents.getD p1 dfltI).genome
          (parents.getD p2 dfltI).genome
        reproduceGo dfltI rc mate parents k m mr.2 (acc ++ [mr.1])

/-- `RankedPopulation::reproduce` (population.rs lines 257–309). -/
def reproduce {G F : Type} (dfltI : Ind G F) (rc : Ind G F → Ind G F → Bool)
    (mate : List Nat → G → G → G × List Nat) (parents : List (Ind G F))
    (rng : List Nat) (lambda k : Nat) : Except SelErr (List G × List Nat) :=
  if k = 0 ∨ parents.length = 0 then .error .reproAssert
  else reproduceGo dfltI rc mate parents k lambda rng []

/-- The `loop` of `Driver::run` (driver.rs lines 114–138), fueled. -/
def driverLoop {G F : Type} (dom : F → F → Ordering) (dfltF : F)
    (cda : List (Ind G F) → List Nat → Nat → List (Ind G F))
    (cmp : List (Ind G F) → Nat → Nat → Ordering)
    (rcOrd : Ind G F → Ind G F → Ordering) (objectives : List Nat)
    (fitF : G → F) (isSol : G → F → Bool) (dfltI : Ind G F)
    (rc : Ind G F → Ind G F → Bool) (mate : List Nat → G → G → G × List Nat)
    (mu lambda k ngen : Nat) :
    Nat → List (Ind G F) → List G → List Nat → Nat → List (Nat × Nat × Nat) →
    Except SelErr (List (Ind G F) × List (Nat × Nat × Nat))
  | 0, _, _, _, _, _ => .error .fuel
  | fuel + 1, parents, offspring, rng, gen, trace =>
    match ratedSelect
        (fun s n => selectNSGA_select_solutions dom dfltF cda cmp objectives s n)
        rcOrd (parents ++ offspring.map (ratedInd fitF)) mu with
    | .error e => .error e
    | .ok newParents =>
      let found := newParents.countP (fun i => isSol i.genome i.fitness)
      let trace' := trace ++ [(gen, found, newParents.length)]
      if 0 < found then .ok (newParents, trace')
      else if ngen < gen + 1 then .ok (newParents, trace')
      else
        match reproduce dfltI rc mate newParents rng lambda k with
        | .error e => .error e
        | .ok offRng =>
          driverLoop dom dfltF cda cmp rcOrd objectives fitF isSol dfltI rc mate
            mu lambda k ngen fuel newParents offRng.1 offRng.2 (gen + 1) trace'

/-- `Driver::run` (driver.rs lines 93–141): empty parent population, `mu` random
initial genomes (`genome` is the scripted genome generator), then the loop. -/
def driverRun {G F : Type} (dom : F → F → Ordering) (dfltF : F)
    (cda : List (Ind G F) → List Nat → Nat → List (Ind G F))
    (cmp : List (Ind G F) → Nat → Nat → Ordering)
    (rcOrd : Ind G F → Ind G F → Ordering) (objectives : List Nat)
    (fitF : G → F) (isSol : G → F → Bool) (dfltI : Ind G F)
    (rc : Ind G F → Ind G F → Bool) (mate : List Nat → G → G → G × List Nat)
    (genome : Nat → G) (mu lambda k ngen : Nat) (rng0 : List Nat) :
    Except SelErr (List (Ind G F) × List (Nat × Nat × Nat)) :=
  driverLoop dom dfltF cda cmp rcOrd objectives fitF isSol dfltI rc mate
    mu lambda k ngen (ngen + 2) [] ((List.range mu).map genome) rng0 0 []

/-- C8: if the user's `is_solution` predicate returns `true` for every
`(genome, fitness)` pair and `µ ≥ 1`, `Driver::run` terminates after
generation 0: the logger is invoked exactly once, with generation index `0` and
`solutions_found = µ`, and the returned `Ranked` population consists of the `µ`
parents selected in that first generation (under the usual hypotheses: a
non-empty objective list, a crowding assignment that does not touch `selected`
flags, and a strict dominance order on the initial fitness values). -/
theorem C8_driver_early_termination {G F : Type} (dom : F → F → Ordering)
    (dfltF : F)
    (cda : List (Ind G F) → List Nat → Nat → List (Ind G F))
    (cmp : List (Ind G F) → Nat → Nat → Ordering)
    (rcOrd : Ind G F → Ind G F → Ordering) (objectives : List Nat)
    (fitF : G → F) (isSol : G → F → Bool) (dfltI : Ind G F)
    (rc : Ind G F → Ind G F → Bool) (mate : List Nat → G → G → G × List Nat)
    (genome : Nat → G) (mu lambda k ngen : Nat) (rng0 : List Nat)
    (hobj : ¬ objectives = [])
    (hcda : ∀ s f r, flags (cda s f r) = flags s)
    (hsol : ∀ g f, isSol g f = true)
    (hmu : 0 < mu)
    (hA : ∀ a ∈ fitList (((List.range mu).map genome).map (ratedInd fitF)),
      ∀ b ∈ fitList (((List.range mu).map genome).map (ratedInd fitF)),
      (dom a b = .lt ↔ dom b a = .gt))
    (hT : ∀ a ∈ fitList (((List.range mu).map genome).map (ratedInd fitF)),
      ∀ b ∈ fitList (((List.range mu).map genome).map (ratedInd fitF)),
      ∀ c ∈ fitList (((List.range mu).map genome).map (ratedInd fitF)),
      dom a b = .lt → dom b c = .lt → dom a c = .lt) :
    ∃ parents, driverRun dom dfltF cda cmp rcOrd objectives fitF isSol dfltI rc
        mate genome mu lambda k ngen rng0 = .ok (parents, [(0, mu, mu)])
      ∧ parents.length = mu := by
  have hRlen : (((List.range mu).map genome).map (ratedInd fitF)).length = mu := by
    simp
  obtain ⟨sols', hpol, _, hcnt⟩ := selectNSGA_count dom dfltF cda cmp objectives
    (((List.range mu).map genome).map (ratedInd fitF)) mu hobj hcda hA hT hmu
  have hcnt' : countSel sols' = mu := by
    rw [hcnt, hRlen]
    omega
  obtain ⟨out, hsel2, hlen, _⟩ := ratedSelect_ok
    (fun s n => selectNSGA_select_solutions dom dfltF cda cmp objectives s n)
    rcOrd (((List.range mu).map genome).map (ratedInd fitF)) mu sols' hpol hcnt'
  have hfound : out.countP (fun i => isSol i.genome i.fitness) = mu := by
    rw [← hlen]
    apply List.countP_eq_length.mpr
    intro a _
    exact hsol a.genome a.fitness
  refine ⟨out, ?_, hlen⟩
  have hstep : driverRun dom dfltF cda cmp rcOrd objectives fitF isSol dfltI rc
      mate genome mu lambda k ngen rng0
      = (match ratedSelect
          (fun s n => selectNSGA_select_solutions dom dfltF cda cmp objectives s n)
          rcOrd ([] ++ ((List.range mu).map genome).map (ratedInd fitF)) mu with
        | .error e => .error e
        | .ok newParents =>
          if 0 < newParents.countP (fun i => isSol i.genome i.fitness)
          then .ok (newParents,
            [] ++ [(0, newParents.countP (fun i => isSol i.genome i.fitness),
              newParents.length)])
          else if ngen < 0 + 1
          then .ok (newParents,
            [] ++ [(0, newParents.countP (fun i => isSol i.genome i.fitness),
              newParents.length)])
          else
            match reproduce dfltI rc mate newParents rng0 lambda k with
            | .error e => .error e
            | .ok offRng =>
              driverLoop dom dfltF cda cmp rcOrd objectives fitF isSol dfltI rc
                mate mu lambda k ngen (ngen + 0 + 1) newParents offRng.1 offRng.2
                (0 + 1) ([] ++ [(0, newParents.countP
                  (fun i => isSol i.genome i.fitness), newParents.length)])) := rfl
  rw [hstep]
  have hsel2' : ratedSelect
      (fun s n => selectNSGA_select_solutions dom dfltF cda cmp objectives s n)
      rcOrd ([] ++ ((List.range mu).map genome).map (ratedInd fitF)) mu
      = .ok out := hsel2
  rw [hsel2']
  show (if 0 < out.countP (fun i => isSol i.genome i.fitness)
      then (Except.ok (out, [] ++ [((0 : Nat),
        out.countP (fun i => isSol i.genome i.fitness), out.length)])
        : Except SelErr (List (Ind G F) × List (Nat × Nat × Nat)))
      else _) = _
  rw [hfound, hlen, if_pos hmu]
  rfl

/-- Witness for C8: a driver over `Nat` genomes with fitness `g ↦ (g, 2 - g)`,
`µ = 2`, and an always-true `is_solution` returns after generation 0 with a
single logger record `(0, 2, 2)` and two parents. -/
theorem C8_driver_early_termination_witness :
    ∃ parents, driverRun tupleDomOrd (0, 0) (fun s _ _ => s)
        (fun _ _ _ => Ordering.eq) (fun _ _ => Ordering.eq) [0]
        (fun g => (g, 2 - g)) (fun _ _ => true)
        (⟨0, (0, 0), 0, .fin 0, 1, false⟩ : Ind Nat (Nat × Nat))
        (fun _ _ => true) (fun r a _ => (a, r)) (fun n => n) 2 1 1 3 []
        = .ok (parents, [(0, 2, 2)])
      ∧ parents.length = 2 :=
  C8_driver_early_termination tupleDomOrd (0, 0) (fun s _ _ => s)
    (fun _ _ _ => Ordering.eq) (fun _ _ => Ordering.eq) [0]
    (fun g => (g, 2 - g)) (fun _ _ => true)
    ⟨0, (0, 0), 0, .fin 0, 1, false⟩ (fun _ _ => true) (fun r a _ => (a, r))
    (fun n => n) 2 1 1 3 []
    (by decide) (fun _ _ _ => rfl) (fun _ _ => rfl) (by decide)
    (by decide) (by decide)

/-- C2: the claim's first half holds of `select_solutions` — exactly
`min(µ, n)` individuals are marked selected — and `RatedPopulation::select`
does return exactly `population_size` survivors when `µ ≤ n`; but its closing
`assert!(individuals.len() == population_size)` (population.rs line 212) makes
the `n < µ` case an ERROR: with NSGA selection every such run aborts with the
size assertion, and a concrete one-individual NSGP run with `µ = 2` aborts the
same way, so "when n < µ the whole population is returned ranked and this is
not an error" does not hold of the code. -/
theorem C2_selection_size {G F : Type} (dom : F → F → Ordering) (dfltF : F)
    (cda : List (Ind G F) → List Nat → Nat → List (Ind G F))
    (cmp : List (Ind G F) → Nat → Nat → Ordering)
    (rcOrd : Ind G F → Ind G F → Ordering) (objectives : List Nat)
    (sols : List (Ind G F)) (population_size : Nat)
    (hobj : ¬ objectives = [])
    (hcda : ∀ s f r, flags (cda s f r) = flags s)
    (hA : ∀ a ∈ fitList sols, ∀ b ∈ fitList sols, (dom a b = .lt ↔ dom b a = .gt))
    (hT : ∀ a ∈ fitList sols, ∀ b ∈ fitList sols, ∀ c ∈ fitList sols,
      dom a b = .lt → dom b c = .lt → dom a c = .lt)
    (hmu : 0 < population_size) :
    (∃ sols', selectNSGA_select_solutions dom dfltF cda cmp objectives sols
        population_size = .ok sols'
      ∧ countSel sols' = min sols.length population_size)
    ∧ (population_size ≤ sols.length →
      ∃ out, ratedSelect (fun s n => selectNSGA_select_solutions dom dfltF cda cmp
          objectives s n) rcOrd sols population_size = .ok out
        ∧ out.length = population_size)
    ∧ (sols.length < population_size →
      ratedSelect (fun s n => selectNSGA_select_solutions dom dfltF cda cmp
          objectives s n) rcOrd sols population_size = .error .sizeAssert)
    ∧ ratedSelect (fun s n => selectNSGP_select_solutions tupleDomOrd (0, 0)
          dfltIC5 (fun s _ _ => s) simC5 objTuple1.totalOrder [0, 1]
          [0, 0, 0, 0, 0, 0] 4 s n)
        (fun _ _ => Ordering.eq)
        [(⟨(), (1, 2), 0, .fin 0, 1, false⟩ : Ind Unit (Nat × Nat))] 2
        = .error .sizeAssert := by
  obtain ⟨sols', hpol, hlen, hcnt⟩ := selectNSGA_count dom dfltF cda cmp
    objectives sols population_size hobj hcda hA hT hmu
  refine ⟨⟨sols', hpol, hcnt⟩, ?_, ?_, ?_⟩
  · intro hle
    have hcnt' : countSel sols' = population_size := by
      rw [hcnt]
      omega
    obtain ⟨out, hsel, hl, _⟩ := ratedSelect_ok
      (fun s n => selectNSGA_select_solutions dom dfltF cda cmp objectives s n)
      rcOrd sols population_size sols' hpol hcnt'
    exact ⟨out, hsel, hl⟩
  · intro hlt
    have hkl : (sols'.filter fun s => s.selected).length = countSel sols' := by
      unfold countSel
      rw [← List.countP_eq_length_filter]
      unfold flags
      rw [List.count_eq_countP, List.countP_map]
      congr 1
      funext s
      simp
    have hne : ¬ (sortC rcOrd (sols'.filter fun s => s.selected)).length
        = population_size := by
      rw [(sortC_perm rcOrd _).length_eq, hkl, hcnt]
      omega
    have hstep : ratedSelect (fun s n => selectNSGA_select_solutions dom dfltF
          cda cmp objectives s n) rcOrd sols population_size
        = match selectNSGA_select_solutions dom dfltF cda cmp objectives sols
            population_size with
          | .error e => .error e
          | .ok sols2 =>
            if (sortC rcOrd (sols2.filter fun s => s.selected)).length
                = population_size
            then .ok (sortC rcOrd (sols2.filter fun s => s.selected))
            else .error .sizeAssert := rfl
    rw [hstep, hpol]
    show (if (sortC rcOrd (sols'.filter fun s => s.selected)).length
          = population_size
        then (Except.ok (sortC rcOrd (sols'.filter fun s => s.selected))
          : Except SelErr (List (Ind G F)))
        else _) = _
    rw [if_neg hne]
  · with_unfolding_all rfl

/-- Witness for C2 on a one-individual population with `µ = 2`: NSGA
`select_solutions` succeeds marking `min(1, 2) = 1` individual, yet
`RatedPopulation::select` returns the `sizeAssert` error for both policies. -/
theorem C2_selection_size_witness :
    (∃ sols', selectNSGA_select_solutions tupleDomOrd (0, 0) (fun s _ _ => s)
        (fun _ _ _ => Ordering.eq) [0, 1]
        [(⟨(), (1, 2), 0, .fin 0, 1, false⟩ : Ind Unit (Nat × Nat))] 2 = .ok sols'
      ∧ countSel sols' = 1)
    ∧ ((2 : Nat) ≤ 1 →
      ∃ out, ratedSelect (fun s n => selectNSGA_select_solutions tupleDomOrd
          (0, 0) (fun s _ _ => s) (fun _ _ _ => Ordering.eq) [0, 1] s n)
        (fun _ _ => Ordering.eq)
        [(⟨(), (1, 2), 0, .fin 0, 1, false⟩ : Ind Unit (Nat × Nat))] 2 = .ok out
        ∧ out.length = 2)
    ∧ ((1 : Nat) < 2 →
      ratedSelect (fun s n => selectNSGA_select_solutions tupleDomOrd (0, 0)
          (fun s _ _ => s) (fun _ _ _ => Ordering.eq) [0, 1] s n)
        (fun _ _ => Ordering.eq)
        [(⟨(), (1, 2), 0, .fin 0, 1, false⟩ : Ind Unit (Nat × Nat))] 2
        = .error .sizeAssert)
    ∧ ratedSelect (fun s n => selectNSGP_select_solutions tupleDomOrd (0, 0)
          dfltIC5 (fun s _ _ => s) simC5 objTuple1.totalOrder [0, 1]
          [0, 0, 0, 0, 0, 0] 4 s n)
        (fun _ _ => Ordering.eq)
        [(⟨(), (1, 2), 0, .fin 0, 1, false⟩ : Ind Unit (Nat × Nat))] 2
        = .error .sizeAssert :=
  C2_selection_size tupleDomOrd (0, 0) (fun s _ _ => s) (fun _ _ _ => Ordering.eq)
    (fun _ _ => Ordering.eq) [0, 1]
    [⟨(), (1, 2), 0, .fin 0, 1, false⟩] 2
    (by decide) (fun _ _ _ => rfl) (by decide) (by decide) (by decide)

end NSGA2
